import Mathlib

/-!
# usbimager: stream.c and disks_win.c

A shallow embedding of the functions of `src/stream.c` and of `disks_open` and `disks_close`
of `src/disks_win.c`.

Conventions of the embedding
* bytes are natural numbers, reduced `% 256` where they are read from a file;
* `uint64_t` counters are natural numbers reduced `% 2 ^ 64` where the C code can wrap,
  `int64_t` values are integers obtained through `toInt64`;
* the host is little-endian (the code copies size fields with `memcpy`/`fread` into integers);
* pointers into `hdr`, `compBuf` and the caller's block are offsets;
* a read of `hdr[i]` at a computed index `i` outside the 64 KiB array has no defined
  result in C: the embedding reports it as `Fault.oob i`;
* zlib, libbz2 and xz-embedded are parameters (`Lib`): arbitrary functions of the decoder
  state, the pending input bytes and the free output space.
-/

namespace UsbImager

/-! ## Faults -/

/-- Executions of the C code that have no defined result. -/
inductive Fault where
  /-- read of `hdr[i]` with `i` outside the header window -/
  | oob (i : Nat)
  /-- the iteration bound of a modelled loop was exhausted -/
  | fuel
  /-- a stdio call on a NULL `FILE*`, or a decoder call on a NULL decoder -/
  | null
  /-- an integer division by zero -/
  | div0
  /-- a call of `fclose` on a `FILE*` that `fclose` has already released -/
  | closed
  deriving DecidableEq

/-- Result of running a piece of C code: a value, or a fault. -/
abbrev Res (α : Type) := Except Fault α

/-! ## Files and stdio -/

/-- Content of a file on disk: its length (an `off_t`, below `2 ^ 63`) and its bytes. -/
structure FileData where
  size : Nat
  byte : Nat → Nat
  size_lt : size < 2 ^ 63

/-- The byte of the file at offset `i` (an `unsigned char`). -/
def FileData.get (d : FileData) (i : Nat) : Nat := d.byte i % 256

/-- An stdio stream: the file it reads, the file position, and whether `fclose` was called. -/
structure FILE where
  data : FileData
  pos : Nat
  closed : Bool

/-- Number of bytes a read of `n` bytes at the current position delivers. -/
def FILE.avail (f : FILE) (n : Nat) : Nat := min n (f.data.size - f.pos)

/-- Stream position after `fread` of `n` bytes. -/
def FILE.advance (f : FILE) (n : Nat) : FILE := { f with pos := f.pos + f.avail n }

/-- Return value of `fread(ptr, n, 1, f)`: one item when all `n` bytes were there. -/
def FILE.fread_items (f : FILE) (n : Nat) : Nat := if f.avail n = n then 1 else 0

/-- Memory after `fread(mem + off, n, 1, f)`: the delivered bytes replace `mem[off ..]`. -/
def FILE.fread_into (f : FILE) (mem : Nat → Nat) (off n : Nat) : Nat → Nat :=
  fun i => if off ≤ i ∧ i < off + f.avail n then f.data.get (f.pos + (i - off)) else mem i

/-- Little-endian value of the `n` bytes `mem[off], ..., mem[off + n - 1]`. -/
def le_bytes (mem : Nat → Nat) (off : Nat) : Nat → Nat
  | 0 => 0
  | n + 1 => mem off + 256 * le_bytes mem (off + 1) n

/-- The call `fseek(f, -4L, SEEK_END)`: it fails, leaving the position, on a file shorter than 4 bytes. -/
def FILE.fseek_end_m4 (f : FILE) : FILE :=
  if 4 ≤ f.data.size then { f with pos := f.data.size - 4 } else f

/-- The call `fseek(f, 0L, SEEK_END)`. -/
def FILE.fseek_end (f : FILE) : FILE := { f with pos := f.data.size }

/-- The call `fseek(f, off, SEEK_SET)`. -/
def FILE.fseek_set (f : FILE) (off : Nat) : FILE := { f with pos := off }

/-- The call `fclose(f)`. -/
def FILE.fclose (f : FILE) : FILE := { f with closed := true }

/-! ## Machine integers -/

/-- Subtraction of `uint64_t` values. -/
def sub64 (a b : Nat) : Nat := (a % 2 ^ 64 + 2 ^ 64 - b % 2 ^ 64) % 2 ^ 64

/-- Addition of `uint64_t` values. -/
def add64 (a b : Nat) : Nat := (a + b) % 2 ^ 64

/-- Conversion of a `uint64_t` value to `int`. -/
def toInt32 (a : Nat) : Int := if a % 2 ^ 32 < 2 ^ 31 then (a % 2 ^ 32 : Nat) else (a % 2 ^ 32 : Nat) - 2 ^ 32

/-- Conversion of a `uint64_t` value to `int64_t`. -/
def toInt64 (a : Nat) : Int := if a % 2 ^ 64 < 2 ^ 63 then (a % 2 ^ 64 : Nat) else (a % 2 ^ 64 : Nat) - 2 ^ 64

/-! ## The stream context -/

/-- Modelled from the spec: `BUFFER_SIZE` is defined in `stream.h`, which is not part of the
sources; the spec gives the block size as 64 KiB. -/
def BUFFER_SIZE : Nat := 65536

/-- Modelled from the spec: the `TYPE_*` constants of `stream.h` (variant Plain, Deflate,
Bzip2, Xz); `TYPE_PLAIN` is the value a zeroed context holds. -/
inductive StreamType where
  | TYPE_PLAIN
  | TYPE_DEFLATE
  | TYPE_BZIP2
  | TYPE_XZ
  deriving DecidableEq

export StreamType (TYPE_PLAIN TYPE_DEFLATE TYPE_BZIP2 TYPE_XZ)

/-- The fields of zlib's `z_stream` the code uses; `state` is the decoder's internal state. -/
structure z_stream where
  next_in : Nat
  avail_in : Nat
  next_out : Nat
  avail_out : Nat
  state : Nat

/-- The fields of libbz2's `bz_stream` the code uses. -/
structure bz_stream where
  next_in : Nat
  avail_in : Nat
  next_out : Nat
  avail_out : Nat
  state : Nat

/-- The `struct xz_buf` of xz-embedded. -/
structure xz_buf where
  in_pos : Nat
  in_size : Nat
  out_pos : Nat
  out_size : Nat

/-- Modelled from the spec: `stream_t` is declared in `stream.h`, which is not part of the
sources; the fields are those `stream.c` uses. -/
structure stream_t where
  f : Option FILE
  b : Option Nat
  type : StreamType
  fileSize : Nat
  compSize : Nat
  readSize : Nat
  cmrdSize : Nat
  start : Nat
  compBuf : Nat → Nat
  zstrm : z_stream
  bstrm : bz_stream
  xstrm : xz_buf
  xz : Option Nat

/-- The context after `memset(ctx, 0, sizeof(stream_t))`. -/
def stream_t.zero : stream_t :=
  { f := none, b := none, type := TYPE_PLAIN, fileSize := 0, compSize := 0, readSize := 0,
    cmrdSize := 0, start := 0, compBuf := fun _ => 0,
    zstrm := ⟨0, 0, 0, 0, 0⟩, bstrm := ⟨0, 0, 0, 0, 0⟩, xstrm := ⟨0, 0, 0, 0⟩, xz := none }

/-! ## The decoder libraries -/

/-- What one call of a decoder did: its return code, how many input bytes it consumed, how
many bytes it produced, the bytes it produced, and its new internal state. -/
structure CodecOut where
  ret : Int
  consumed : Nat
  produced : Nat
  out : Nat → Nat
  state : Nat

/-- The three decoder libraries. A decoding function takes the decoder state, the number of
pending input bytes, these bytes, and the free output space. The initialisers give their
return value and the fresh decoder state. -/
structure Lib where
  inflateInit2 : Int × Nat
  inflate : Nat → Nat → (Nat → Nat) → Nat → CodecOut
  BZ2_bzDecompressInit : Int × Nat
  BZ2_bzDecompress : Nat → Nat → (Nat → Nat) → Nat → CodecOut
  xz_dec_init : Option Nat
  xz_dec_run : Nat → Nat → (Nat → Nat) → Nat → CodecOut

def Z_OK : Int := 0
def Z_STREAM_END : Int := 1
def BZ_OK : Int := 0
def BZ_STREAM_END : Int := 4
def XZ_OK : Int := 0
def XZ_STREAM_END : Int := 1
def XZ_UNSUPPORTED_CHECK : Int := 2

/-! ## stream_open -/

/-- The array `hdr` after `memset(hdr, 0, sizeof(hdr)); fread(hdr, sizeof(hdr), 1, f)`. -/
def hdr_of (d : FileData) : Nat → Nat :=
  fun i => if i < d.size ∧ i < 65536 then d.get i else 0

/-- A read `hdr[i]` at a computed index. -/
def rd (hdr : Nat → Nat) (i : Nat) : Res Nat :=
  if i < 65536 then .ok (hdr i) else .error (.oob i)

/-- The copy `memcpy(dst, hdr + off, n)`. -/
def rd_le (hdr : Nat → Nat) (off n : Nat) : Res Nat :=
  if off + n ≤ 65536 then .ok (le_bytes hdr off n) else .error (.oob (max off 65536))

/-- The loop `while(*buff++ != 0);` started with `buff = hdr + p`; the result is the new
offset of `buff`. -/
def skipz (hdr : Nat → Nat) : Nat → Nat → Res Nat
  | 0, _ => .error .fuel
  | n + 1, p =>
    match rd hdr p with
    | .error e => .error e
    | .ok b => if b ≠ 0 then skipz hdr n (p + 1) else .ok (p + 1)

/-- Lines 110-115: the walk over the gzip header; the result is `buff - hdr`. -/
def gzip_walk (hdr : Nat → Nat) : Res Nat :=
  let x := hdr 3
  let buff := 3 + 1 + 6
  let buff := if x &&& 4 ≠ 0 then buff + 2 + (hdr buff + (hdr (buff + 1) <<< 8)) else buff
  match (if x &&& 8 ≠ 0 then skipz hdr 65537 buff else .ok buff) with
  | .error e => .error e
  | .ok buff =>
    match (if x &&& 16 ≠ 0 then skipz hdr 65537 buff else .ok buff) with
    | .error e => .error e
    | .ok buff => .ok (if x &&& 2 ≠ 0 then buff + 2 else buff)

/-- Lines 155-161: the scan of the zip extra fields for the zip64 record. -/
def zip64_scan (hdr : Nat → Nat) (y : Nat) : Nat → Nat → stream_t → Res stream_t
  | 0, _, _ => .error .fuel
  | n + 1, x, ctx =>
    if x < y ∧ x < 65536 - 4 then
      if hdr x = 1 ∧ hdr (x + 1) = 0 then
        match rd_le hdr (x + 12) 8 with
        | .error e => .error e
        | .ok c =>
          match rd_le hdr (x + 4) 8 with
          | .error e => .error e
          | .ok s => .ok { ctx with compSize := c, fileSize := s }
      else zip64_scan hdr y n (x + 4 + hdr (x + 2) + (hdr (x + 3) <<< 8)) ctx
    else .ok ctx

/-- The value of `memcmp(hdr + off, "\xff...\xff", n)` up to its sign: `0` when the `n` bytes
at `off` are all `0xff`, `1` otherwise. -/
def memcmp_ff (hdr : Nat → Nat) (off : Nat) : Nat → Nat
  | 0 => 0
  | n + 1 => if hdr off = 0xff then memcmp_ff hdr (off + 1) n else 1

/-- Where the format detection of `stream_open` ends: a `return`, or the codec set-up. -/
inductive Detected where
  | ret (code : Int) (ctx : stream_t)
  | cont (ctx : stream_t)

/-- Lines 143-148: the `switch(hdr[8])`; `none` is the `default` case. -/
def zip_method (m : Nat) : Option StreamType :=
  if m = 0 then some TYPE_PLAIN
  else if m = 8 then some TYPE_DEFLATE
  else if m = 12 then some TYPE_BZIP2
  else none

/-- Lines 136-164: the pkzip branch. -/
def detect_zip (hdr : Nat → Nat) (ctx : stream_t) (f : FILE) : Res Detected :=
  if hdr 6 &&& 1 ≠ 0 ∨ hdr 6 &&& (1 <<< 6) ≠ 0 then
    .ok (.ret 2 { ctx with f := some f.fclose })
  else
    match zip_method (hdr 8) with
    | none => .ok (.ret 3 { ctx with f := some f.fclose })
    | some t =>
      let ctx := { ctx with type := t }
      let x := 30 + hdr 26 + (hdr 27 <<< 8)
      let seek (c : stream_t) : stream_t :=
        { c with f := some (f.fseek_set (30 + hdr 26 + (hdr 27 <<< 8) + hdr 28 + (hdr 29 <<< 8))) }
      if memcmp_ff hdr 18 8 ≠ 0 then
        .ok (.cont (seek { ctx with compSize := le_bytes hdr 18 4, fileSize := le_bytes hdr 22 4 }))
      else
        match zip64_scan hdr (x + hdr 28 + (hdr 29 <<< 8)) 65536 x ctx with
        | .error e => .error e
        | .ok ctx =>
          if ctx.compSize = 0 ∨ ctx.fileSize = 0 then .ok (.ret 4 { ctx with f := some f.fclose })
          else .ok (.cont (seek ctx))

/-- Lines 104-172: the format detection, on the context holding the freshly opened file. -/
def detect (d : FileData) (ctx : stream_t) : Res Detected :=
  let hdr := hdr_of d
  let f : FILE := FILE.advance ⟨d, 0, false⟩ 65536
  if hdr 0 = 0x1f ∧ hdr 1 = 0x8b then
    let f := f.fseek_end_m4
    let fileSize := le_bytes (f.fread_into (fun _ => 0) 0 4) 0 8
    let f := f.advance 4
    let compSize := sub64 f.pos 8
    match gzip_walk hdr with
    | .error e => .error e
    | .ok buff =>
      .ok (.cont { ctx with fileSize := fileSize, compSize := sub64 compSize buff,
                            f := some (f.fseek_set buff), type := TYPE_DEFLATE })
  else if hdr 0 = 0x42 ∧ hdr 1 = 0x5a ∧ hdr 2 = 0x68 then
    let f := f.fseek_end
    .ok (.cont { ctx with compSize := f.pos % 2 ^ 64, f := some (f.fseek_set 0), type := TYPE_BZIP2 })
  else if hdr 0 = 0xFD ∧ hdr 1 = 0x37 ∧ hdr 2 = 0x7a ∧ hdr 3 = 0x58 ∧ hdr 4 = 0x5a then
    let f := f.fseek_end
    .ok (.cont { ctx with compSize := f.pos % 2 ^ 64, f := some (f.fseek_set 0), type := TYPE_XZ })
  else if hdr 0 = 0x50 ∧ hdr 1 = 0x4b ∧ hdr 2 = 3 ∧ hdr 3 = 4 then
    detect_zip hdr ctx f
  else
    let f := f.fseek_end
    .ok (.cont { ctx with fileSize := f.pos % 2 ^ 64, f := some (f.fseek_set 0), type := TYPE_PLAIN })

/-- The call `fclose(ctx->f)`. -/
def stream_t.fclose (ctx : stream_t) : stream_t := { ctx with f := ctx.f.map FILE.fclose }

/-- Lines 173-195: the codec set-up and the final checks. -/
def open_codec (lib : Lib) (time : Nat) (ctx : stream_t) : Int × stream_t :=
  let r : Detected :=
    match ctx.type with
    | TYPE_DEFLATE =>
      let ctx := { ctx with zstrm := { ctx.zstrm with state := lib.inflateInit2.2 } }
      if lib.inflateInit2.1 ≠ Z_OK then .ret 4 ctx.fclose else .cont ctx
    | TYPE_BZIP2 =>
      let ctx := { ctx with bstrm := { ctx.bstrm with state := lib.BZ2_bzDecompressInit.2 } }
      if lib.BZ2_bzDecompressInit.1 ≠ BZ_OK then .ret 4 ctx.fclose else .cont ctx
    | TYPE_XZ =>
      let ctx := { ctx with xz := lib.xz_dec_init }
      if ctx.xz = none then .ret 4 ctx.fclose else .cont ctx
    | TYPE_PLAIN => .cont ctx
  match r with
  | .ret code ctx => (code, ctx)
  | .cont ctx =>
    if ctx.compSize = 0 ∧ ctx.fileSize = 0 then (1, ctx.fclose)
    else (0, { ctx with start := time })

/-- The context after `memset(ctx, 0, sizeof(stream_t))` and a successful
`ctx->f = fopen(fn, "rb")`. -/
def stream_t.opened (d : FileData) : stream_t :=
  { stream_t.zero with f := some ⟨d, 0, false⟩ }

/-- The function `stream_open(ctx, fn)`: `fn` is `none` for a NULL pointer, `fopen` gives the
content of the named file when it can be opened for reading, `time` is `time(NULL)`. The
result is the return value and the context. -/
def stream_open (lib : Lib) (fopen : List Nat → Option FileData) (time : Nat)
    (fn : Option (List Nat)) : Res (Int × stream_t) :=
  let ctx := stream_t.zero
  match fn with
  | none => .ok (1, ctx)
  | some [] => .ok (1, ctx)
  | some (c :: cs) =>
    match fopen (c :: cs) with
    | none => .ok (1, ctx)
    | some d =>
      match detect d (stream_t.opened d) with
      | .error e => .error e
      | .ok (.ret code ctx) => .ok (code, ctx)
      | .ok (.cont ctx) => .ok (open_codec lib time ctx)

/-! ## stream_read -/

/-- Memory after the `n` bytes `out 0, ..., out (n - 1)` were stored at `mem + off`. -/
def store (mem : Nat → Nat) (off n : Nat) (out : Nat → Nat) : Nat → Nat :=
  fun i => if off ≤ i ∧ i < off + n then out (i - off) % 256 else mem i

/-- The memory at `mem + off`, as a decoder sees its input. -/
def load (mem : Nat → Nat) (off : Nat) : Nat → Nat :=
  fun i => mem (off + i)

/-- How the refill part of a decoding loop ends: with `break`, or going on to the decoder. -/
inductive Refill where
  | brk (ctx : stream_t) (ret : Int)
  | go (ctx : stream_t)

/-- The clamp `if(insiz > BUFFER_SIZE) insiz = BUFFER_SIZE;`. -/
def clamp (insiz : Int) : Int := if insiz > BUFFER_SIZE then BUFFER_SIZE else insiz

/-- Lines 223-233: the refill of the deflate input. -/
def refill_deflate (ctx : stream_t) (ret : Int) : Res Refill :=
  if ctx.zstrm.avail_in = 0 then
    let insiz := toInt64 (sub64 ctx.compSize ctx.cmrdSize)
    if insiz < 1 then .ok (.brk ctx Z_STREAM_END)
    else
      let insiz := (clamp insiz).toNat
      let ctx := { ctx with zstrm := { ctx.zstrm with next_in := 0, avail_in := insiz } }
      match ctx.f with
      | none => .error .null
      | some f =>
        let ctx := { ctx with compBuf := f.fread_into ctx.compBuf 0 insiz,
                              f := some (f.advance insiz) }
        if f.fread_items insiz = 0 then .ok (.brk ctx ret)
        else .ok (.go { ctx with cmrdSize := add64 ctx.cmrdSize insiz })
  else .ok (.go ctx)

/-- Line 234: `ret = inflate(&ctx->zstrm, Z_NO_FLUSH)`. The decoder consumes at most
`avail_in` bytes and produces at most `avail_out` bytes. -/
def call_inflate (lib : Lib) (ctx : stream_t) (buffer : Nat → Nat) :
    stream_t × (Nat → Nat) × Int :=
  let z := ctx.zstrm
  let r := lib.inflate z.state z.avail_in (load ctx.compBuf z.next_in) z.avail_out
  let used := min r.consumed z.avail_in
  let made := min r.produced z.avail_out
  ({ ctx with zstrm := { next_in := z.next_in + used, avail_in := z.avail_in - used,
                         next_out := z.next_out + made,
                         avail_out := z.avail_out - made, state := r.state } },
   store buffer z.next_out made r.out, r.ret)

/-- Lines 222-235: the deflate loop; the result is the context, the block and `ret`. -/
def deflate_loop (lib : Lib) : Nat → stream_t → (Nat → Nat) → Int →
    Res (stream_t × (Nat → Nat) × Int)
  | 0, _, _, _ => .error .fuel
  | n + 1, ctx, buffer, ret =>
    match refill_deflate ctx ret with
    | .error e => .error e
    | .ok (.brk ctx ret) => .ok (ctx, buffer, ret)
    | .ok (.go ctx) =>
      match call_inflate lib ctx buffer with
      | (ctx, buffer, ret) =>
        if ret = Z_OK ∧ ctx.zstrm.avail_out > 0 then deflate_loop lib n ctx buffer ret
        else .ok (ctx, buffer, ret)

/-- Lines 245-255: the refill of the bzip2 input. -/
def refill_bzip2 (ctx : stream_t) (ret : Int) : Res Refill :=
  if ctx.bstrm.avail_in = 0 then
    let insiz := toInt64 (sub64 ctx.compSize ctx.cmrdSize)
    if insiz < 1 then .ok (.brk ctx BZ_STREAM_END)
    else
      let insiz := (clamp insiz).toNat
      let ctx := { ctx with bstrm := { ctx.bstrm with next_in := 0, avail_in := insiz } }
      match ctx.f with
      | none => .error .null
      | some f =>
        let ctx := { ctx with compBuf := f.fread_into ctx.compBuf 0 insiz,
                              f := some (f.advance insiz) }
        if f.fread_items insiz = 0 then .ok (.brk ctx ret)
        else .ok (.go { ctx with cmrdSize := add64 ctx.cmrdSize insiz })
  else .ok (.go ctx)

/-- Line 256: `ret = BZ2_bzDecompress(&ctx->bstrm)`. -/
def call_bzDecompress (lib : Lib) (ctx : stream_t) (buffer : Nat → Nat) :
    stream_t × (Nat → Nat) × Int :=
  let z := ctx.bstrm
  let r := lib.BZ2_bzDecompress z.state z.avail_in (load ctx.compBuf z.next_in) z.avail_out
  let used := min r.consumed z.avail_in
  let made := min r.produced z.avail_out
  ({ ctx with bstrm := { next_in := z.next_in + used, avail_in := z.avail_in - used,
                         next_out := z.next_out + made,
                         avail_out := z.avail_out - made, state := r.state } },
   store buffer z.next_out made r.out, r.ret)

/-- Lines 244-257: the bzip2 loop. -/
def bzip2_loop (lib : Lib) : Nat → stream_t → (Nat → Nat) → Int →
    Res (stream_t × (Nat → Nat) × Int)
  | 0, _, _, _ => .error .fuel
  | n + 1, ctx, buffer, ret =>
    match refill_bzip2 ctx ret with
    | .error e => .error e
    | .ok (.brk ctx ret) => .ok (ctx, buffer, ret)
    | .ok (.go ctx) =>
      match call_bzDecompress lib ctx buffer with
      | (ctx, buffer, ret) =>
        if ret = BZ_OK ∧ ctx.bstrm.avail_out > 0 then bzip2_loop lib n ctx buffer ret
        else .ok (ctx, buffer, ret)

/-- Lines 269-282: the refill of the xz input. -/
def refill_xz (ctx : stream_t) (ret : Int) : Res Refill :=
  if ctx.xstrm.in_pos = ctx.xstrm.in_size then
    let insiz := toInt64 (sub64 ctx.compSize ctx.cmrdSize)
    if insiz < 1 then .ok (.brk ctx XZ_STREAM_END)
    else
      let insiz := (clamp insiz).toNat
      let ctx := { ctx with xstrm := { ctx.xstrm with in_pos := 0, in_size := insiz } }
      match ctx.f with
      | none => .error .null
      | some f =>
        let ctx := { ctx with compBuf := f.fread_into ctx.compBuf 0 insiz,
                              f := some (f.advance insiz) }
        if f.fread_items insiz = 0 then .ok (.brk ctx ret)
        else
          let ctx := if insiz < BUFFER_SIZE then
              { ctx with compBuf := store ctx.compBuf insiz (BUFFER_SIZE - insiz) fun _ => 0 }
            else ctx
          .ok (.go { ctx with cmrdSize := add64 ctx.cmrdSize insiz })
  else .ok (.go ctx)

/-- Lines 283-284: `ret = xz_dec_run(ctx->xz, &ctx->xstrm)` and the mapping of
`XZ_UNSUPPORTED_CHECK` to `XZ_OK`. -/
def call_xz_dec_run (lib : Lib) (ctx : stream_t) (buffer : Nat → Nat) :
    Res (stream_t × (Nat → Nat) × Int) :=
  match ctx.xz with
  | none => .error .null
  | some st =>
    let b := ctx.xstrm
    let r := lib.xz_dec_run st (b.in_size - b.in_pos) (load ctx.compBuf b.in_pos)
      (b.out_size - b.out_pos)
    let used := min r.consumed (b.in_size - b.in_pos)
    let made := min r.produced (b.out_size - b.out_pos)
    .ok ({ ctx with xz := some r.state,
                    xstrm := { b with in_pos := b.in_pos + used, out_pos := b.out_pos + made } },
         store buffer b.out_pos made r.out,
         if r.ret = XZ_UNSUPPORTED_CHECK then XZ_OK else r.ret)

/-- Lines 268-285: the xz loop. -/
def xz_loop (lib : Lib) : Nat → stream_t → (Nat → Nat) → Int →
    Res (stream_t × (Nat → Nat) × Int)
  | 0, _, _, _ => .error .fuel
  | n + 1, ctx, buffer, ret =>
    match refill_xz ctx ret with
    | .error e => .error e
    | .ok (.brk ctx ret) => .ok (ctx, buffer, ret)
    | .ok (.go ctx) =>
      match call_xz_dec_run lib ctx buffer with
      | .error e => .error e
      | .ok (ctx, buffer, ret) =>
        if ret = XZ_OK ∧ ctx.xstrm.out_pos < ctx.xstrm.out_size then xz_loop lib n ctx buffer ret
        else .ok (ctx, buffer, ret)

/-- Line 293: the loop `while(size & 511) buffer[size++] = 0;`. -/
def pad_loop : Nat → (Nat → Nat) → Nat → Res ((Nat → Nat) × Nat)
  | 0, _, _ => .error .fuel
  | n + 1, buffer, size =>
    if size &&& 511 ≠ 0 then pad_loop n (Function.update buffer size 0) (size + 1)
    else .ok (buffer, size)

/-- How the `switch` of `stream_read` ends: `return -1`, or the padding with the context, the
block and `size`. -/
inductive Decoded where
  | err (ctx : stream_t) (buffer : Nat → Nat)
  | fill (ctx : stream_t) (buffer : Nat → Nat) (size : Nat)

/-- Lines 215-292: the `switch(ctx->type)` of `stream_read`; `fuel` bounds the iterations of
the decoding loop. -/
def read_switch (lib : Lib) (fuel : Nat) (ctx : stream_t) (buffer : Nat → Nat) (size : Nat) :
    Res Decoded :=
  match ctx.type with
  | TYPE_PLAIN =>
    match ctx.f with
    | none => .error .null
    | some f =>
      .ok (.fill { ctx with f := some (f.advance size) } (f.fread_into buffer 0 size) size)
  | TYPE_DEFLATE =>
    let ctx := { ctx with zstrm := { ctx.zstrm with next_out := 0, avail_out := size } }
    match deflate_loop lib fuel ctx buffer 0 with
    | .error e => .error e
    | .ok (ctx, buffer, ret) =>
      if ret ≠ Z_OK ∧ ret ≠ Z_STREAM_END then .ok (.err ctx buffer) else .ok (.fill ctx buffer size)
  | TYPE_BZIP2 =>
    let ctx := { ctx with bstrm := { ctx.bstrm with next_out := 0, avail_out := BUFFER_SIZE } }
    match bzip2_loop lib fuel ctx buffer 0 with
    | .error e => .error e
    | .ok (ctx, buffer, ret) =>
      if ret ≠ BZ_OK ∧ ret ≠ BZ_STREAM_END then .ok (.err ctx buffer)
      else .ok (.fill ctx buffer (BUFFER_SIZE - ctx.bstrm.avail_out))
  | TYPE_XZ =>
    let ctx := { ctx with xstrm := { ctx.xstrm with out_pos := 0, out_size := BUFFER_SIZE } }
    match xz_loop lib fuel ctx buffer 0 with
    | .error e => .error e
    | .ok (ctx, buffer, ret) =>
      if ret ≠ XZ_OK ∧ ret ≠ XZ_STREAM_END then .ok (.err ctx buffer)
      else .ok (.fill ctx buffer ctx.xstrm.out_pos)

/-- The function `stream_read(ctx, buffer)`: the result is the return value, the context and
the caller's block. `fuel` bounds the iterations of the decoding loop, which need not end for
an arbitrary decoder. -/
def stream_read (lib : Lib) (fuel : Nat) (ctx : stream_t) (buffer : Nat → Nat) :
    Res (Int × stream_t × (Nat → Nat)) :=
  let size := toInt64 (sub64 ctx.fileSize ctx.readSize)
  if size < 1 ∧ ctx.fileSize ≠ 0 then .ok (0, ctx, buffer)
  else
    let size := if size < 1 then 0 else size
    let size := clamp size
    match read_switch lib fuel ctx buffer size.toNat with
    | .error e => .error e
    | .ok (.err ctx buffer) => .ok (-1, ctx, buffer)
    | .ok (.fill ctx buffer size) =>
      match pad_loop 512 buffer size with
      | .error e => .error e
      | .ok (buffer, size) =>
        .ok (size, { ctx with readSize := add64 ctx.readSize size }, buffer)

/-! ## stream_status -/

/-- Modelled from the spec: the indices of the status texts `lang[...]`, declared in `lang.h`,
which is not part of the sources. -/
inductive LangId where
  | L_STATHSMS
  | L_STATHSM
  | L_STATHMS
  | L_STATHM
  | L_STATMS
  | L_STATM
  | L_STATLM
  deriving DecidableEq

export LangId (L_STATHSMS L_STATHSM L_STATHMS L_STATHM L_STATMS L_STATM L_STATLM)

/-- What `stream_status` prints into `str`: the MiB read, the total MiB (`none` for the
"so far" form), and the remaining-time text with its arguments `h` and `m`. -/
structure StatusText where
  readMiB : Nat
  totalMiB : Option Nat
  rem : LangId
  h : Int
  m : Int

/-- Lines 67-70: the choice of the remaining-time text. -/
def status_rem (h m : Int) : LangId :=
  if h > 0 then
    (if h > 1 ∧ m > 1 then L_STATHSMS else if h > 1 ∧ m < 2 then L_STATHSM
     else if h < 2 ∧ m > 0 then L_STATHMS else L_STATHM)
  else if m > 0 then (if m > 1 then L_STATMS else L_STATM)
  else L_STATLM

/-- The function `stream_status(ctx, str)`, `t` being `time(NULL)`: the result is the return
value and the text written to `str` (`none` for the empty string). -/
def stream_status (ctx : stream_t) (t : Nat) : Res (Int × Option StatusText) :=
  let pct : Res Int :=
    if ctx.fileSize ≠ 0 then .ok (toInt32 (ctx.readSize * 100 % 2 ^ 64 / ctx.fileSize))
    else if (ctx.compSize + 1) % 2 ^ 64 = 0 then .error .div0
    else .ok (toInt32 (ctx.cmrdSize * 100 % 2 ^ 64 / ((ctx.compSize + 1) % 2 ^ 64)))
  if ctx.start < t ∧ ctx.readSize ≠ 0 then
    let d : Res Nat :=
      if ctx.fileSize ≠ 0 then
        .ok ((t - ctx.start) * sub64 ctx.fileSize ctx.readSize % 2 ^ 64 / ctx.readSize)
      else if ctx.cmrdSize = 0 then .error .div0
      else .ok ((t - ctx.start) * sub64 ctx.compSize ctx.cmrdSize % 2 ^ 64 / ctx.cmrdSize)
    match d with
    | .error e => .error e
    | .ok d =>
      let h := toInt32 (d / 3600)
      let d := d % 3600
      let m := toInt32 (d / 60)
      let text : StatusText :=
        { readMiB := ctx.readSize >>> 20,
          totalMiB := if ctx.fileSize ≠ 0 then some (ctx.fileSize >>> 20) else none,
          rem := status_rem h m, h := h, m := m }
      match pct with
      | .error e => .error e
      | .ok p => .ok (p, some text)
  else
    match pct with
    | .error e => .error e
    | .ok p => .ok (p, none)

/-! ## stream_create, stream_write, stream_close -/

/-- The empty file that `fopen(fn, "wb")` creates. -/
def FileData.empty : FileData := { size := 0, byte := fun _ => 0, size_lt := by decide }

/-- The call `fwrite(mem, n, 1, f)` when the device takes `k` bytes: the stream after the call
and the return value, one item when all `n` bytes were written. A request of no bytes gives no
item, and a file cannot grow to `2 ^ 63` bytes. -/
def FILE.fwrite (f : FILE) (mem : Nat → Nat) (n k : Nat) : FILE × Nat :=
  let w := min n k
  let d : FileData :=
    { size := min (max f.data.size (f.pos + w)) (2 ^ 63 - 1)
      byte := fun i => if f.pos ≤ i ∧ i < f.pos + w then mem (i - f.pos) % 256 else f.data.byte i
      size_lt := Nat.lt_of_le_of_lt (Nat.min_le_right _ _) (by decide) }
  ({ f with data := d, pos := f.pos + w }, if w = n ∧ n ≠ 0 ∧ f.pos + n < 2 ^ 63 then 1 else 0)

/-- What the write side of `stream.c` calls: `fopen(fn, "wb")` (whether the file can be
created), `fwrite` (how many bytes the device takes for a request at a file position), and
the writer of libbz2. -/
structure Out where
  fopen_wb : List Nat → Bool
  fwrite_taken : Nat → Nat → Nat
  BZ2_bzopen : List Nat → Option Nat
  BZ2_bzwrite : Option Nat → Int → Int

/-- The function `stream_create(ctx, fn, comp, size)`: `fn` is `none` for a NULL pointer,
`time` is `time(NULL)`. The result is the return value and the context. -/
def stream_create (o : Out) (time : Nat) (fn : Option (List Nat)) (comp : Int) (size : Nat) :
    Int × stream_t :=
  let ctx := stream_t.zero
  match fn with
  | none => (1, ctx)
  | some [] => (1, ctx)
  | some (c :: cs) =>
    if size % 2 ^ 64 = 0 then (1, ctx)
    else
      let r : Detected :=
        if comp ≠ 0 then
          let ctx := { ctx with type := TYPE_BZIP2, b := o.BZ2_bzopen (c :: cs) }
          if ctx.b = none then .ret 1 ctx else .cont ctx
        else
          let ctx := { ctx with type := TYPE_PLAIN }
          if o.fopen_wb (c :: cs) then .cont { ctx with f := some ⟨FileData.empty, 0, false⟩ }
          else .ret 1 ctx
      match r with
      | .ret code ctx => (code, ctx)
      | .cont ctx => (0, { ctx with fileSize := size % 2 ^ 64, start := time })

/-- The function `stream_write(ctx, buffer, size)`: the result is the return value and the
context. -/
def stream_write (o : Out) (ctx : stream_t) (buffer : Nat → Nat) (size : Int) :
    Res (Int × stream_t) :=
  let ctx := { ctx with readSize := add64 ctx.readSize (size % 2 ^ 64).toNat }
  match ctx.type with
  | TYPE_PLAIN =>
    match ctx.f with
    | none => .error .null
    | some f =>
      let n := (size % 2 ^ 64).toNat
      let r := f.fwrite buffer n (o.fwrite_taken f.pos n)
      .ok (if r.2 = 0 then 0 else size, { ctx with f := some r.1 })
  | TYPE_BZIP2 => .ok (if o.BZ2_bzwrite ctx.b size < 1 then 0 else size, ctx)
  | _ => .ok (size, ctx)

/-- The calls `stream_close` makes. -/
inductive CloseOp where
  | fclose
  | inflateEnd
  | BZ2_bzclose
  | BZ2_bzDecompressEnd
  | xz_dec_end
  deriving DecidableEq

/-- The function `stream_close(ctx)`: the result is the list of the calls made, in order, and
the context. `fclose` on a stream that was closed before has no defined result. -/
def stream_close (ctx : stream_t) : Res (List CloseOp × stream_t) :=
  let r : Res (List CloseOp × stream_t) :=
    match ctx.f with
    | none => .ok ([], ctx)
    | some f =>
      if f.closed then .error .closed else .ok ([CloseOp.fclose], { ctx with f := some f.fclose })
  match r with
  | .error e => .error e
  | .ok (ops, ctx) =>
    match ctx.type with
    | TYPE_DEFLATE => .ok (ops ++ [CloseOp.inflateEnd], ctx)
    | TYPE_BZIP2 =>
      if ctx.b ≠ none then .ok (ops ++ [CloseOp.BZ2_bzclose], ctx)
      else .ok (ops ++ [CloseOp.BZ2_bzDecompressEnd], ctx)
    | TYPE_XZ => .ok (ops ++ [CloseOp.xz_dec_end], ctx)
    | TYPE_PLAIN => .ok (ops, ctx)

/-! ## disks_win.c

The Win32 calls are parameters (`Win`): each gives the outcome the system chooses. The
embedding records the calls made, in order, in a log. -/

/-- A Win32 `HANDLE`, as the integer value of the pointer. -/
abbrev HANDLE := Int

/-- The null pointer. -/
def NULL : HANDLE := 0

/-- The value `INVALID_HANDLE_VALUE`, which is `(HANDLE)-1`. -/
def INVALID_HANDLE_VALUE : HANDLE := -1

/-- The paths `disks_open` passes to `CreateFileA`: the volume path with the given character
in place of `X`, the physical drive with the given number, and the test file. -/
inductive Path where
  | volume (c : Int)
  | PhysicalDrive (n : Nat)
  | testfile
  deriving DecidableEq

/-- A Win32 call of `disks_open` or `disks_close`, with the result the system gave. -/
inductive OsCall where
  | CreateFileA (p : Path) (r : HANDLE)
  | FSCTL_LOCK_VOLUME (h : HANDLE) (ok : Bool)
  | IOCTL_VOLUME_GET_VOLUME_DISK_EXTENTS (h : HANDLE) (disk : Option Nat)
  | FSCTL_DISMOUNT_VOLUME (h : HANDLE) (ok : Bool)
  | FSCTL_UNLOCK_VOLUME (h : HANDLE) (ok : Bool)
  | CloseHandle (h : HANDLE)
  deriving DecidableEq

/-- The outcomes of the Win32 calls. The extents query gives the disk number when it
succeeds; `stack` is the content of the local `volumeDiskExtents.Extents[0].DiskNumber`, which
the code does not initialise, when the query fails. -/
structure Win where
  CreateFileA : Path → HANDLE
  FSCTL_LOCK_VOLUME : HANDLE → Bool
  IOCTL_VOLUME_GET_VOLUME_DISK_EXTENTS : HANDLE → Option Nat
  FSCTL_DISMOUNT_VOLUME : HANDLE → Bool
  FSCTL_UNLOCK_VOLUME : HANDLE → Bool
  stack : Nat

/-- Modelled from the spec: the macro `DISKS_TEST` is defined outside the sources; the spec
describes no test target, so the blocks under `#if DISKS_TEST` are compiled out. -/
def DISKS_TEST : Bool := false

/-- The globals of `disks_win.c`, `disks_targets` and `hTargetVolume`, and the log of the
Win32 calls made so far. -/
structure DiskState where
  disks_targets : Nat → Int
  hTargetVolume : HANDLE
  log : List OsCall

/-- The conversion `(char)x` of an `int`, as a value in `-128 .. 127`. -/
def toChar (x : Int) : Int := (x + 128) % 256 - 128

/-- The character `disks_open` puts into the volume path: `(char)disks_targets[targetId]`. -/
def volume_letter (s : DiskState) (targetId : Int) : Int :=
  toChar (s.disks_targets targetId.toNat)

/-- The disk number `disks_open` prints into the device path after the extents query on
`vol`: `(unsigned int)volumeDiskExtents.Extents[0].DiskNumber`. -/
def disk_number (w : Win) (vol : HANDLE) : Nat :=
  (match w.IOCTL_VOLUME_GET_VOLUME_DISK_EXTENTS vol with
    | some n => n
    | none => w.stack) % 2 ^ 32

/-- The function `disks_open(targetId)`; `DISKS_MAX`, defined in `disks.h` outside the
sources, is a parameter. The result is the returned pointer and the state. -/
def disks_open (w : Win) (DISKS_MAX : Nat) (s : DiskState) (targetId : Int) :
    HANDLE × DiskState :=
  if targetId < 0 ∨ targetId ≥ DISKS_MAX ∨ s.disks_targets targetId.toNat = -1 ∨
      s.disks_targets targetId.toNat = 67 then (-1, s)
  else if DISKS_TEST = true ∧ volume_letter s targetId = 84 then
    let ret := w.CreateFileA Path.testfile
    (ret, { s with hTargetVolume := NULL, log := s.log ++ [OsCall.CreateFileA Path.testfile ret] })
  else
    let p := Path.volume (volume_letter s targetId)
    let vol := w.CreateFileA p
    let s := { s with hTargetVolume := vol, log := s.log ++ [OsCall.CreateFileA p vol] }
    if vol = INVALID_HANDLE_VALUE then (NULL, s)
    else if w.FSCTL_LOCK_VOLUME vol = true then
      let ext := w.IOCTL_VOLUME_GET_VOLUME_DISK_EXTENTS vol
      let disk := disk_number w vol
      let ret := w.CreateFileA (Path.PhysicalDrive disk)
      let s := { s with log := s.log ++
        [OsCall.FSCTL_LOCK_VOLUME vol true, OsCall.IOCTL_VOLUME_GET_VOLUME_DISK_EXTENTS vol ext,
         OsCall.FSCTL_DISMOUNT_VOLUME vol (w.FSCTL_DISMOUNT_VOLUME vol),
         OsCall.CreateFileA (Path.PhysicalDrive disk) ret] }
      if ret = INVALID_HANDLE_VALUE then
        (NULL, { s with hTargetVolume := NULL, log := s.log ++
          [OsCall.FSCTL_UNLOCK_VOLUME vol (w.FSCTL_UNLOCK_VOLUME vol), OsCall.CloseHandle vol] })
      else (ret, s)
    else
      (NULL, { s with hTargetVolume := NULL, log := s.log ++
        [OsCall.FSCTL_LOCK_VOLUME vol false, OsCall.CloseHandle vol] })

/-- The function `disks_close(data)`. -/
def disks_close (w : Win) (s : DiskState) (data : HANDLE) : DiskState :=
  let s := { s with log := s.log ++ [OsCall.CloseHandle data] }
  if s.hTargetVolume ≠ NULL then
    { s with hTargetVolume := NULL, log := s.log ++
      [OsCall.FSCTL_UNLOCK_VOLUME s.hTargetVolume (w.FSCTL_UNLOCK_VOLUME s.hTargetVolume),
       OsCall.CloseHandle s.hTargetVolume] }
  else s

/-! ## Notions of the specification -/

/-- Offset of the extra-field region of a zip local header: `30 + filename length`. -/
def zip_extra_start (hdr : Nat → Nat) : Nat := 30 + hdr 26 + (hdr 27 <<< 8)

/-- End of the extra-field region: its start plus the declared extra length. -/
def zip_extra_end (hdr : Nat → Nat) : Nat := zip_extra_start hdr + hdr 28 + (hdr 29 <<< 8)

/-- The extra-field record following the one at `x`: the scan steps by `4` plus the declared
length of the record. -/
def next_field (hdr : Nat → Nat) (x : Nat) : Nat := x + 4 + hdr (x + 2) + (hdr (x + 3) <<< 8)

/-- The relation `ScanReaches hdr y x z`: a scan of the extra fields that stands at `x` comes to stand at
`z`, stepping over records inside the region (below `y`) and the window bound that do not
carry the tag `0x0001`. -/
inductive ScanReaches (hdr : Nat → Nat) (y : Nat) : Nat → Nat → Prop
  | here (x : Nat) : ScanReaches hdr y x x
  | step {x z : Nat} : x < y → x < 65536 - 4 → ¬ (hdr x = 1 ∧ hdr (x + 1) = 0) →
      ScanReaches hdr y (next_field hdr x) z → ScanReaches hdr y x z

/-- The extra-field region holds, at offset `z`, a record with tag `0x0001` that the scan
reaches. -/
def Zip64Record (hdr : Nat → Nat) (z : Nat) : Prop :=
  ScanReaches hdr (zip_extra_end hdr) (zip_extra_start hdr) z ∧
  z < zip_extra_end hdr ∧ z < 65536 - 4 ∧ hdr z = 1 ∧ hdr (z + 1) = 0

/-- Length of the zero-terminated string at offset `p` of the window, `n` being the number of
window bytes from `p` on; without a terminator in the window it is `n`. -/
def cstrlen (hdr : Nat → Nat) : Nat → Nat → Nat
  | 0, _ => 0
  | n + 1, p => if hdr p = 0 then 0 else 1 + cstrlen hdr n (p + 1)

/-- The gzip header length as the specification gives it: 10 bytes, the extra field when
`FLG` bit 2 is set, the file name when bit 3 is set, the comment when bit 4 is set, the
CRC16 when bit 1 is set. -/
def gzip_header_length (hdr : Nat → Nat) : Nat :=
  let flg := hdr 3
  let h1 := 10 + (if flg.testBit 2 then 2 + (hdr 10 + 256 * hdr 11) else 0)
  let h2 := h1 + (if flg.testBit 3 then cstrlen hdr (65536 - h1) h1 + 1 else 0)
  let h3 := h2 + (if flg.testBit 4 then cstrlen hdr (65536 - h2) h2 + 1 else 0)
  h3 + (if flg.testBit 1 then 2 else 0)

/-- The decoder set-up `stream_open` runs for a stream type succeeds. -/
def codec_init_ok (lib : Lib) : StreamType → Prop
  | TYPE_PLAIN => True
  | TYPE_DEFLATE => lib.inflateInit2.1 = Z_OK
  | TYPE_BZIP2 => lib.BZ2_bzDecompressInit.1 = BZ_OK
  | TYPE_XZ => lib.xz_dec_init ≠ none

/-- The least multiple of 512 that is at least `n`. -/
def round512 (n : Nat) : Nat := (n + 511) / 512 * 512

/-- A caller that issues `n` consecutive `stream_read` calls on the same block: the result
is the list of the returned values, the context and the block. -/
def read_calls (lib : Lib) (fuel : Nat) : Nat → stream_t → (Nat → Nat) →
    Res (List Int × stream_t × (Nat → Nat))
  | 0, ctx, buffer => .ok ([], ctx, buffer)
  | n + 1, ctx, buffer =>
    match stream_read lib fuel ctx buffer with
    | .error e => .error e
    | .ok (r, ctx, buffer) =>
      match read_calls lib fuel n ctx buffer with
      | .error e => .error e
      | .ok (rs, ctx, buffer) => .ok (r :: rs, ctx, buffer)

/-- The counters that only `stream_read` itself moves are the same in two contexts. -/
def SameCounters (a b : stream_t) : Prop :=
  b.fileSize = a.fileSize ∧ b.readSize = a.readSize ∧ b.type = a.type ∧ b.compSize = a.compSize

/-- Lines 207-209 of `stream_read`: the value of `size` when the `switch` is entered. -/
def read_size (ctx : stream_t) : Nat :=
  (clamp (if toInt64 (sub64 ctx.fileSize ctx.readSize) < 1 then 0
    else toInt64 (sub64 ctx.fileSize ctx.readSize))).toNat

/-- The counters of a context as `stream_open` leaves them: nothing read yet, and the two
totals within the range of `uint64_t`. -/
def Fresh (c : stream_t) : Prop :=
  c.readSize = 0 ∧ c.cmrdSize = 0 ∧ c.fileSize < 2 ^ 64 ∧ c.compSize < 2 ^ 64

/-- The context the format detection ends with. -/
def Detected.ctx : Detected → stream_t
  | .ret _ c => c
  | .cont c => c

/-! ## Notions of the specification: the compressed-input cursor -/

/-- The context a refill ends with. -/
def Refill.ctx : Refill → stream_t
  | .brk c _ => c
  | .go c => c

/-- The relation `CursorStep a b`: from context `a` to context `b` the compressed total is
the same, the compressed-input cursor has not decreased, and it is within the total. -/
def CursorStep (a b : stream_t) : Prop :=
  b.compSize = a.compSize ∧ a.cmrdSize ≤ b.cmrdSize ∧ b.cmrdSize ≤ b.compSize

/-- The read position of the file of a context (0 without a file). -/
def stream_t.pos (c : stream_t) : Nat := (c.f.map FILE.pos).getD 0

/-- The relation `RefillPull a x`: the refill part of a decoding loop, run on context `a`,
ends as `x`. The compressed total is kept, and the file position moves forward by the bytes
taken from the file, at most `min(64 KiB, compSize - cmrdSize)`. When the loop goes on to the
decoder, `cmrdSize` has grown by exactly the bytes taken. When the loop is left, `cmrdSize`
is unchanged, and either no byte was taken or the `fread` of the refill delivered no item. -/
def RefillPull (a : stream_t) (x : Refill) : Prop :=
  x.ctx.compSize = a.compSize ∧ a.pos ≤ x.ctx.pos ∧
  x.ctx.pos - a.pos ≤ min BUFFER_SIZE (a.compSize - a.cmrdSize) ∧
  match x with
  | .go c => c.cmrdSize = a.cmrdSize + (c.pos - a.pos)
  | .brk c _ => c.cmrdSize = a.cmrdSize ∧
      (c.pos = a.pos ∨
        ∃ f, a.f = some f ∧ f.fread_items (min BUFFER_SIZE (a.compSize - a.cmrdSize)) = 0)

/-! ## Notions of the specification: the round trip -/

/-- A caller that submits the chunks of a byte sequence through `stream_write`, one call for
each chunk: the result is the list of the returned values and the context. -/
def write_calls (o : Out) : stream_t → List (List Nat) → Res (List Int × stream_t)
  | ctx, [] => .ok ([], ctx)
  | ctx, c :: cs =>
    match stream_write o ctx (fun i => c.getD i 0) c.length with
    | .error e => .error e
    | .ok (r, ctx) =>
      match write_calls o ctx cs with
      | .error e => .error e
      | .ok (rs, ctx) => .ok (r :: rs, ctx)

/-- A caller that calls `stream_read` until it returns 0 (or the error value), at most `n`
times, and concatenates the chunks: the result is the length of the concatenation, its
bytes, and the last returned value. -/
def read_all (lib : Lib) (fuel : Nat) : Nat → stream_t → (Nat → Nat) →
    Res (Nat × (Nat → Nat) × Int)
  | 0, _, _ => .error .fuel
  | n + 1, ctx, buffer =>
    match stream_read lib fuel ctx buffer with
    | .error e => .error e
    | .ok (r, ctx, buffer) =>
      if r ≤ 0 then .ok (0, fun _ => 0, r)
      else
        match read_all lib fuel n ctx buffer with
        | .error e => .error e
        | .ok (len, out, last) =>
          .ok (r.toNat + len, fun i => if i < r.toNat then buffer i else out (i - r.toNat), last)

/-- An output stream holds exactly the byte sequence `A`: the file has the bytes of `A`, the
file position is at its end, and the stream is open. -/
def Holds (f : FILE) (A : List Nat) : Prop :=
  f.pos = A.length ∧ f.data.size = A.length ∧ f.closed = false ∧
    ∀ i, i < A.length → f.data.get i = A.getD i 0

/-- A byte sequence starts with one of the magics `stream_open` recognises: gzip, bzip2, xz
or pkzip. -/
def HasMagic (B : List Nat) : Prop :=
  (B.getD 0 0 = 0x1f ∧ B.getD 1 0 = 0x8b) ∨
  (B.getD 0 0 = 0x42 ∧ B.getD 1 0 = 0x5a ∧ B.getD 2 0 = 0x68) ∨
  (B.getD 0 0 = 0xFD ∧ B.getD 1 0 = 0x37 ∧ B.getD 2 0 = 0x7a ∧ B.getD 3 0 = 0x58 ∧
    B.getD 4 0 = 0x5a) ∨
  (B.getD 0 0 = 0x50 ∧ B.getD 1 0 = 0x4b ∧ B.getD 2 0 = 3 ∧ B.getD 3 0 = 4)

/-! ## Notions of the specification: the estimate -/

/-- The remaining-time estimate of the specification, in seconds: the linear extrapolation
`elapsed * (fileSize - readSize) / readSize` over the integers. -/
def eta_spec (ctx : stream_t) (t : Nat) : Int :=
  ((t : Int) - ctx.start) * ((ctx.fileSize : Int) - ctx.readSize) / ctx.readSize

/-! ## Notions of the specification: device acquisition -/

/-- A valid target: in range, enumerated, and not the system volume `C`. -/
def valid_target (DISKS_MAX : Nat) (s : DiskState) (targetId : Int) : Prop :=
  0 ≤ targetId ∧ targetId < DISKS_MAX ∧ s.disks_targets targetId.toNat ≠ -1 ∧
    s.disks_targets targetId.toNat ≠ 67

/-- The handles open after one more Win32 call: a successful `CreateFileA` opens the handle
it returns, `CloseHandle` closes one. -/
def os_open (hs : List HANDLE) : OsCall → List HANDLE
  | .CreateFileA _ r => if r = INVALID_HANDLE_VALUE then hs else r :: hs
  | .CloseHandle h => hs.erase h
  | _ => hs

/-- The handles that a sequence of Win32 calls leaves open. -/
def handles_open (log : List OsCall) : List HANDLE := log.foldl os_open []

/-- The volume handles holding a lock after one more Win32 call: a successful lock request
takes the lock, a successful unlock request and the closing of the handle release it. -/
def os_locked (hs : List HANDLE) : OsCall → List HANDLE
  | .FSCTL_LOCK_VOLUME h true => h :: hs
  | .FSCTL_UNLOCK_VOLUME h true => hs.erase h
  | .CloseHandle h => hs.filter fun x => x ≠ h
  | _ => hs

/-- The volume handles that a sequence of Win32 calls leaves locked. -/
def volumes_locked (log : List OsCall) : List HANDLE := log.foldl os_locked []

/-! ## Example inputs -/

/-- Decoder libraries whose set-up succeeds; the decoders consume and produce nothing. -/
def ex_lib : Lib :=
  { inflateInit2 := (0, 1), inflate := fun s _ _ _ => ⟨1, 0, 0, fun _ => 0, s⟩,
    BZ2_bzDecompressInit := (0, 2), BZ2_bzDecompress := fun s _ _ _ => ⟨4, 0, 0, fun _ => 0, s⟩,
    xz_dec_init := some 3, xz_dec_run := fun s _ _ _ => ⟨1, 0, 0, fun _ => 0, s⟩ }

/-- Decoder libraries where `inflateInit2` fails with `Z_MEM_ERROR`. -/
def ex_lib_nomem : Lib := { ex_lib with inflateInit2 := (-4, 0) }

/-- A file name, "a". -/
def ex_name : List Nat := [0x61]

/-- A zip file of 1000 bytes: a local header with the given method byte, sentinel sizes, the
name "a", and two extra fields: one with tag `0x5455` and 5 bytes, then the zip64 record with
uncompressed size 987654321098 and compressed size 123456789012. -/
def ex_zip64 (method : Nat) : FileData :=
  { size := 1000
    byte := fun i =>
      [0x50, 0x4b, 3, 4, 45, 0, 0, 0, method, 0, 0, 0, 0, 0, 0, 0, 0, 0,
       0xff, 0xff, 0xff, 0xff, 0xff, 0xff, 0xff, 0xff, 1, 0, 29, 0,
       0x61,
       0x55, 0x54, 5, 0, 3, 0, 0, 0, 0,
       1, 0, 16, 0, 202, 243, 200, 244, 229, 0, 0, 0, 20, 26, 153, 190, 28, 0, 0, 0].getD i 0
    size_lt := by decide }

/-- A zip file of 1000 bytes with sentinel sizes whose only extra field has tag `0x5455`. -/
def ex_zip64_norecord : FileData :=
  { size := 1000
    byte := fun i =>
      [0x50, 0x4b, 3, 4, 45, 0, 0, 0, 0, 0, 0, 0, 0, 0, 0, 0, 0, 0,
       0xff, 0xff, 0xff, 0xff, 0xff, 0xff, 0xff, 0xff, 1, 0, 9, 0,
       0x61,
       0x55, 0x54, 5, 0, 3, 0, 0, 0, 0].getD i 0
    size_lt := by decide }

/-- A zip file of 70000 bytes: a stored entry with sentinel sizes, a name of 65500 bytes
`a`, and an extra-field region of 20 bytes at offset 65530 that starts with the tag `0x0001`
and the length 16. -/
def ex_zip_oob : FileData :=
  { size := 70000
    byte := fun i =>
      if i < 30 then
        [0x50, 0x4b, 3, 4, 45, 0, 0, 0, 0, 0, 0, 0, 0, 0, 0, 0, 0, 0,
         0xff, 0xff, 0xff, 0xff, 0xff, 0xff, 0xff, 0xff, 0xdc, 0xff, 20, 0].getD i 0
      else if i < 65530 then 0x61
      else if i = 65530 then 1
      else if i = 65532 then 16
      else 0
    size_lt := by decide }

/-- A gzip file of 12 bytes: `FLG` has the bits of the extra field and of the file name, and
the extra field declares 65535 bytes. -/
def ex_gzip_oob : FileData :=
  { size := 12
    byte := fun i => [0x1f, 0x8b, 8, 0x0c, 0, 0, 0, 0, 0, 3, 0xff, 0xff].getD i 0
    size_lt := by decide }

/-- A gzip file of 26 bytes: a header of 13 bytes with the file name "ab", 5 bytes of data,
and the trailer with the size `0x2010`. -/
def ex_gzip : FileData :=
  { size := 26
    byte := fun i =>
      [0x1f, 0x8b, 8, 0x08, 0, 0, 0, 0, 0, 3, 0x61, 0x62, 0,
       1, 2, 3, 4, 5, 0, 0, 0, 0, 0x10, 0x20, 0, 0].getD i 0
    size_lt := by decide }

/-- A truncated gzip file: the 10 bytes of a header without optional parts. -/
def ex_gzip_short : FileData :=
  { size := 10
    byte := fun i => [0x1f, 0x8b, 8, 0, 0, 0, 0, 0, 0, 3].getD i 0
    size_lt := by decide }

/-- A zip file of 1000 bytes: an entry with the given flag byte and method byte, compressed
size 16 and uncompressed size 100, the name "a" and no extra field. -/
def ex_zip (flag method : Nat) : FileData :=
  { size := 1000
    byte := fun i =>
      [0x50, 0x4b, 3, 4, 20, 0, flag, 0, method, 0, 0, 0, 0, 0, 0, 0, 0, 0,
       16, 0, 0, 0, 100, 0, 0, 0, 1, 0, 0, 0, 0x61].getD i 0
    size_lt := by decide }

/-- A raw image of `n` bytes `A`, for `n` below `2 ^ 16`. -/
def ex_raw (n : Nat) : FileData :=
  { size := n % 2 ^ 16
    byte := fun _ => 0x41
    size_lt := Nat.lt_trans (Nat.mod_lt _ (by decide)) (by decide) }

/-- Decoder libraries whose decoders consume nothing and fill all the free output space
with bytes `A`, returning the code for "ok". -/
def ex_lib_full : Lib :=
  { inflateInit2 := (0, 1), inflate := fun s _ _ n => ⟨0, 0, n, fun _ => 0x41, s⟩,
    BZ2_bzDecompressInit := (0, 2), BZ2_bzDecompress := fun s _ _ n => ⟨0, 0, n, fun _ => 0x41, s⟩,
    xz_dec_init := some 3, xz_dec_run := fun s _ _ n => ⟨0, 0, n, fun _ => 0x41, s⟩ }

/-- A file of 4 bytes with the bzip2 magic. -/
def ex_bzip2 : FileData :=
  { size := 4
    byte := fun i => [0x42, 0x5a, 0x68, 0x39].getD i 0
    size_lt := by decide }

/-- A zip file of 1000 bytes: a stored entry with sentinel sizes and a zip64 record with
uncompressed size `2 ^ 63` and compressed size 100. -/
def ex_zip64_huge : FileData :=
  { size := 1000
    byte := fun i =>
      [0x50, 0x4b, 3, 4, 45, 0, 0, 0, 0, 0, 0, 0, 0, 0, 0, 0, 0, 0,
       0xff, 0xff, 0xff, 0xff, 0xff, 0xff, 0xff, 0xff, 1, 0, 20, 0,
       0x61,
       1, 0, 16, 0, 0, 0, 0, 0, 0, 0, 0, 0x80, 100, 0, 0, 0, 0, 0, 0, 0].getD i 0
    size_lt := by decide }

/-- A zip file cut after 40 bytes: a stored entry that declares 510 bytes, the name "a",
and 9 bytes `B` of data. -/
def ex_zip_truncated : FileData :=
  { size := 40
    byte := fun i =>
      if i < 31 then
        [0x50, 0x4b, 3, 4, 20, 0, 0, 0, 0, 0, 0, 0, 0, 0, 0, 0, 0, 0,
         0xfe, 1, 0, 0, 0xfe, 1, 0, 0, 1, 0, 0, 0, 0x61].getD i 0
      else 0x42
    size_lt := by decide }

/-- A context in which the bzip2 decoder has pending input and the total is unknown. -/
def BzPending (ctx : stream_t) : Prop :=
  ctx.type = TYPE_BZIP2 ∧ ctx.fileSize = 0 ∧ ctx.bstrm.avail_in ≠ 0

/-- The context `stream_open` gives for the raw image `ex_raw n` at time 0. -/
def ex_raw_ctx (n : Nat) : stream_t :=
  { stream_t.zero with f := some ⟨ex_raw n, 0, false⟩, fileSize := (ex_raw n).size }

/-- The context `stream_open` gives for the bzip2 file `ex_bzip2` with `ex_lib_full` at
time 0. -/
def ex_bzip2_ctx : stream_t :=
  { stream_t.zero with f := some ⟨ex_bzip2, 0, false⟩, type := TYPE_BZIP2, compSize := 4,
                       bstrm := ⟨0, 0, 0, 0, 2⟩ }

/-- A write side where every call succeeds. -/
def ex_out : Out :=
  { fopen_wb := fun _ => true, fwrite_taken := fun _ n => n,
    BZ2_bzopen := fun _ => some 1, BZ2_bzwrite := fun _ n => n }

/-- A sequence of 7 bytes that starts like a zip local header with the encryption flag. -/
def ex_bytes_zip : List Nat := [0x50, 0x4b, 3, 4, 20, 0, 1]

/-- A sequence of 5 bytes without a magic. -/
def ex_bytes : List Nat := [0x68, 0x65, 0x6c, 0x6c, 0x6f]

/-- A zip file cut after 35 bytes: a deflated entry that declares 16 compressed and 100
uncompressed bytes, the name "a", and 4 bytes of data. -/
def ex_zip_deflate_truncated : FileData :=
  { size := 35
    byte := fun i =>
      [0x50, 0x4b, 3, 4, 20, 0, 0, 0, 8, 0, 0, 0, 0, 0, 0, 0, 0, 0,
       16, 0, 0, 0, 100, 0, 0, 0, 1, 0, 0, 0, 0x61, 1, 2, 3, 4].getD i 0
    size_lt := by decide }

/-- A context that has read the padded last chunk of a file of 510 bytes, opened at time 0. -/
def ex_status_ctx : stream_t :=
  { stream_t.zero with fileSize := 510, readSize := 512 }

/-- A context half way through a file of 200 MiB, opened at time 1000. -/
def ex_status_half : stream_t :=
  { stream_t.zero with fileSize := 200 * 2 ^ 20, readSize := 100 * 2 ^ 20, start := 1000 }

/-- Win32 calls that all succeed: the volume opens as handle 100, the physical drives as
handle 200, the volume is on disk 1. -/
def ex_win : Win :=
  { CreateFileA := fun p => match p with
      | .volume _ => 100
      | .PhysicalDrive _ => 200
      | .testfile => 300
    FSCTL_LOCK_VOLUME := fun _ => true
    IOCTL_VOLUME_GET_VOLUME_DISK_EXTENTS := fun _ => some 1
    FSCTL_DISMOUNT_VOLUME := fun _ => true
    FSCTL_UNLOCK_VOLUME := fun _ => true
    stack := 7 }

/-- Win32 calls where the lock request fails. -/
def ex_win_nolock : Win := { ex_win with FSCTL_LOCK_VOLUME := fun _ => false }

/-- Win32 calls where the physical drive cannot be opened. -/
def ex_win_nophys : Win :=
  { ex_win with CreateFileA := fun p => match p with
      | .volume _ => 100
      | .PhysicalDrive _ => INVALID_HANDLE_VALUE
      | .testfile => 300 }

/-- Win32 calls where the extents query fails. -/
def ex_win_noextents : Win :=
  { ex_win with IOCTL_VOLUME_GET_VOLUME_DISK_EXTENTS := fun _ => none }

/-- Win32 calls where the volume cannot be opened. -/
def ex_win_novolume : Win :=
  { ex_win with CreateFileA := fun _ => INVALID_HANDLE_VALUE }

/-- The globals after an enumeration that found the volume `E` as target 0, with no volume
retained and no call made. -/
def ex_disks : DiskState :=
  { disks_targets := fun i => if i = 0 then 69 else -1, hTargetVolume := NULL, log := [] }

/-- A gzip file of 17 bytes: a header of 10 bytes without optional parts, 3 bytes of data and
4 zero bytes, 7 bytes after the header where a gzip member has at least 8. -/
def ex_gzip_wrap : FileData :=
  { size := 17
    byte := fun i => [0x1f, 0x8b, 8, 0, 0, 0, 0, 0, 0, 3, 1, 2, 3, 0, 0, 0, 0].getD i 0
    size_lt := by decide }

/-- A zip file cut after 35 bytes: a bzip2 entry (method 12) that declares 16 compressed
bytes and the uncompressed size 0, the name "a", and 4 bytes of data. -/
def ex_zip_bzip2_truncated : FileData :=
  { size := 35
    byte := fun i =>
      [0x50, 0x4b, 3, 4, 20, 0, 0, 0, 12, 0, 0, 0, 0, 0, 0, 0, 0, 0,
       16, 0, 0, 0, 0, 0, 0, 0, 1, 0, 0, 0, 0x61, 1, 2, 3, 4].getD i 0
    size_lt := by decide }

/-- Decoder libraries whose decoders take all the pending input, produce one byte `A` and
report the end of the stream. -/
def ex_lib_one : Lib :=
  { inflateInit2 := (0, 1), inflate := fun s k _ _ => ⟨1, k, 1, fun _ => 0x41, s⟩,
    BZ2_bzDecompressInit := (0, 2),
    BZ2_bzDecompress := fun s k _ _ => ⟨4, k, 1, fun _ => 0x41, s⟩,
    xz_dec_init := some 3, xz_dec_run := fun s k _ _ => ⟨1, k, 1, fun _ => 0x41, s⟩ }

/-! ## Theorems on stream_open -/

theorem hdr_of_lt (d : FileData) (i : Nat) : hdr_of d i < 256 := by
  unfold hdr_of FileData.get
  split
  · exact Nat.mod_lt _ (by decide)
  · decide

theorem zip64_scan_found {hdr : Nat → Nat} {y x z : Nat} (h : ScanReaches hdr y x z)
    (hy : z < y) (hw : z < 65536 - 4) (ht : hdr z = 1 ∧ hdr (z + 1) = 0) (hin : z + 20 ≤ 65536) :
    ∀ (n : Nat) (ctx : stream_t), 65532 - x < n →
      zip64_scan hdr y n x ctx =
        .ok { ctx with compSize := le_bytes hdr (z + 12) 8, fileSize := le_bytes hdr (z + 4) 8 } := by
  induction h with
  | here x =>
    intro n ctx hn
    cases n with
    | zero => omega
    | succ n =>
      have h1 : x + 12 + 8 ≤ 65536 := by omega
      have h2 : x + 4 + 8 ≤ 65536 := by omega
      simp [zip64_scan, hy, hw, ht, rd_le, h1, h2]
  | @step x z hxy hxw hnt _ ih =>
    intro n ctx hn
    cases n with
    | zero => omega
    | succ n =>
      have hn' : 65532 - next_field hdr x < n := by unfold next_field; omega
      have := ih hy hw ht hin n ctx hn'
      rw [zip64_scan]
      simp only [hxy, hxw, hnt, and_self, if_true, if_false]
      exact this

theorem zip64_scan_none {hdr : Nat → Nat} {y : Nat} :
    ∀ (n x : Nat) (ctx : stream_t), 65532 - x < n →
      (∀ z, ScanReaches hdr y x z → z < y → z < 65536 - 4 → ¬ (hdr z = 1 ∧ hdr (z + 1) = 0)) →
      zip64_scan hdr y n x ctx = .ok ctx := by
  intro n
  induction n with
  | zero => intro x ctx hn; omega
  | succ n ih =>
    intro x ctx hn hno
    rw [zip64_scan]
    by_cases hc : x < y ∧ x < 65536 - 4
    · have hnt := hno x (.here x) hc.1 hc.2
      simp only [hc, hnt, and_self, if_true, if_false]
      apply ih
      · omega
      · intro z hz
        exact hno z (.step hc.1 hc.2 hnt hz)
    · simp only [hc, if_false]


theorem stream_open_file (lib : Lib) (fopen : List Nat → Option FileData) (time : Nat)
    (fn : List Nat) (d : FileData) (hfn : fn ≠ []) (ho : fopen fn = some d) :
    stream_open lib fopen time (some fn) =
      match detect d (stream_t.opened d) with
      | .error e => .error e
      | .ok (.ret code ctx) => .ok (code, ctx)
      | .ok (.cont ctx) => .ok (open_codec lib time ctx) := by
  cases fn with
  | nil => exact absurd rfl hfn
  | cons c cs =>
    simp only [stream_open, ho]
    try rfl

set_option maxRecDepth 100000 in
theorem flag_bits : ∀ b, b < 256 →
    ((b &&& 1 ≠ 0 ∨ b &&& (1 <<< 6) ≠ 0) ↔ (b.testBit 0 = true ∨ b.testBit 6 = true)) := by
  decide

theorem detect_pk (d : FileData) (ctx : stream_t)
    (hmagic : hdr_of d 0 = 0x50 ∧ hdr_of d 1 = 0x4b ∧ hdr_of d 2 = 3 ∧ hdr_of d 3 = 4) :
    detect d ctx = detect_zip (hdr_of d) ctx (FILE.advance ⟨d, 0, false⟩ 65536) := by
  obtain ⟨h0, h1, h2, h3⟩ := hmagic
  simp [detect, h0, h1, h2, h3]

theorem memcmp_ff_sizes (hdr : Nat → Nat) (hb : ∀ i, hdr i < 256) :
    memcmp_ff hdr 18 8 = 0 ↔
      (le_bytes hdr 18 4 = 0xFFFFFFFF ∧ le_bytes hdr 22 4 = 0xFFFFFFFF) := by
  have := hb 18; have := hb 19; have := hb 20; have := hb 21
  have := hb 22; have := hb 23; have := hb 24; have := hb 25
  simp only [memcmp_ff, le_bytes, Nat.reduceAdd]
  constructor
  · intro h
    split_ifs at h
    omega
  · intro h
    split_ifs <;> omega

theorem open_codec_code (lib : Lib) (time : Nat) (ctx : stream_t) :
    (open_codec lib time ctx).1 = 0 ↔
      (codec_init_ok lib ctx.type ∧ ¬ (ctx.compSize = 0 ∧ ctx.fileSize = 0)) := by
  by_cases hz : ctx.compSize = 0 ∧ ctx.fileSize = 0 <;> cases ht : ctx.type
  all_goals first
    | (simp [open_codec, ht, hz, codec_init_ok]; done)
    | (by_cases hi : lib.inflateInit2.1 = Z_OK <;>
        simp [open_codec, ht, hz, hi, codec_init_ok, stream_t.fclose]; done)
    | (by_cases hi : lib.BZ2_bzDecompressInit.1 = BZ_OK <;>
        simp [open_codec, ht, hz, hi, codec_init_ok, stream_t.fclose]; done)
    | (by_cases hi : lib.xz_dec_init = none <;>
        simp [open_codec, ht, hz, hi, codec_init_ok, stream_t.fclose])

theorem open_codec_fields (lib : Lib) (time : Nat) (ctx : stream_t) :
    (open_codec lib time ctx).2.fileSize = ctx.fileSize ∧
    (open_codec lib time ctx).2.compSize = ctx.compSize ∧
    (open_codec lib time ctx).2.readSize = ctx.readSize ∧
    (open_codec lib time ctx).2.cmrdSize = ctx.cmrdSize ∧
    (open_codec lib time ctx).2.type = ctx.type ∧
    (open_codec lib time ctx).2.f.map FILE.pos = ctx.f.map FILE.pos := by
  have hp : Option.map FILE.pos (Option.map FILE.fclose ctx.f) = Option.map FILE.pos ctx.f := by
    cases ctx.f <;> rfl
  by_cases hz : ctx.compSize = 0 ∧ ctx.fileSize = 0 <;> cases ht : ctx.type
  all_goals first
    | (simp [open_codec, ht, hz, stream_t.fclose, hp]; done)
    | (by_cases hi : lib.inflateInit2.1 = Z_OK <;>
        simp [open_codec, ht, hz, hi, stream_t.fclose, hp]; done)
    | (by_cases hi : lib.BZ2_bzDecompressInit.1 = BZ_OK <;>
        simp [open_codec, ht, hz, hi, stream_t.fclose, hp]; done)
    | (by_cases hi : lib.xz_dec_init = none <;>
        simp [open_codec, ht, hz, hi, stream_t.fclose, hp])

theorem stream_open_cont (lib : Lib) (fopen : List Nat → Option FileData) (time : Nat)
    (fn : List Nat) (d : FileData) (c : stream_t) (hfn : fn ≠ []) (ho : fopen fn = some d)
    (hd : detect d (stream_t.opened d) = .ok (.cont c)) :
    stream_open lib fopen time (some fn) =
      .ok ((open_codec lib time c).1, (open_codec lib time c).2) := by
  rw [stream_open_file lib fopen time fn d hfn ho, hd]

theorem stream_open_ret (lib : Lib) (fopen : List Nat → Option FileData) (time : Nat)
    (fn : List Nat) (d : FileData) (code : Int) (c : stream_t) (hfn : fn ≠ [])
    (ho : fopen fn = some d)
    (hd : detect d (stream_t.opened d) = .ok (.ret code c)) :
    stream_open lib fopen time (some fn) = .ok (code, c) := by
  rw [stream_open_file lib fopen time fn d hfn ho, hd]

theorem stream_open_fault (lib : Lib) (fopen : List Nat → Option FileData) (time : Nat)
    (fn : List Nat) (d : FileData) (e : Fault) (hfn : fn ≠ []) (ho : fopen fn = some d)
    (hd : detect d (stream_t.opened d) = .error e) :
    stream_open lib fopen time (some fn) = .error e := by
  rw [stream_open_file lib fopen time fn d hfn ho, hd]

theorem zip_method_of_field (hdr : Nat → Nat) (h8 : hdr 8 < 256)
    (hm : le_bytes hdr 8 2 = 0 ∨ le_bytes hdr 8 2 = 8 ∨ le_bytes hdr 8 2 = 12) :
    ∃ t, zip_method (hdr 8) = some t := by
  simp only [le_bytes, Nat.reduceAdd] at hm
  have h : hdr 8 = 0 ∨ hdr 8 = 8 ∨ hdr 8 = 12 := by omega
  rcases h with h | h | h <;> simp [zip_method, h]

/-- The pkzip branch on a zip64 header whose record lies in the window. -/
theorem detect_zip64_found (d : FileData) (ctx : stream_t) (x : Nat) (t : StreamType)
    (hmagic : hdr_of d 0 = 0x50 ∧ hdr_of d 1 = 0x4b ∧ hdr_of d 2 = 3 ∧ hdr_of d 3 = 4)
    (hflags : (hdr_of d 6).testBit 0 = false ∧ (hdr_of d 6).testBit 6 = false)
    (ht : zip_method (hdr_of d 8) = some t)
    (hsizes : le_bytes (hdr_of d) 18 4 = 0xFFFFFFFF ∧ le_bytes (hdr_of d) 22 4 = 0xFFFFFFFF)
    (hrec : Zip64Record (hdr_of d) x) (hwin : x + 20 ≤ 65536) :
    ∃ c, c.fileSize = le_bytes (hdr_of d) (x + 4) 8 ∧
      c.compSize = le_bytes (hdr_of d) (x + 12) 8 ∧ c.type = t ∧
      (((c.compSize = 0 ∨ c.fileSize = 0) ∧ detect d ctx = .ok (.ret 4 c)) ∨
        (¬ (c.compSize = 0 ∨ c.fileSize = 0) ∧ detect d ctx = .ok (.cont c))) := by
  have hfl : ¬ (hdr_of d 6 &&& 1 ≠ 0 ∨ hdr_of d 6 &&& (1 <<< 6) ≠ 0) := by
    rw [flag_bits _ (hdr_of_lt d 6)]; simp [hflags.1, hflags.2]
  have hff := (memcmp_ff_sizes (hdr_of d) (hdr_of_lt d)).2 hsizes
  obtain ⟨hr, hy, hw, htag⟩ := hrec
  unfold zip_extra_end zip_extra_start at hr hy
  rw [detect_pk d _ hmagic]
  simp only [detect_zip, hfl, if_false, ht, hff, ne_eq, not_true_eq_false]
  rw [zip64_scan_found hr hy hw htag hwin 65536 _ (by omega)]
  simp only []
  split_ifs with hz
  · refine ⟨_, ?_, ?_, ?_, Or.inl ⟨?_, rfl⟩⟩
    · rfl
    · rfl
    · rfl
    · exact hz
  · refine ⟨_, ?_, ?_, ?_, Or.inr ⟨?_, rfl⟩⟩
    · rfl
    · rfl
    · rfl
    · exact hz

/-- C1 (amended): on a header window that starts with `PK\x03\x04`, has flag bits 0 and 6
clear, a method in {0, 8, 12} and both 32-bit size fields `FFFFFFFF`, and whose extra-field
region holds a record with tag `0x0001` that the scan reaches and that lies in the window,
`stream_open` sets `fileSize` to the little-endian 8 bytes at record offset 4 and `compSize`
to those at record offset 12; it returns 0 exactly when both are non-zero and the decoder
set-up for the entry's method succeeds (a stored entry needs none). -/
theorem zip64_record_parsed (lib : Lib) (fopen : List Nat → Option FileData) (time : Nat)
    (fn : List Nat) (d : FileData) (x : Nat)
    (hfn : fn ≠ []) (hopen : fopen fn = some d)
    (hmagic : hdr_of d 0 = 0x50 ∧ hdr_of d 1 = 0x4b ∧ hdr_of d 2 = 3 ∧ hdr_of d 3 = 4)
    (hflags : (hdr_of d 6).testBit 0 = false ∧ (hdr_of d 6).testBit 6 = false)
    (hmethod : le_bytes (hdr_of d) 8 2 = 0 ∨ le_bytes (hdr_of d) 8 2 = 8 ∨
      le_bytes (hdr_of d) 8 2 = 12)
    (hsizes : le_bytes (hdr_of d) 18 4 = 0xFFFFFFFF ∧ le_bytes (hdr_of d) 22 4 = 0xFFFFFFFF)
    (hrec : Zip64Record (hdr_of d) x) (hwin : x + 20 ≤ 65536) :
    ∃ code ctx, stream_open lib fopen time (some fn) = .ok (code, ctx) ∧
      ctx.fileSize = le_bytes (hdr_of d) (x + 4) 8 ∧
      ctx.compSize = le_bytes (hdr_of d) (x + 12) 8 ∧
      (code = 0 ↔ (ctx.fileSize ≠ 0 ∧ ctx.compSize ≠ 0 ∧ codec_init_ok lib ctx.type)) := by
  obtain ⟨t, ht⟩ := zip_method_of_field (hdr_of d) (hdr_of_lt d 8) hmethod
  obtain ⟨c, hf, hc, -, ⟨hz, hd⟩ | ⟨hz, hd⟩⟩ :=
    detect_zip64_found d _ x t hmagic hflags ht hsizes hrec hwin
  · refine ⟨4, c, stream_open_ret lib fopen time fn d 4 c hfn hopen hd, hf, hc, ?_⟩
    constructor
    · intro h; exact absurd h (by decide)
    · rintro ⟨h1, h2, -⟩
      rcases hz with hz | hz
      · exact absurd hz h2
      · exact absurd hz h1
  · obtain ⟨e1, e2, -, -, e5, -⟩ := open_codec_fields lib time c
    refine ⟨_, _, stream_open_cont lib fopen time fn d c hfn hopen hd, by rw [e1, hf],
      by rw [e2, hc], ?_⟩
    rw [open_codec_code, e1, e2, e5]
    push_neg at hz
    constructor
    · rintro ⟨h1, -⟩; exact ⟨hz.2, hz.1, h1⟩
    · rintro ⟨-, -, h3⟩; exact ⟨h3, fun h => hz.1 h.1⟩

/-- The pkzip branch on a zip64 header without a reachable record. -/
theorem detect_zip64_none (d : FileData) (ctx : stream_t) (t : StreamType)
    (hmagic : hdr_of d 0 = 0x50 ∧ hdr_of d 1 = 0x4b ∧ hdr_of d 2 = 3 ∧ hdr_of d 3 = 4)
    (hflags : (hdr_of d 6).testBit 0 = false ∧ (hdr_of d 6).testBit 6 = false)
    (ht : zip_method (hdr_of d 8) = some t)
    (hsizes : le_bytes (hdr_of d) 18 4 = 0xFFFFFFFF ∧ le_bytes (hdr_of d) 22 4 = 0xFFFFFFFF)
    (hnone : ∀ x, ¬ Zip64Record (hdr_of d) x) (hc : ctx.compSize = 0) :
    ∃ c, c.type = t ∧ detect d ctx = .ok (.ret 4 c) := by
  have hfl : ¬ (hdr_of d 6 &&& 1 ≠ 0 ∨ hdr_of d 6 &&& (1 <<< 6) ≠ 0) := by
    rw [flag_bits _ (hdr_of_lt d 6)]; simp [hflags.1, hflags.2]
  have hff := (memcmp_ff_sizes (hdr_of d) (hdr_of_lt d)).2 hsizes
  rw [detect_pk d _ hmagic]
  simp only [detect_zip, hfl, if_false, ht, hff, ne_eq, not_true_eq_false]
  rw [zip64_scan_none 65536 _ _ (by omega)
    (fun z hz hy hw htag => hnone z ⟨by unfold zip_extra_end zip_extra_start; exact hz,
      by unfold zip_extra_end zip_extra_start; exact hy, hw, htag⟩)]
  simp only [hc, true_or, if_true]
  exact ⟨_, rfl, rfl⟩

/-- The malformed-zip return: on a header window accepted as a zip local header (flag bits
0 and 6 clear, method byte 0, 8 or 12) whose two 32-bit size fields are both `FFFFFFFF`, if
the scan of the extra-field region reaches no record with tag `0x0001`, or the record it
reaches lies inside the window and has a zero compressed or a zero uncompressed size,
`stream_open` returns 4, and so does not return 0. -/
theorem zip64_malformed (lib : Lib) (fopen : List Nat → Option FileData) (time : Nat)
    (fn : List Nat) (d : FileData)
    (hfn : fn ≠ []) (hopen : fopen fn = some d)
    (hmagic : hdr_of d 0 = 0x50 ∧ hdr_of d 1 = 0x4b ∧ hdr_of d 2 = 3 ∧ hdr_of d 3 = 4)
    (hflags : (hdr_of d 6).testBit 0 = false ∧ (hdr_of d 6).testBit 6 = false)
    (hmethod : hdr_of d 8 = 0 ∨ hdr_of d 8 = 8 ∨ hdr_of d 8 = 12)
    (hsizes : le_bytes (hdr_of d) 18 4 = 0xFFFFFFFF ∧ le_bytes (hdr_of d) 22 4 = 0xFFFFFFFF)
    (hbad : (∀ x, ¬ Zip64Record (hdr_of d) x) ∨
      ∃ x, Zip64Record (hdr_of d) x ∧ x + 20 ≤ 65536 ∧
        (le_bytes (hdr_of d) (x + 12) 8 = 0 ∨ le_bytes (hdr_of d) (x + 4) 8 = 0)) :
    ∃ ctx, stream_open lib fopen time (some fn) = .ok (4, ctx) ∧
      ∀ ctx0, stream_open lib fopen time (some fn) ≠ .ok (0, ctx0) := by
  have hm : ∃ t, zip_method (hdr_of d 8) = some t := by
    rcases hmethod with h | h | h <;> simp [zip_method, h]
  obtain ⟨t, ht⟩ := hm
  have key : ∃ ctx, stream_open lib fopen time (some fn) = .ok (4, ctx) := by
    rcases hbad with hnone | ⟨x, hrec, hwin, hzero⟩
    · obtain ⟨c, -, hd⟩ := detect_zip64_none d (stream_t.opened d) t hmagic hflags ht hsizes hnone rfl
      exact ⟨c, stream_open_ret lib fopen time fn d 4 c hfn hopen hd⟩
    · obtain ⟨c, hf, hc, -, ⟨-, hd⟩ | ⟨hz, -⟩⟩ :=
        detect_zip64_found d _ x t hmagic hflags ht hsizes hrec hwin
      · exact ⟨c, stream_open_ret lib fopen time fn d 4 c hfn hopen hd⟩
      · rw [hf, hc] at hz
        exact absurd hzero hz
  obtain ⟨ctx, h⟩ := key
  refine ⟨ctx, h, fun ctx0 h0 => ?_⟩
  rw [h] at h0
  injection h0 with h0
  injection h0 with h0
  exact absurd h0 (by decide)

/-- The `return` statements inside the format detection. -/
theorem detect_zip_ret (hdr : Nat → Nat) (ctx c : stream_t) (f : FILE) (code : Int)
    (h : detect_zip hdr ctx f = .ok (.ret code c)) :
    (code = 2 ∧ (hdr 6 &&& 1 ≠ 0 ∨ hdr 6 &&& (1 <<< 6) ≠ 0)) ∨ code = 3 ∨ code = 4 := by
  unfold detect_zip at h
  by_cases hfl : hdr 6 &&& 1 ≠ 0 ∨ hdr 6 &&& (1 <<< 6) ≠ 0
  · rw [if_pos hfl] at h
    injection h with h; injection h with h1 h2
    exact Or.inl ⟨h1.symm, hfl⟩
  · rw [if_neg hfl] at h
    cases hm : zip_method (hdr 8) with
    | none =>
      rw [hm] at h
      injection h with h; injection h with h1 h2
      exact Or.inr (Or.inl h1.symm)
    | some t =>
      rw [hm] at h
      simp only [] at h
      by_cases hff : memcmp_ff hdr 18 8 ≠ 0
      · rw [if_pos hff] at h
        injection h with h; cases h
      · rw [if_neg hff] at h
        split at h
        · cases h
        · rename_i c' hs
          by_cases hz : c'.compSize = 0 ∨ c'.fileSize = 0
          · rw [if_pos hz] at h
            injection h with h; injection h with h1 h2
            exact Or.inr (Or.inr h1.symm)
          · rw [if_neg hz] at h
            injection h with h; cases h

theorem detect_ret (d : FileData) (ctx c : stream_t) (code : Int)
    (h : detect d ctx = .ok (.ret code c)) :
    (hdr_of d 0 = 0x50 ∧ hdr_of d 1 = 0x4b ∧ hdr_of d 2 = 3 ∧ hdr_of d 3 = 4) ∧
    ((code = 2 ∧ ((hdr_of d 6).testBit 0 = true ∨ (hdr_of d 6).testBit 6 = true)) ∨
      code = 3 ∨ code = 4) := by
  unfold detect at h
  simp only [] at h
  split_ifs at h with h1 h2 h3 h4
  · split at h
    · cases h
    · injection h with h; cases h
  · injection h with h; cases h
  · injection h with h; cases h
  · refine ⟨h4, ?_⟩
    rcases detect_zip_ret _ _ _ _ _ h with ⟨hc, hfl⟩ | hc | hc
    · exact Or.inl ⟨hc, (flag_bits _ (hdr_of_lt d 6)).1 hfl⟩
    · exact Or.inr (Or.inl hc)
    · exact Or.inr (Or.inr hc)
  · injection h with h; cases h

theorem open_codec_codes (lib : Lib) (time : Nat) (ctx : stream_t) :
    (open_codec lib time ctx).1 = 0 ∨ (open_codec lib time ctx).1 = 1 ∨
      (open_codec lib time ctx).1 = 4 := by
  by_cases hz : ctx.compSize = 0 ∧ ctx.fileSize = 0 <;> cases ht : ctx.type
  all_goals first
    | (simp [open_codec, ht, hz]; done)
    | (by_cases hi : lib.inflateInit2.1 = Z_OK <;>
        simp [open_codec, ht, hz, hi, stream_t.fclose]; done)
    | (by_cases hi : lib.BZ2_bzDecompressInit.1 = BZ_OK <;>
        simp [open_codec, ht, hz, hi, stream_t.fclose]; done)
    | (by_cases hi : lib.xz_dec_init = none <;>
        simp [open_codec, ht, hz, hi, stream_t.fclose])

/-- Every way `stream_open` has of returning. -/
theorem stream_open_cases (lib : Lib) (fopen : List Nat → Option FileData) (time : Nat)
    (fn : Option (List Nat)) (code : Int) (ctx : stream_t)
    (h : stream_open lib fopen time fn = .ok (code, ctx)) :
    (code = 1 ∧ ctx = stream_t.zero) ∨
    ∃ name d, fn = some name ∧ name ≠ [] ∧ fopen name = some d ∧
      ((detect d (stream_t.opened d) = .ok (.ret code ctx)) ∨
        ∃ c, detect d (stream_t.opened d) = .ok (.cont c) ∧
          code = (open_codec lib time c).1 ∧ ctx = (open_codec lib time c).2) := by
  cases fn with
  | none => simp only [stream_open] at h; injection h with h; injection h with h1 h2
            exact Or.inl ⟨h1.symm, h2.symm⟩
  | some name =>
    cases name with
    | nil => simp only [stream_open] at h; injection h with h; injection h with h1 h2
             exact Or.inl ⟨h1.symm, h2.symm⟩
    | cons a as =>
      cases ho : fopen (a :: as) with
      | none =>
        simp only [stream_open, ho] at h; injection h with h; injection h with h1 h2
        exact Or.inl ⟨h1.symm, h2.symm⟩
      | some d =>
        refine Or.inr ⟨a :: as, d, rfl, List.cons_ne_nil _ _, ho, ?_⟩
        rw [stream_open_file lib fopen time (a :: as) d (List.cons_ne_nil _ _) ho] at h
        split at h
        · cases h
        · rename_i code' ctx' hd
          injection h with h; injection h with h1 h2
          subst h1; subst h2
          exact Or.inl hd
        · rename_i c hd
          injection h with h
          exact Or.inr ⟨c, hd, (congrArg Prod.fst h).symm, (congrArg Prod.snd h).symm⟩

theorem skipz_eq (hdr : Nat → Nat) :
    ∀ (n p : Nat), 65536 - p < n → p + cstrlen hdr (65536 - p) p < 65536 →
      skipz hdr n p = .ok (p + cstrlen hdr (65536 - p) p + 1) := by
  intro n
  induction n with
  | zero => intro p h; omega
  | succ k ih =>
    intro p hk hp
    have hlt : p < 65536 := by omega
    have hs : 65536 - p = (65536 - (p + 1)) + 1 := by omega
    rw [skipz]
    simp only [rd, hlt, if_true]
    rw [hs, cstrlen] at hp ⊢
    by_cases h0 : hdr p = 0
    · simp only [h0, if_true, ne_eq, not_true_eq_false, if_false, Nat.add_zero]
    · simp only [h0, if_false, ne_eq, not_false_eq_true, if_true] at hp ⊢
      rw [ih (p + 1) (by omega) (by omega)]
      congr 1
      omega

set_option maxRecDepth 100000 in
theorem gz_flag_bits : ∀ b, b < 256 →
    ((b &&& 4 ≠ 0 ↔ b.testBit 2 = true) ∧ (b &&& 8 ≠ 0 ↔ b.testBit 3 = true) ∧
      (b &&& 16 ≠ 0 ↔ b.testBit 4 = true) ∧ (b &&& 2 ≠ 0 ↔ b.testBit 1 = true)) := by
  decide

theorem skipz_opt (hdr : Nat → Nat) (b : Bool) (p : Nat)
    (h : p + (if b = true then cstrlen hdr (65536 - p) p + 1 else 0) ≤ 65536) :
    (if b = true then skipz hdr 65537 p else .ok p) =
      .ok (p + (if b = true then cstrlen hdr (65536 - p) p + 1 else 0)) := by
  cases b with
  | false => simp
  | true =>
    simp only [if_true] at h ⊢
    rw [skipz_eq hdr 65537 p (by omega) (by omega)]
    rfl

theorem gzip_walk_eq (hdr : Nat → Nat) (hb : ∀ i, hdr i < 256)
    (hwin : gzip_header_length hdr ≤ 65536) :
    gzip_walk hdr = .ok (gzip_header_length hdr) := by
  obtain ⟨f2, f3, f4, f1⟩ := gz_flag_bits (hdr 3) (hb 3)
  have eA : (if (hdr 3).testBit 2 = true then 12 + (hdr 10 + hdr 11 * 256) else 10) =
      10 + (if (hdr 3).testBit 2 = true then 2 + (hdr 10 + 256 * hdr 11) else 0) := by
    split_ifs <;> omega
  unfold gzip_header_length at hwin ⊢
  unfold gzip_walk
  simp only [f1, f2, f3, f4, Nat.reduceAdd, Nat.shiftLeft_eq, Nat.reducePow] at hwin ⊢
  rw [eA]
  generalize 10 + (if (hdr 3).testBit 2 = true then 2 + (hdr 10 + 256 * hdr 11) else 0) = h1
    at hwin ⊢
  have hw1 : h1 + (if (hdr 3).testBit 3 = true then cstrlen hdr (65536 - h1) h1 + 1 else 0)
      ≤ 65536 := by
    have := Nat.le_add_right (h1 + (if (hdr 3).testBit 3 = true then
      cstrlen hdr (65536 - h1) h1 + 1 else 0)) ((if (hdr 3).testBit 4 = true then
      cstrlen hdr (65536 - (h1 + (if (hdr 3).testBit 3 = true then
        cstrlen hdr (65536 - h1) h1 + 1 else 0))) (h1 + (if (hdr 3).testBit 3 = true then
        cstrlen hdr (65536 - h1) h1 + 1 else 0)) + 1 else 0))
    omega
  rw [skipz_opt hdr _ h1 hw1]
  simp only []
  generalize h1 + (if (hdr 3).testBit 3 = true then cstrlen hdr (65536 - h1) h1 + 1 else 0) = h2
    at hwin ⊢
  have hw2 : h2 + (if (hdr 3).testBit 4 = true then cstrlen hdr (65536 - h2) h2 + 1 else 0)
      ≤ 65536 := by omega
  rw [skipz_opt hdr _ h2 hw2]
  simp only []
  split_ifs <;> rfl

theorem sub64_of_le (a b : Nat) (ha : a < 2 ^ 64) (hb : b ≤ a) : sub64 a b = a - b := by
  unfold sub64
  have h1 : a % 2 ^ 64 = a := Nat.mod_eq_of_lt ha
  have h2 : b % 2 ^ 64 = b := Nat.mod_eq_of_lt (by omega)
  rw [h1, h2]
  omega

theorem le_bytes_lt_four (mem : Nat → Nat) (off : Nat) (hb : ∀ i, mem i < 256) :
    le_bytes mem off 4 < 2 ^ 32 := by
  have := hb off; have := hb (off + 1); have := hb (off + 1 + 1); have := hb (off + 1 + 1 + 1)
  simp only [le_bytes]
  omega

/-- The gzip branch of the detection when the header lies in the window and the file holds
the header and the 8-byte trailer. -/
theorem detect_gzip (d : FileData) (ctx : stream_t)
    (hmagic : hdr_of d 0 = 0x1f ∧ hdr_of d 1 = 0x8b)
    (hwin : gzip_header_length (hdr_of d) ≤ 65536)
    (hlen : gzip_header_length (hdr_of d) + 8 ≤ d.size) :
    ∃ c, detect d ctx = .ok (.cont c) ∧ c.type = TYPE_DEFLATE ∧
      c.f.map FILE.pos = some (gzip_header_length (hdr_of d)) ∧
      c.compSize = d.size - 8 - gzip_header_length (hdr_of d) ∧
      c.fileSize = le_bytes d.get (d.size - 4) 4 := by
  have hs := d.size_lt
  have h4 : 4 ≤ d.size := by omega
  unfold detect
  simp only [hmagic, and_self, if_true]
  rw [gzip_walk_eq (hdr_of d) (hdr_of_lt d) hwin]
  refine ⟨_, rfl, rfl, rfl, ?_, ?_⟩
  · simp only [FILE.advance, FILE.avail, FILE.fseek_end_m4, h4, if_true]
    have e : d.size - 4 + min 4 (d.size - (d.size - 4)) = d.size := by omega
    rw [e, sub64_of_le d.size 8 (by omega) (by omega),
      sub64_of_le (d.size - 8) _ (by omega) (by omega)]
  · have e : d.size - (d.size - 4) = 4 := by omega
    have e0 : 0 < d.size := by omega
    simp [FILE.advance, FILE.avail, FILE.fseek_end_m4, h4, FILE.fread_into, le_bytes, e, e0,
      Nat.add_assoc]

/-- C4 (amended): for a file of length `L` that starts with `1F 8B`, whose gzip header of
length `H` (10, plus `2 + XLEN` with `FLG` bit 2, plus the name and its terminator with bit
3, plus the comment and its terminator with bit 4, plus 2 with bit 1) lies inside the 64 KiB
window, and with `H + 8 ≤ L`, `stream_open` classifies the file as Deflate, sets the read
offset to `H`, `compSize` to `L - 8 - H`, and `fileSize` to the little-endian value of the
last 4 bytes of the file, which is below `2 ^ 32`. -/
theorem gzip_detection (lib : Lib) (fopen : List Nat → Option FileData) (time : Nat)
    (fn : List Nat) (d : FileData) (hfn : fn ≠ []) (hopen : fopen fn = some d)
    (hmagic : hdr_of d 0 = 0x1f ∧ hdr_of d 1 = 0x8b)
    (hwin : gzip_header_length (hdr_of d) ≤ 65536)
    (hlen : gzip_header_length (hdr_of d) + 8 ≤ d.size) :
    ∃ code ctx, stream_open lib fopen time (some fn) = .ok (code, ctx) ∧
      ctx.type = TYPE_DEFLATE ∧
      ctx.f.map FILE.pos = some (gzip_header_length (hdr_of d)) ∧
      ctx.compSize = d.size - 8 - gzip_header_length (hdr_of d) ∧
      ctx.fileSize = le_bytes d.get (d.size - 4) 4 ∧ ctx.fileSize < 2 ^ 32 := by
  obtain ⟨c, hd, ht, hp, hc, hf⟩ := detect_gzip d (stream_t.opened d) hmagic hwin hlen
  obtain ⟨e1, e2, -, -, e5, e6⟩ := open_codec_fields lib time c
  refine ⟨_, _, stream_open_cont lib fopen time fn d c hfn hopen hd, by rw [e5, ht],
    by rw [e6, hp], by rw [e2, hc], by rw [e1, hf], ?_⟩
  rw [e1, hf]
  exact le_bytes_lt_four _ _ (fun i => Nat.mod_lt _ (by decide))

/-- C6: on a file whose header starts with `PK\x03\x04`, if bit 0 or bit 6 of header byte
6 is set then `stream_open` returns 2, whatever the method and size fields are; and whenever
`stream_open` returns 2, on any input, the file was opened, starts with `PK\x03\x04` and
has bit 0 or bit 6 of header byte 6 set. -/
theorem zip_flags_rejected (lib : Lib) (fopen : List Nat → Option FileData) (time : Nat)
    (fn : List Nat) (d : FileData) (hfn : fn ≠ []) (hopen : fopen fn = some d)
    (hmagic : hdr_of d 0 = 0x50 ∧ hdr_of d 1 = 0x4b ∧ hdr_of d 2 = 3 ∧ hdr_of d 3 = 4)
    (hflag : (hdr_of d 6).testBit 0 = true ∨ (hdr_of d 6).testBit 6 = true) :
    (∃ ctx, stream_open lib fopen time (some fn) = .ok (2, ctx)) ∧
    ∀ (lib' : Lib) (fopen' : List Nat → Option FileData) (time' : Nat)
      (fn' : Option (List Nat)) (ctx' : stream_t),
      stream_open lib' fopen' time' fn' = .ok (2, ctx') →
      ∃ name d', fn' = some name ∧ fopen' name = some d' ∧
        (hdr_of d' 0 = 0x50 ∧ hdr_of d' 1 = 0x4b ∧ hdr_of d' 2 = 3 ∧ hdr_of d' 3 = 4) ∧
        ((hdr_of d' 6).testBit 0 = true ∨ (hdr_of d' 6).testBit 6 = true) := by
  constructor
  · have hfl : hdr_of d 6 &&& 1 ≠ 0 ∨ hdr_of d 6 &&& (1 <<< 6) ≠ 0 :=
      (flag_bits _ (hdr_of_lt d 6)).2 hflag
    have hd : detect d (stream_t.opened d) = .ok (.ret 2
        { stream_t.opened d with f := some (FILE.fclose (FILE.advance ⟨d, 0, false⟩ 65536)) }) := by
      rw [detect_pk d _ hmagic]
      simp only [detect_zip, hfl, if_true]
    exact ⟨_, stream_open_ret lib fopen time fn d 2 _ hfn hopen hd⟩
  · intro lib' fopen' time' fn' ctx' h
    rcases stream_open_cases lib' fopen' time' fn' 2 ctx' h with ⟨h1, -⟩ | ⟨name, d', hn, -, ho, hd⟩
    · exact absurd h1 (by decide)
    · rcases hd with hd | ⟨c, -, hcode, -⟩
      · obtain ⟨hm, hc⟩ := detect_ret d' _ _ _ hd
        rcases hc with ⟨-, hf⟩ | hc | hc
        · exact ⟨name, d', hn, ho, hm, hf⟩
        · exact absurd hc (by decide)
        · exact absurd hc (by decide)
      · rcases open_codec_codes lib' time' c with h0 | h0 | h0 <;> rw [h0] at hcode <;>
          exact absurd hcode (by decide)

theorem open_codec_plain (lib : Lib) (time : Nat) (c : stream_t) (ht : c.type = TYPE_PLAIN) :
    open_codec lib time c =
      if c.compSize = 0 ∧ c.fileSize = 0 then (1, c.fclose) else (0, { c with start := time }) := by
  simp only [open_codec, ht]

/-- The raw-image branch of the detection. -/
theorem detect_plain (d : FileData)
    (hgz : ¬ (hdr_of d 0 = 0x1f ∧ hdr_of d 1 = 0x8b))
    (hbz : ¬ (hdr_of d 0 = 0x42 ∧ hdr_of d 1 = 0x5a ∧ hdr_of d 2 = 0x68))
    (hxz : ¬ (hdr_of d 0 = 0xFD ∧ hdr_of d 1 = 0x37 ∧ hdr_of d 2 = 0x7a ∧ hdr_of d 3 = 0x58 ∧
      hdr_of d 4 = 0x5a))
    (hzip : ¬ (hdr_of d 0 = 0x50 ∧ hdr_of d 1 = 0x4b ∧ hdr_of d 2 = 3 ∧ hdr_of d 3 = 4)) :
    ∃ c, detect d (stream_t.opened d) = .ok (.cont c) ∧ c.type = TYPE_PLAIN ∧
      c.fileSize = d.size ∧ c.compSize = 0 ∧ c.f = some ⟨d, 0, false⟩ := by
  have hs := d.size_lt
  have hmod : d.size % 2 ^ 64 = d.size := Nat.mod_eq_of_lt (by omega)
  unfold detect
  simp only [hgz, hbz, hxz, hzip, if_false, FILE.fseek_end, FILE.fseek_set, FILE.advance, hmod]
  exact ⟨_, rfl, rfl, rfl, rfl, rfl⟩

/-- C7: on an openable file of length `L` whose first bytes match none of the gzip, bzip2,
xz and zip magics: if `L > 0`, `stream_open` returns 0 with type Plain, `fileSize = L`,
`compSize = 0` and the read position 0; if `L = 0`, it returns a non-zero value, with
`compSize = 0` and `fileSize = 0`. And on any input, `stream_open` never returns 0 with both
`compSize = 0` and `fileSize = 0`. -/
theorem plain_detection (lib : Lib) (fopen : List Nat → Option FileData) (time : Nat)
    (fn : List Nat) (d : FileData) (hfn : fn ≠ []) (hopen : fopen fn = some d)
    (hgz : ¬ (hdr_of d 0 = 0x1f ∧ hdr_of d 1 = 0x8b))
    (hbz : ¬ (hdr_of d 0 = 0x42 ∧ hdr_of d 1 = 0x5a ∧ hdr_of d 2 = 0x68))
    (hxz : ¬ (hdr_of d 0 = 0xFD ∧ hdr_of d 1 = 0x37 ∧ hdr_of d 2 = 0x7a ∧ hdr_of d 3 = 0x58 ∧
      hdr_of d 4 = 0x5a))
    (hzip : ¬ (hdr_of d 0 = 0x50 ∧ hdr_of d 1 = 0x4b ∧ hdr_of d 2 = 3 ∧ hdr_of d 3 = 4)) :
    (0 < d.size → ∃ ctx fl, stream_open lib fopen time (some fn) = .ok (0, ctx) ∧
      ctx.type = TYPE_PLAIN ∧ ctx.fileSize = d.size ∧ ctx.compSize = 0 ∧
      ctx.f = some fl ∧ fl.pos = 0) ∧
    (d.size = 0 → ∃ code ctx, stream_open lib fopen time (some fn) = .ok (code, ctx) ∧
      code ≠ 0 ∧ ctx.compSize = 0 ∧ ctx.fileSize = 0) ∧
    (∀ (lib' : Lib) (fopen' : List Nat → Option FileData) (time' : Nat)
      (fn' : Option (List Nat)) (ctx' : stream_t),
      stream_open lib' fopen' time' fn' = .ok (0, ctx') →
      ¬ (ctx'.compSize = 0 ∧ ctx'.fileSize = 0)) := by
  obtain ⟨c, hd, hty, hfs, hcs, hf⟩ := detect_plain d hgz hbz hxz hzip
  have hso := stream_open_cont lib fopen time fn d _ hfn hopen hd
  rw [open_codec_plain lib time _ hty] at hso
  refine ⟨fun hpos => ?_, fun hzero => ?_, ?_⟩
  · have hne : ¬ (c.compSize = 0 ∧ c.fileSize = 0) := fun h => by omega
    simp only [hne, if_false] at hso
    exact ⟨_, _, hso, hty, hfs, hcs, hf, rfl⟩
  · have hz : c.compSize = 0 ∧ c.fileSize = 0 := ⟨hcs, by omega⟩
    simp only [hz, and_self, if_true] at hso
    exact ⟨_, _, hso, by decide, hcs, by simp only [stream_t.fclose]; omega⟩
  · intro lib' fopen' time' fn' ctx' h
    rcases stream_open_cases lib' fopen' time' fn' 0 ctx' h with ⟨h1, -⟩ | ⟨name, d', -, -, -, hd'⟩
    · exact absurd h1 (by decide)
    · rcases hd' with hd' | ⟨c, -, hcode, hctx⟩
      · obtain ⟨-, hc⟩ := detect_ret d' _ _ _ hd'
        rcases hc with ⟨hc, -⟩ | hc | hc <;> exact absurd hc (by decide)
      · have := (open_codec_code lib' time' c).1 hcode.symm
        obtain ⟨e1, e2, -⟩ := open_codec_fields lib' time' c
        rw [hctx, e1, e2]
        exact this.2


/-! ### Instances -/

theorem scanReaches_inv {hdr : Nat → Nat} {y x z : Nat} (h : ScanReaches hdr y x z) :
    z = x ∨ (x < y ∧ x < 65536 - 4 ∧ ScanReaches hdr y (next_field hdr x) z) := by
  cases h with
  | here => exact Or.inl rfl
  | step h1 h2 _ h3 => exact Or.inr ⟨h1, h2, h3⟩

theorem ex_lib_init_ok (t : StreamType) : codec_init_ok ex_lib t := by
  cases t
  · trivial
  · rfl
  · rfl
  · exact fun h => Option.noConfusion h

theorem ex_zip64_record (m : Nat) : Zip64Record (hdr_of (ex_zip64 m)) 40 := by
  have hs : zip_extra_start (hdr_of (ex_zip64 m)) = 31 := rfl
  have he : zip_extra_end (hdr_of (ex_zip64 m)) = 60 := rfl
  have hn : next_field (hdr_of (ex_zip64 m)) 31 = 40 := rfl
  have h31 : hdr_of (ex_zip64 m) 31 = 0x55 := rfl
  have h40 : hdr_of (ex_zip64 m) 40 = 1 := rfl
  have h41 : hdr_of (ex_zip64 m) (40 + 1) = 0 := rfl
  refine ⟨?_, by rw [he]; decide, by decide, h40, h41⟩
  rw [hs, he]
  refine ScanReaches.step (by decide) (by decide) (by rw [h31]; exact fun h => absurd h.1 (by decide)) ?_
  rw [hn]
  exact ScanReaches.here 40

/-- C1, instance of the amended claim: the stored entry with the zip64 record holding
(compSize = 123456789012, fileSize = 987654321098) is parsed to these values and
`stream_open` returns 0. -/
theorem zip64_record_parsed_witness :
    ∃ code ctx, stream_open ex_lib (fun _ => some (ex_zip64 0)) 0 (some ex_name) = .ok (code, ctx) ∧
      ctx.fileSize = 987654321098 ∧ ctx.compSize = 123456789012 ∧ code = 0 := by
  obtain ⟨code, ctx, h, hf, hc, h0⟩ :=
    zip64_record_parsed ex_lib (fun _ => some (ex_zip64 0)) 0 ex_name (ex_zip64 0) 40
      (by decide) rfl ⟨rfl, rfl, rfl, rfl⟩ ⟨rfl, rfl⟩ (Or.inl rfl) ⟨rfl, rfl⟩
      (ex_zip64_record 0) (by decide)
  have hf' : ctx.fileSize = 987654321098 := hf.trans rfl
  have hc' : ctx.compSize = 123456789012 := hc.trans rfl
  refine ⟨code, ctx, h, hf', hc', h0.2 ⟨?_, ?_, ex_lib_init_ok _⟩⟩
  · rw [hf']; decide
  · rw [hc']; decide

/-- C1, counterexample: a deflated entry (method 8) with sentinel sizes and the zip64 record
holding (compSize = 123456789012, fileSize = 987654321098) is parsed to these values, but
`stream_open` returns 4, not 0, when `inflateInit2` fails. -/
theorem zip64_record_init_failure :
    (hdr_of (ex_zip64 8) 0 = 0x50 ∧ hdr_of (ex_zip64 8) 1 = 0x4b ∧ hdr_of (ex_zip64 8) 2 = 3 ∧
      hdr_of (ex_zip64 8) 3 = 4) ∧
    ((hdr_of (ex_zip64 8) 6).testBit 0 = false ∧ (hdr_of (ex_zip64 8) 6).testBit 6 = false) ∧
    le_bytes (hdr_of (ex_zip64 8)) 8 2 = 8 ∧
    (le_bytes (hdr_of (ex_zip64 8)) 18 4 = 0xFFFFFFFF ∧
      le_bytes (hdr_of (ex_zip64 8)) 22 4 = 0xFFFFFFFF) ∧
    Zip64Record (hdr_of (ex_zip64 8)) 40 ∧
    le_bytes (hdr_of (ex_zip64 8)) (40 + 4) 8 = 987654321098 ∧
    le_bytes (hdr_of (ex_zip64 8)) (40 + 12) 8 = 123456789012 ∧
    ∃ ctx, stream_open ex_lib_nomem (fun _ => some (ex_zip64 8)) 0 (some ex_name) = .ok (4, ctx) ∧
      ctx.fileSize = 987654321098 ∧ ctx.compSize = 123456789012 :=
  ⟨⟨rfl, rfl, rfl, rfl⟩, ⟨rfl, rfl⟩, rfl, ⟨rfl, rfl⟩, ex_zip64_record 8, rfl, rfl,
    _, rfl, rfl, rfl⟩

theorem ex_zip64_norecord_none (x : Nat) : ¬ Zip64Record (hdr_of ex_zip64_norecord) x := by
  rintro ⟨hr, hy, -, h1, -⟩
  have hs : zip_extra_start (hdr_of ex_zip64_norecord) = 31 := rfl
  have he : zip_extra_end (hdr_of ex_zip64_norecord) = 40 := rfl
  have hn : next_field (hdr_of ex_zip64_norecord) 31 = 40 := rfl
  rw [hs, he] at hr
  rw [he] at hy
  rcases scanReaches_inv hr with h | ⟨-, -, hr'⟩
  · subst h
    exact absurd h1 (by decide)
  · rw [hn] at hr'
    rcases scanReaches_inv hr' with h | ⟨h, -, -⟩
    · omega
    · omega

/-- Instance of the malformed-zip return: a zip64 header whose extra-field region holds no
zip64 record makes `stream_open` return 4. -/
theorem zip64_malformed_witness :
    ∃ ctx, stream_open ex_lib (fun _ => some ex_zip64_norecord) 0 (some ex_name) = .ok (4, ctx) ∧
      ∀ ctx0, stream_open ex_lib (fun _ => some ex_zip64_norecord) 0 (some ex_name) ≠
        .ok (0, ctx0) :=
  zip64_malformed ex_lib (fun _ => some ex_zip64_norecord) 0 ex_name ex_zip64_norecord
    (by decide) rfl ⟨rfl, rfl, rfl, rfl⟩ ⟨rfl, rfl⟩ (Or.inl rfl) ⟨rfl, rfl⟩
    (Or.inl ex_zip64_norecord_none)

/-- C3: the format detection reads past the 64 KiB header window. On the zip file
`ex_zip_oob` (flag bits clear, stored, sentinel sizes, zip64 tag at offset 65530, which
passes the bound `x < sizeof(hdr) - 4`) the copy of the 8 bytes at `x + 12` reads `hdr[65542]`
and following; on the gzip file `ex_gzip_oob` the skip of the file name starts reading at
`hdr[65547]`. -/
theorem header_reads_past_window :
    stream_open ex_lib (fun _ => some ex_zip_oob) 0 (some ex_name) = .error (.oob 65542) ∧
    stream_open ex_lib (fun _ => some ex_gzip_oob) 0 (some ex_name) = .error (.oob 65547) :=
  ⟨rfl, rfl⟩

/-- C4, instance of the amended claim: the gzip file `ex_gzip` of 26 bytes with the name
"ab" has the read offset 13, `compSize = 5` and `fileSize = 0x2010`. -/
theorem gzip_detection_witness :
    ∃ code ctx, stream_open ex_lib (fun _ => some ex_gzip) 0 (some ex_name) = .ok (code, ctx) ∧
      ctx.type = TYPE_DEFLATE ∧ ctx.f.map FILE.pos = some 13 ∧ ctx.compSize = 5 ∧
      ctx.fileSize = 0x2010 ∧ ctx.fileSize < 2 ^ 32 :=
  gzip_detection ex_lib (fun _ => some ex_gzip) 0 ex_name ex_gzip (by decide) rfl ⟨rfl, rfl⟩
    (by decide) (by decide)

/-- C4, counterexample: the file `ex_gzip_short` of length 10 starts with `1F 8B` and its
header, of length 10, lies inside the window; `stream_open` returns 0 with the read offset 10
and `compSize = 2 ^ 64 - 8`, which is not `L - 8 - H = -8`. -/
theorem gzip_short_compSize :
    hdr_of ex_gzip_short 0 = 0x1f ∧ hdr_of ex_gzip_short 1 = 0x8b ∧
    gzip_header_length (hdr_of ex_gzip_short) = 10 ∧ ex_gzip_short.size = 10 ∧
    ∃ ctx, stream_open ex_lib (fun _ => some ex_gzip_short) 0 (some ex_name) = .ok (0, ctx) ∧
      ctx.type = TYPE_DEFLATE ∧ ctx.f.map FILE.pos = some 10 ∧
      ctx.compSize = 18446744073709551608 ∧
      (ctx.compSize : Int) ≠ (ex_gzip_short.size : Int) - 8 -
        (gzip_header_length (hdr_of ex_gzip_short) : Int) :=
  ⟨rfl, rfl, rfl, rfl, _, rfl, rfl, rfl, rfl, by decide⟩

/-- C6, instance: the encrypted entry `ex_zip 1 8` (flag bit 0 set) makes `stream_open`
return 2. -/
theorem zip_flags_rejected_witness :
    ∃ ctx, stream_open ex_lib (fun _ => some (ex_zip 1 8)) 0 (some ex_name) = .ok (2, ctx) :=
  (zip_flags_rejected ex_lib (fun _ => some (ex_zip 1 8)) 0 ex_name (ex_zip 1 8) (by decide) rfl
    ⟨rfl, rfl, rfl, rfl⟩ (Or.inl rfl)).1

/-- C7, instance: a raw image of 100 bytes is opened as Plain with `fileSize = 100`. -/
theorem plain_detection_witness :
    ∃ ctx fl, stream_open ex_lib (fun _ => some (ex_raw 100)) 0 (some ex_name) = .ok (0, ctx) ∧
      ctx.type = TYPE_PLAIN ∧ ctx.fileSize = 100 ∧ ctx.compSize = 0 ∧
      ctx.f = some fl ∧ fl.pos = 0 :=
  (plain_detection ex_lib (fun _ => some (ex_raw 100)) 0 ex_name (ex_raw 100) (by decide) rfl
    (by decide) (by decide) (by decide) (by decide)).1 (by decide)

/-! ## Theorems on stream_read -/

theorem round512_props (n : Nat) :
    512 ∣ round512 n ∧ n ≤ round512 n ∧ round512 n < n + 512 ∧
      ∀ m, 512 ∣ m → n ≤ m → round512 n ≤ m := by
  unfold round512
  refine ⟨Nat.dvd_mul_left _ _, by omega, by omega, ?_⟩
  rintro m ⟨k, rfl⟩ h
  omega

theorem round512_of_dvd (n : Nat) (h : n % 512 = 0) : round512 n = n := by
  unfold round512
  omega

theorem round512_succ (n : Nat) (h : n % 512 ≠ 0) : round512 (n + 1) = round512 n := by
  unfold round512
  omega

/-- The padding loop stops at the next multiple of 512, having zeroed the bytes in between. -/
theorem pad_loop_eq :
    ∀ (n : Nat) (buffer : Nat → Nat) (size : Nat), round512 size - size < n →
      pad_loop n buffer size =
        .ok (fun i => if size ≤ i ∧ i < round512 size then 0 else buffer i, round512 size) := by
  intro n
  induction n with
  | zero => intro buffer size h; omega
  | succ k ih =>
    intro buffer size h
    have hand : size &&& 511 = size % 512 := Nat.and_pow_two_sub_one_eq_mod size 9
    rw [pad_loop, hand]
    by_cases hz : size % 512 = 0
    · have hr := round512_of_dvd size hz
      simp only [hz, ne_eq, not_true_eq_false, if_false, hr]
      congr 2
      funext i
      have : ¬ (size ≤ i ∧ i < size) := by omega
      simp only [this, if_false]
    · have hr := round512_succ size hz
      have hp := round512_props size
      simp only [hz, ne_eq, not_false_eq_true, if_true]
      rw [ih _ _ (by omega), hr]
      congr 2
      funext i
      by_cases hi : i = size
      · subst hi
        have h1 : ¬ (i + 1 ≤ i ∧ i < round512 i) := by omega
        have h2 : i ≤ i ∧ i < round512 i := by
          have : round512 i ≠ i := fun e => hz (by
            have := hp.1; rw [e] at this; exact Nat.mod_eq_zero_of_dvd this)
          omega
        rw [if_neg h1, if_pos h2, Function.update_same]
      · have h1 : (size + 1 ≤ i ∧ i < round512 size) ↔ (size ≤ i ∧ i < round512 size) := by
          omega
        rw [Function.update_noteq hi]
        by_cases hc : size ≤ i ∧ i < round512 size
        · rw [if_pos hc, if_pos (h1.2 hc)]
        · rw [if_neg hc, if_neg (fun h => hc (h1.1 h))]


theorem SameCounters.refl (a : stream_t) : SameCounters a a := ⟨rfl, rfl, rfl, rfl⟩

theorem SameCounters.trans {a b c : stream_t} (h1 : SameCounters a b) (h2 : SameCounters b c) :
    SameCounters a c :=
  ⟨h2.1.trans h1.1, h2.2.1.trans h1.2.1, h2.2.2.1.trans h1.2.2.1, h2.2.2.2.trans h1.2.2.2⟩

theorem refill_deflate_same (ctx : stream_t) (ret : Int) (x : Refill)
    (h : refill_deflate ctx ret = .ok x) :
    match x with
    | .brk c _ => SameCounters ctx c
    | .go c => SameCounters ctx c := by
  unfold refill_deflate at h
  by_cases h0 : ctx.zstrm.avail_in = 0
  · rw [if_pos h0] at h
    simp only [] at h
    by_cases h1 : toInt64 (sub64 ctx.compSize ctx.cmrdSize) < 1
    · rw [if_pos h1] at h
      injection h with h; subst h
      exact SameCounters.refl ctx
    · rw [if_neg h1] at h
      cases hf : ctx.f with
      | none => rw [hf] at h; cases h
      | some f =>
        rw [hf] at h
        simp only [] at h
        split_ifs at h <;> (injection h with h; subst h; exact ⟨rfl, rfl, rfl, rfl⟩)
  · rw [if_neg h0] at h
    injection h with h; subst h
    exact SameCounters.refl ctx

theorem refill_bzip2_same (ctx : stream_t) (ret : Int) (x : Refill)
    (h : refill_bzip2 ctx ret = .ok x) :
    match x with
    | .brk c _ => SameCounters ctx c ∧ c.bstrm.avail_out = ctx.bstrm.avail_out
    | .go c => SameCounters ctx c ∧ c.bstrm.avail_out = ctx.bstrm.avail_out := by
  unfold refill_bzip2 at h
  by_cases h0 : ctx.bstrm.avail_in = 0
  · rw [if_pos h0] at h
    simp only [] at h
    by_cases h1 : toInt64 (sub64 ctx.compSize ctx.cmrdSize) < 1
    · rw [if_pos h1] at h
      injection h with h; subst h
      exact ⟨SameCounters.refl ctx, rfl⟩
    · rw [if_neg h1] at h
      cases hf : ctx.f with
      | none => rw [hf] at h; cases h
      | some f =>
        rw [hf] at h
        simp only [] at h
        split_ifs at h <;> (injection h with h; subst h; exact ⟨⟨rfl, rfl, rfl, rfl⟩, rfl⟩)
  · rw [if_neg h0] at h
    injection h with h; subst h
    exact ⟨SameCounters.refl ctx, rfl⟩

theorem refill_xz_same (ctx : stream_t) (ret : Int) (x : Refill)
    (h : refill_xz ctx ret = .ok x) :
    match x with
    | .brk c _ => SameCounters ctx c ∧ c.xstrm.out_pos = ctx.xstrm.out_pos ∧
        c.xstrm.out_size = ctx.xstrm.out_size
    | .go c => SameCounters ctx c ∧ c.xstrm.out_pos = ctx.xstrm.out_pos ∧
        c.xstrm.out_size = ctx.xstrm.out_size := by
  unfold refill_xz at h
  by_cases h0 : ctx.xstrm.in_pos = ctx.xstrm.in_size
  · rw [if_pos h0] at h
    simp only [] at h
    by_cases h1 : toInt64 (sub64 ctx.compSize ctx.cmrdSize) < 1
    · rw [if_pos h1] at h
      injection h with h; subst h
      exact ⟨SameCounters.refl ctx, rfl, rfl⟩
    · rw [if_neg h1] at h
      cases hf : ctx.f with
      | none => rw [hf] at h; cases h
      | some f =>
        rw [hf] at h
        simp only [] at h
        split_ifs at h <;>
          (injection h with h; subst h; exact ⟨⟨rfl, rfl, rfl, rfl⟩, rfl, rfl⟩)
  · rw [if_neg h0] at h
    injection h with h; subst h
    exact ⟨SameCounters.refl ctx, rfl, rfl⟩


theorem deflate_loop_same (lib : Lib) :
    ∀ (n : Nat) (ctx : stream_t) (buffer : Nat → Nat) (ret : Int) (c : stream_t)
      (bb : Nat → Nat) (r : Int),
      deflate_loop lib n ctx buffer ret = .ok (c, bb, r) → SameCounters ctx c := by
  intro n
  induction n with
  | zero => intro ctx buffer ret c bb r h; cases h
  | succ k ih =>
    intro ctx buffer ret c bb r h
    rw [deflate_loop] at h
    cases hre : refill_deflate ctx ret with
    | error e => rw [hre] at h; cases h
    | ok x =>
      have hs := refill_deflate_same ctx ret x hre
      rw [hre] at h
      cases x with
      | brk c1 r1 =>
        simp only [] at h hs
        injection h with h; injection h with h1 h2
        subst h1
        exact hs
      | go c1 =>
        simp only [] at h hs
        have hc : SameCounters c1 (call_inflate lib c1 buffer).1 := ⟨rfl, rfl, rfl, rfl⟩
        split_ifs at h
        · exact (hs.trans hc).trans (ih _ _ _ _ _ _ h)
        · injection h with h; injection h with h1 h2
          subst h1
          exact hs.trans hc

theorem bzip2_loop_same (lib : Lib) :
    ∀ (n : Nat) (ctx : stream_t) (buffer : Nat → Nat) (ret : Int) (c : stream_t)
      (bb : Nat → Nat) (r : Int),
      bzip2_loop lib n ctx buffer ret = .ok (c, bb, r) → SameCounters ctx c := by
  intro n
  induction n with
  | zero => intro ctx buffer ret c bb r h; cases h
  | succ k ih =>
    intro ctx buffer ret c bb r h
    rw [bzip2_loop] at h
    cases hre : refill_bzip2 ctx ret with
    | error e => rw [hre] at h; cases h
    | ok x =>
      have hs := refill_bzip2_same ctx ret x hre
      rw [hre] at h
      cases x with
      | brk c1 r1 =>
        simp only [] at h hs
        injection h with h; injection h with h1 h2
        subst h1
        exact hs.1
      | go c1 =>
        simp only [] at h hs
        have hc : SameCounters c1 (call_bzDecompress lib c1 buffer).1 := ⟨rfl, rfl, rfl, rfl⟩
        split_ifs at h
        · exact (hs.1.trans hc).trans (ih _ _ _ _ _ _ h)
        · injection h with h; injection h with h1 h2
          subst h1
          exact hs.1.trans hc

theorem xz_loop_same (lib : Lib) :
    ∀ (n : Nat) (ctx : stream_t) (buffer : Nat → Nat) (ret : Int) (c : stream_t)
      (bb : Nat → Nat) (r : Int),
      xz_loop lib n ctx buffer ret = .ok (c, bb, r) →
      ctx.xstrm.out_pos ≤ ctx.xstrm.out_size →
      SameCounters ctx c ∧ c.xstrm.out_pos ≤ c.xstrm.out_size ∧
        c.xstrm.out_size = ctx.xstrm.out_size := by
  intro n
  induction n with
  | zero => intro ctx buffer ret c bb r h; cases h
  | succ k ih =>
    intro ctx buffer ret c bb r h hle
    rw [xz_loop] at h
    cases hre : refill_xz ctx ret with
    | error e => rw [hre] at h; cases h
    | ok x =>
      have hs := refill_xz_same ctx ret x hre
      rw [hre] at h
      cases x with
      | brk c1 r1 =>
        simp only [] at h hs
        injection h with h; injection h with h1 h2
        subst h1
        exact ⟨hs.1, by rw [hs.2.1, hs.2.2]; exact hle, hs.2.2⟩
      | go c1 =>
        simp only [] at h hs
        cases hcall : call_xz_dec_run lib c1 buffer with
        | error e => rw [hcall] at h; cases h
        | ok y =>
          obtain ⟨c2, b2, r2⟩ := y
          rw [hcall] at h
          simp only [] at h
          have hc : SameCounters c1 c2 ∧ c2.xstrm.out_pos ≤ c2.xstrm.out_size ∧
              c2.xstrm.out_size = c1.xstrm.out_size := by
            unfold call_xz_dec_run at hcall
            cases hx : c1.xz with
            | none => rw [hx] at hcall; cases hcall
            | some st =>
              rw [hx] at hcall
              simp only [] at hcall
              injection hcall with hcall; injection hcall with e1 e2
              subst e1
              refine ⟨⟨rfl, rfl, rfl, rfl⟩, ?_, rfl⟩
              simp only []
              have := hs.2.1; have := hs.2.2
              omega
          split_ifs at h
          · obtain ⟨i1, i2, i3⟩ := ih _ _ _ _ _ _ h hc.2.1
            exact ⟨(hs.1.trans hc.1).trans i1, i2, by rw [i3, hc.2.2, hs.2.2]⟩
          · injection h with h; injection h with h1 h2
            subst h1
            exact ⟨hs.1.trans hc.1, hc.2.1, by rw [hc.2.2, hs.2.2]⟩


/-- The `switch` of `stream_read` leaves `fileSize`, `readSize`, `type` and `compSize`; the
Plain and Deflate cases leave `size`, and no case gives more than a block. -/
theorem read_switch_same (lib : Lib) (fuel : Nat) (ctx : stream_t) (buffer : Nat → Nat)
    (size : Nat) (x : Decoded) (h : read_switch lib fuel ctx buffer size = .ok x) :
    match x with
    | .err c _ => SameCounters ctx c
    | .fill c _ size' => SameCounters ctx c ∧
        ((ctx.type = TYPE_PLAIN ∨ ctx.type = TYPE_DEFLATE) → size' = size) ∧
        (size ≤ BUFFER_SIZE → size' ≤ BUFFER_SIZE) := by
  unfold read_switch at h
  cases ht : ctx.type with
  | TYPE_PLAIN =>
    rw [ht] at h
    simp only [] at h
    cases hf : ctx.f with
    | none => rw [hf] at h; cases h
    | some f =>
      rw [hf] at h
      injection h with h; subst h
      exact ⟨⟨rfl, rfl, ht.symm, rfl⟩, fun _ => rfl, fun hs => hs⟩
  | TYPE_DEFLATE =>
    rw [ht] at h
    simp only [] at h
    split at h
    · cases h
    · rename_i c bb r hl
      have hs := deflate_loop_same lib _ _ _ _ _ _ _ hl
      have hs' : SameCounters ctx c := ⟨hs.1, hs.2.1, hs.2.2.1.trans ht.symm, hs.2.2.2⟩
      split_ifs at h
      · injection h with h; subst h; exact hs'
      · injection h with h; subst h
        exact ⟨hs', fun _ => rfl, fun hs => hs⟩
  | TYPE_BZIP2 =>
    rw [ht] at h
    simp only [] at h
    split at h
    · cases h
    · rename_i c bb r hl
      have hs := bzip2_loop_same lib _ _ _ _ _ _ _ hl
      have hs' : SameCounters ctx c := ⟨hs.1, hs.2.1, hs.2.2.1.trans ht.symm, hs.2.2.2⟩
      split_ifs at h
      · injection h with h; subst h; exact hs'
      · injection h with h; subst h
        refine ⟨hs', fun hty => ?_, fun _ => Nat.sub_le _ _⟩
        rcases hty with hty | hty <;> cases hty
  | TYPE_XZ =>
    rw [ht] at h
    simp only [] at h
    split at h
    · cases h
    · rename_i c bb r hl
      obtain ⟨hs, hle, hsz⟩ := xz_loop_same lib _ _ _ _ _ _ _ hl (Nat.zero_le _)
      have hs' : SameCounters ctx c := ⟨hs.1, hs.2.1, hs.2.2.1.trans ht.symm, hs.2.2.2⟩
      split_ifs at h
      · injection h with h; subst h; exact hs'
      · injection h with h; subst h
        refine ⟨hs', fun hty => ?_, fun _ => ?_⟩
        · rcases hty with hty | hty <;> cases hty
        · rw [hsz] at hle
          exact hle

theorem stream_read_eq (lib : Lib) (fuel : Nat) (ctx : stream_t) (buffer : Nat → Nat)
    (h0 : ¬ (toInt64 (sub64 ctx.fileSize ctx.readSize) < 1 ∧ ctx.fileSize ≠ 0)) :
    stream_read lib fuel ctx buffer =
      (match read_switch lib fuel ctx buffer (read_size ctx) with
        | Except.error e => Except.error e
        | Except.ok (Decoded.err ctx buffer) => Except.ok (-1, ctx, buffer)
        | Except.ok (Decoded.fill ctx buffer size) =>
          match pad_loop 512 buffer size with
          | Except.error e => Except.error e
          | Except.ok (buffer, size) =>
            Except.ok ((size : Int), { ctx with readSize := add64 ctx.readSize size }, buffer) :
        Res (Int × stream_t × (Nat → Nat))) := by
  unfold stream_read read_size
  simp only [h0, if_false]
  try rfl

/-- The three ways `stream_read` has of returning: the early `return 0`, the `return -1`
of a decoder error, and the padded chunk. -/
theorem stream_read_cases (lib : Lib) (fuel : Nat) (ctx : stream_t) (buffer : Nat → Nat)
    (r : Int) (c : stream_t) (bb : Nat → Nat)
    (h : stream_read lib fuel ctx buffer = .ok (r, c, bb)) :
    (r = 0 ∧ c = ctx ∧ bb = buffer ∧
      toInt64 (sub64 ctx.fileSize ctx.readSize) < 1 ∧ ctx.fileSize ≠ 0) ∨
    (¬ (toInt64 (sub64 ctx.fileSize ctx.readSize) < 1 ∧ ctx.fileSize ≠ 0) ∧
      ((r = -1 ∧ read_switch lib fuel ctx buffer (read_size ctx) = .ok (.err c bb)) ∨
        ∃ c1 b1 size, read_switch lib fuel ctx buffer (read_size ctx) = .ok (.fill c1 b1 size) ∧
          size ≤ BUFFER_SIZE ∧ r = (round512 size : Nat) ∧
          c = { c1 with readSize := add64 c1.readSize (round512 size) } ∧
          bb = fun i => if size ≤ i ∧ i < round512 size then 0 else b1 i)) := by
  by_cases h0 : toInt64 (sub64 ctx.fileSize ctx.readSize) < 1 ∧ ctx.fileSize ≠ 0
  · unfold stream_read at h
    simp only [] at h
    rw [if_pos h0] at h
    injection h with h; injection h with h1 h2; injection h2 with h2 h3
    exact Or.inl ⟨h1.symm, h2.symm, h3.symm, h0.1, h0.2⟩
  · refine Or.inr ⟨h0, ?_⟩
    have hsz : read_size ctx ≤ BUFFER_SIZE := by
      unfold read_size clamp BUFFER_SIZE
      split_ifs <;> omega
    rw [stream_read_eq lib fuel ctx buffer h0] at h
    cases hsw : read_switch lib fuel ctx buffer (read_size ctx) with
    | error e => rw [hsw] at h; cases h
    | ok x =>
      have hs := read_switch_same lib fuel ctx buffer _ x hsw
      rw [hsw] at h
      cases x with
      | err c1 b1 =>
        simp only [] at h
        injection h with h; injection h with h1 h2; injection h2 with h2 h3
        subst h2; subst h3
        exact Or.inl ⟨h1.symm, rfl⟩
      | fill c1 b1 size =>
        simp only [] at h hs
        have hle := hs.2.2 hsz
        have hp := round512_props size
        rw [pad_loop_eq 512 b1 size (by omega)] at h
        simp only [] at h
        injection h with h; injection h with h1 h2; injection h2 with h2 h3
        exact Or.inr ⟨c1, b1, size, rfl, hle, h1.symm, h2.symm, h3.symm⟩


theorem read_size_le (ctx : stream_t) : read_size ctx ≤ BUFFER_SIZE := by
  unfold read_size clamp BUFFER_SIZE
  split_ifs <;> omega

/-- The chunk size when `fileSize - readSize` is positive as an `int64_t`. -/
theorem read_size_of_lt (ctx : stream_t) (hfs : ctx.fileSize < 2 ^ 64)
    (hlt : ctx.readSize < ctx.fileSize) (hd : ctx.fileSize - ctx.readSize < 2 ^ 63) :
    ¬ (toInt64 (sub64 ctx.fileSize ctx.readSize) < 1 ∧ ctx.fileSize ≠ 0) ∧
      read_size ctx = min BUFFER_SIZE (ctx.fileSize - ctx.readSize) := by
  have e : sub64 ctx.fileSize ctx.readSize = ctx.fileSize - ctx.readSize := by
    unfold sub64; omega
  have e2 : toInt64 (sub64 ctx.fileSize ctx.readSize) =
      ((ctx.fileSize - ctx.readSize : Nat) : Int) := by
    rw [e]; unfold toInt64
    have : (ctx.fileSize - ctx.readSize) % 2 ^ 64 = ctx.fileSize - ctx.readSize :=
      Nat.mod_eq_of_lt (by omega)
    rw [this, if_pos hd]
  constructor
  · rw [e2]; omega
  · unfold read_size clamp BUFFER_SIZE
    rw [e2]
    split_ifs <;> omega

/-- With `fileSize > 0` known, a call that passes the early `return 0` has
`readSize < fileSize`, when `readSize` exceeds `fileSize` by less than `2 ^ 63`. -/
theorem read_passes_lt (ctx : stream_t) (hfs : ctx.fileSize < 2 ^ 64)
    (hrs : ctx.readSize < ctx.fileSize + 2 ^ 63) (hpos : 0 < ctx.fileSize)
    (h0 : ¬ (toInt64 (sub64 ctx.fileSize ctx.readSize) < 1 ∧ ctx.fileSize ≠ 0)) :
    ctx.readSize < ctx.fileSize ∧ ctx.fileSize - ctx.readSize < 2 ^ 63 := by
  have h1 : ¬ toInt64 (sub64 ctx.fileSize ctx.readSize) < 1 := fun h => h0 ⟨h, by omega⟩
  unfold toInt64 sub64 at h1
  split_ifs at h1 <;> omega


/-- One successful call adds its return value to `readSize`, a multiple of 512 of at most a
block. -/
theorem read_step_sum (lib : Lib) (fuel : Nat) (ctx : stream_t) (buffer : Nat → Nat)
    (r : Int) (c : stream_t) (bb : Nat → Nat) (hrs : ctx.readSize < 2 ^ 64)
    (h : stream_read lib fuel ctx buffer = .ok (r, c, bb)) (hr : 0 ≤ r) :
    c.fileSize = ctx.fileSize ∧ c.type = ctx.type ∧ r ≤ 65536 ∧ (512 : Int) ∣ r ∧
      c.readSize = add64 ctx.readSize r.toNat ∧ c.readSize < 2 ^ 64 := by
  rcases stream_read_cases lib fuel ctx buffer r c bb h with
    ⟨h1, h2, -, -, -⟩ | ⟨-, ⟨h1, -⟩ | ⟨c1, b1, size, hsw, hle, h1, h2, -⟩⟩
  · subst h1; subst h2
    refine ⟨rfl, rfl, by decide, Int.dvd_zero _, ?_, hrs⟩
    unfold add64
    simp only [Int.toNat_zero, Nat.add_zero]
    exact (Nat.mod_eq_of_lt hrs).symm
  · omega
  · have hs := (read_switch_same lib fuel ctx buffer _ _ hsw).1
    have hp := round512_props size
    unfold BUFFER_SIZE at hle
    have hR : round512 size ≤ 65536 := hp.2.2.2 65536 ⟨128, rfl⟩ hle
    subst h1; subst h2
    refine ⟨hs.1, hs.2.2.1, by omega, ?_, ?_, ?_⟩
    · exact Int.natCast_dvd_natCast.2 hp.1
    · simp only [Int.toNat_ofNat, hs.2.1]
    · unfold add64; exact Nat.mod_lt _ (by decide)

/-- For the Plain and Deflate types a call keeps `readSize` a multiple of 512 that is at
most `fileSize` rounded up to 512. -/
theorem read_step_inv (lib : Lib) (fuel : Nat) (ctx : stream_t) (buffer : Nat → Nat)
    (r : Int) (c : stream_t) (bb : Nat → Nat)
    (hty : ctx.type = TYPE_PLAIN ∨ ctx.type = TYPE_DEFLATE) (hfs : ctx.fileSize < 2 ^ 64)
    (hdiv : 512 ∣ ctx.readSize)
    (hb : 0 < ctx.fileSize → ctx.readSize ≤ round512 ctx.fileSize)
    (h : stream_read lib fuel ctx buffer = .ok (r, c, bb)) :
    c.fileSize = ctx.fileSize ∧ c.type = ctx.type ∧ 512 ∣ c.readSize ∧
      (0 < c.fileSize → c.readSize ≤ round512 c.fileSize) := by
  rcases stream_read_cases lib fuel ctx buffer r c bb h with
    ⟨-, h2, -, -, -⟩ | ⟨h0, ⟨-, hsw⟩ | ⟨c1, b1, size, hsw, hle, -, h2, -⟩⟩
  · subst h2
    exact ⟨rfl, rfl, hdiv, hb⟩
  · have hs := read_switch_same lib fuel ctx buffer _ _ hsw
    simp only [] at hs
    refine ⟨hs.1, hs.2.2.1, by rw [hs.2.1]; exact hdiv, ?_⟩
    rw [hs.1, hs.2.1]
    exact hb
  · obtain ⟨hs, hsz, -⟩ := read_switch_same lib fuel ctx buffer _ _ hsw
    have hsize := hsz hty
    have hp := round512_props size
    have hpf := round512_props ctx.fileSize
    subst h2
    refine ⟨hs.1, hs.2.2.1, ?_, ?_⟩
    · show 512 ∣ add64 c1.readSize (round512 size)
      rw [hs.2.1]
      unfold add64
      obtain ⟨a, ha⟩ := hdiv
      obtain ⟨b, hb'⟩ := hp.1
      omega
    · show 0 < c1.fileSize → add64 c1.readSize (round512 size) ≤ round512 c1.fileSize
      rw [hs.1, hs.2.1]
      intro hpos
      have hb1 := hb hpos
      obtain ⟨hlt, hd⟩ := read_passes_lt ctx hfs (by omega) hpos h0
      have hrd := (read_size_of_lt ctx hfs hlt hd).2
      rw [hsize, hrd]
      unfold add64 BUFFER_SIZE
      have hmod : (ctx.readSize + round512 (min 65536 (ctx.fileSize - ctx.readSize))) % 2 ^ 64 ≤
          ctx.readSize + round512 (min 65536 (ctx.fileSize - ctx.readSize)) := Nat.mod_le _ _
      refine Nat.le_trans hmod ?_
      obtain ⟨a, ha⟩ := hdiv
      unfold round512
      omega


theorem le_bytes_lt (mem : Nat → Nat) (hb : ∀ i, mem i < 256) :
    ∀ (n off : Nat), le_bytes mem off n < 256 ^ n := by
  intro n
  induction n with
  | zero => intro off; simp [le_bytes]
  | succ k ih =>
    intro off
    have h1 := hb off
    have h2 := ih (off + 1)
    rw [le_bytes, pow_succ]
    omega

theorem le_bytes_hdr_lt (d : FileData) (off : Nat) : le_bytes (hdr_of d) off 8 < 2 ^ 64 :=
  le_bytes_lt (hdr_of d) (hdr_of_lt d) 8 off

theorem zip64_scan_fresh (hdr : Nat → Nat) (hb : ∀ i, hdr i < 256) (y : Nat) :
    ∀ (n x : Nat) (ctx c : stream_t), zip64_scan hdr y n x ctx = .ok c → Fresh ctx → Fresh c := by
  intro n
  induction n with
  | zero => intro x ctx c h; cases h
  | succ k ih =>
    intro x ctx c h hf
    rw [zip64_scan] at h
    split_ifs at h with h1 h2
    · unfold rd_le at h
      split_ifs at h
      · injection h with h; subst h
        exact ⟨hf.1, hf.2.1, le_bytes_lt hdr hb 8 _, le_bytes_lt hdr hb 8 _⟩
    · exact ih _ _ _ h hf
    · injection h with h; subst h; exact hf

theorem sub64_lt (a b : Nat) : sub64 a b < 2 ^ 64 := Nat.mod_lt _ (by decide)

theorem detect_zip_fresh (d : FileData) (ctx : stream_t) (f : FILE) (x : Detected)
    (h : detect_zip (hdr_of d) ctx f = .ok x) (hf : Fresh ctx) :
    Fresh x.ctx := by
  unfold detect_zip at h
  by_cases hfl : hdr_of d 6 &&& 1 ≠ 0 ∨ hdr_of d 6 &&& (1 <<< 6) ≠ 0
  · rw [if_pos hfl] at h
    injection h with h; subst h; exact hf
  · rw [if_neg hfl] at h
    cases hm : zip_method (hdr_of d 8) with
    | none =>
      rw [hm] at h
      injection h with h; subst h; exact hf
    | some t =>
      rw [hm] at h
      simp only [] at h
      by_cases hff : memcmp_ff (hdr_of d) 18 8 ≠ 0
      · rw [if_pos hff] at h
        injection h with h; subst h
        have h4 : ∀ off, le_bytes (hdr_of d) off 4 < 2 ^ 64 := fun off =>
          Nat.lt_trans (le_bytes_lt (hdr_of d) (hdr_of_lt d) 4 off) (by decide)
        exact ⟨hf.1, hf.2.1, h4 _, h4 _⟩
      · rw [if_neg hff] at h
        split at h
        · cases h
        · rename_i c1 hs
          have hc1 : Fresh c1 :=
            zip64_scan_fresh (hdr_of d) (hdr_of_lt d) _ _ _ _ _ hs
              ⟨hf.1, hf.2.1, hf.2.2.1, hf.2.2.2⟩
          by_cases hz : c1.compSize = 0 ∨ c1.fileSize = 0
          · rw [if_pos hz] at h
            injection h with h; subst h; exact hc1
          · rw [if_neg hz] at h
            injection h with h; subst h; exact hc1

theorem detect_fresh (d : FileData) (ctx : stream_t) (x : Detected)
    (h : detect d ctx = .ok x) (hf : Fresh ctx) :
    Fresh x.ctx := by
  unfold detect at h
  simp only [] at h
  have hs := d.size_lt
  have hsz : d.size % 2 ^ 64 < 2 ^ 64 := Nat.mod_lt _ (by decide)
  split_ifs at h with h1 h2 h3 h4
  · split at h
    · cases h
    · injection h with h; subst h
      refine ⟨hf.1, hf.2.1, ?_, sub64_lt _ _⟩
      exact le_bytes_lt _ (fun i => by
        unfold FILE.fread_into FileData.get
        split_ifs
        · exact Nat.mod_lt _ (by decide)
        · exact Nat.zero_lt_succ _) 8 0
  · injection h with h; subst h
    exact ⟨hf.1, hf.2.1, hf.2.2.1, hsz⟩
  · injection h with h; subst h
    exact ⟨hf.1, hf.2.1, hf.2.2.1, hsz⟩
  · exact detect_zip_fresh d ctx _ x h hf
  · injection h with h; subst h
    exact ⟨hf.1, hf.2.1, hsz, hf.2.2.2⟩

/-- After `stream_open`, whatever it returns, nothing is counted as read and the totals are
`uint64_t` values. -/
theorem stream_open_fresh (lib : Lib) (fopen : List Nat → Option FileData) (time : Nat)
    (fn : Option (List Nat)) (code : Int) (ctx : stream_t)
    (h : stream_open lib fopen time fn = .ok (code, ctx)) : Fresh ctx := by
  have hz : Fresh stream_t.zero := ⟨rfl, rfl, by decide, by decide⟩
  rcases stream_open_cases lib fopen time fn code ctx h with
    ⟨-, h1⟩ | ⟨name, d, -, -, -, hd | ⟨c, hd, -, hc⟩⟩
  · rw [h1]; exact hz
  · exact detect_fresh d _ _ hd hz
  · have hc1 : Fresh c := detect_fresh d _ _ hd hz
    obtain ⟨e1, e2, e3, e4, -, -⟩ := open_codec_fields lib time c
    rw [hc]
    exact ⟨e3.trans hc1.1, e4.trans hc1.2.1, by rw [e1]; exact hc1.2.2.1,
      by rw [e2]; exact hc1.2.2.2⟩


/-- The `switch` of `stream_read` for a Plain context. -/
theorem read_switch_plain (lib : Lib) (fuel : Nat) (ctx : stream_t) (buffer : Nat → Nat)
    (size : Nat) (fl : FILE) (hty : ctx.type = TYPE_PLAIN) (hf : ctx.f = some fl) :
    read_switch lib fuel ctx buffer size =
      .ok (.fill { ctx with f := some (fl.advance size) } (fl.fread_into buffer 0 size) size) := by
  unfold read_switch
  rw [hty]
  simp only [hf]

/-- C8 (amended): for a Plain context with `readSize < fileSize`, `fileSize - readSize`
below `2 ^ 63`, and a file that holds `N = min(64 KiB, fileSize - readSize)` more bytes at
the read position, `stream_read` returns the least multiple of 512 that is at least `N`; in
the block the bytes below `N` are the bytes of the file, the bytes from `N` up to the
returned length are zero, and nothing at or past the returned length is written; the
returned length is at most the block size, and it is added to `readSize`. -/
theorem plain_read_chunk (lib : Lib) (fuel : Nat) (ctx : stream_t) (buffer : Nat → Nat)
    (fl : FILE) (N : Nat)
    (hty : ctx.type = TYPE_PLAIN) (hf : ctx.f = some fl) (hfs : ctx.fileSize < 2 ^ 64)
    (hlt : ctx.readSize < ctx.fileSize) (hd : ctx.fileSize - ctx.readSize < 2 ^ 63)
    (hN : N = min BUFFER_SIZE (ctx.fileSize - ctx.readSize))
    (hav : fl.pos + N ≤ fl.data.size) :
    ∃ c bb, stream_read lib fuel ctx buffer = .ok ((round512 N : Nat), c, bb) ∧
      (∀ i, i < N → bb i = fl.data.get (fl.pos + i)) ∧
      (∀ i, N ≤ i → i < round512 N → bb i = 0) ∧
      (∀ i, round512 N ≤ i → bb i = buffer i) ∧
      round512 N ≤ BUFFER_SIZE ∧
      (512 ∣ round512 N ∧ N ≤ round512 N ∧ ∀ m, 512 ∣ m → N ≤ m → round512 N ≤ m) ∧
      c.readSize = add64 ctx.readSize (round512 N) := by
  obtain ⟨h0, hrs⟩ := read_size_of_lt ctx hfs hlt hd
  have hp := round512_props N
  have hNle : N ≤ BUFFER_SIZE := by rw [hN]; exact Nat.min_le_left _ _
  have hR : round512 N ≤ BUFFER_SIZE := hp.2.2.2 BUFFER_SIZE ⟨128, rfl⟩ hNle
  have hav' : fl.avail N = N := by unfold FILE.avail; omega
  rw [stream_read_eq lib fuel ctx buffer h0, hrs, ← hN,
    read_switch_plain lib fuel ctx buffer N fl hty hf]
  simp only []
  rw [pad_loop_eq 512 _ N (by omega)]
  refine ⟨_, _, rfl, ?_, ?_, ?_, hR, ⟨hp.1, hp.2.1, hp.2.2.2⟩, rfl⟩
  · intro i hi
    have h1 : ¬ (N ≤ i ∧ i < round512 N) := by omega
    have h2 : 0 ≤ i ∧ i < 0 + fl.avail N := by omega
    simp only [h1, if_false, FILE.fread_into, h2, and_self, if_true, Nat.sub_zero]
  · intro i h1 h2
    simp only [h1, h2, and_self, if_true]
  · intro i hi
    have h1 : ¬ (N ≤ i ∧ i < round512 N) := by omega
    have h2 : ¬ (0 ≤ i ∧ i < 0 + fl.avail N) := by omega
    simp only [h1, if_false, FILE.fread_into, h2]

theorem sum_le_of_forall_le (rs : List Int) (h : ∀ r ∈ rs, r ≤ 65536) :
    rs.sum ≤ 65536 * rs.length := by
  induction rs with
  | nil => simp
  | cons a as ih =>
    have h1 := h a (List.mem_cons_self _ _)
    have h2 := ih (fun r hr => h r (List.mem_cons_of_mem _ hr))
    simp only [List.sum_cons, List.length_cons, Nat.cast_add, Nat.cast_one]
    omega

theorem sum_nonneg_of_forall (rs : List Int) (h : ∀ r ∈ rs, 0 ≤ r) : 0 ≤ rs.sum := by
  induction rs with
  | nil => simp
  | cons a as ih =>
    have h1 := h a (List.mem_cons_self _ _)
    have h2 := ih (fun r hr => h r (List.mem_cons_of_mem _ hr))
    simp only [List.sum_cons]
    omega

/-- After `n` successful calls `readSize` is the sum of the returned values modulo
`2 ^ 64`. -/
theorem read_calls_sum (lib : Lib) (fuel : Nat) :
    ∀ (n : Nat) (ctx : stream_t) (buffer : Nat → Nat) (rs : List Int) (c : stream_t)
      (bb : Nat → Nat),
      read_calls lib fuel n ctx buffer = .ok (rs, c, bb) → (∀ r ∈ rs, 0 ≤ r) →
      ctx.readSize < 2 ^ 64 →
      rs.length = n ∧ c.readSize < 2 ^ 64 ∧ (∀ r ∈ rs, r ≤ 65536) ∧
        (c.readSize : Int) = (ctx.readSize + rs.sum) % 2 ^ 64 ∧
        c.fileSize = ctx.fileSize ∧ c.type = ctx.type := by
  intro n
  induction n with
  | zero =>
    intro ctx buffer rs c bb h _ hlt
    rw [read_calls] at h
    injection h with h; injection h with h1 h2; injection h2 with h2 h3
    subst h1; subst h2
    refine ⟨rfl, hlt, fun r hr => absurd hr (List.not_mem_nil r), ?_, rfl, rfl⟩
    simp only [List.sum_nil, Int.add_zero]
    omega
  | succ k ih =>
    intro ctx buffer rs c bb h hok hlt
    rw [read_calls] at h
    cases h1 : stream_read lib fuel ctx buffer with
    | error e => rw [h1] at h; cases h
    | ok x =>
      obtain ⟨r, c1, b1⟩ := x
      rw [h1] at h
      simp only [] at h
      cases h2 : read_calls lib fuel k c1 b1 with
      | error e => rw [h2] at h; cases h
      | ok y =>
        obtain ⟨rs1, c2, b2⟩ := y
        rw [h2] at h
        simp only [] at h
        injection h with h; injection h with e1 e2; injection e2 with e2 e3
        subst e1; subst e2
        have hr : 0 ≤ r := hok r (List.mem_cons_self _ _)
        obtain ⟨s1, s2, s3, s4, s5, s6⟩ := read_step_sum lib fuel ctx buffer r c1 b1 hlt h1 hr
        obtain ⟨i1, i2, i3, i4, i5, i6⟩ := ih c1 b1 rs1 c2 b2 h2
          (fun x hx => hok x (List.mem_cons_of_mem _ hx)) s6
        refine ⟨by rw [List.length_cons, i1], i2, ?_, ?_, i5.trans s1, i6.trans s2⟩
        · intro x hx
          rcases List.mem_cons.1 hx with hx | hx
          · rw [hx]; exact s3
          · exact i3 x hx
        · rw [i4, s5]
          unfold add64
          simp only [List.sum_cons]
          have : ((r.toNat : Nat) : Int) = r := Int.toNat_of_nonneg hr
          omega

/-- For the Plain and Deflate types any number of calls keeps `readSize` a multiple of 512
that is at most `fileSize` rounded up to 512. -/
theorem read_calls_inv (lib : Lib) (fuel : Nat) :
    ∀ (n : Nat) (ctx : stream_t) (buffer : Nat → Nat) (rs : List Int) (c : stream_t)
      (bb : Nat → Nat),
      read_calls lib fuel n ctx buffer = .ok (rs, c, bb) →
      (ctx.type = TYPE_PLAIN ∨ ctx.type = TYPE_DEFLATE) → ctx.fileSize < 2 ^ 64 →
      512 ∣ ctx.readSize → (0 < ctx.fileSize → ctx.readSize ≤ round512 ctx.fileSize) →
      c.fileSize = ctx.fileSize ∧ c.type = ctx.type ∧
        (0 < c.fileSize → c.readSize ≤ round512 c.fileSize) := by
  intro n
  induction n with
  | zero =>
    intro ctx buffer rs c bb h _ _ _ hb
    rw [read_calls] at h
    injection h with h; injection h with h1 h2; injection h2 with h2 h3
    subst h2
    exact ⟨rfl, rfl, hb⟩
  | succ k ih =>
    intro ctx buffer rs c bb h hty hfs hdiv hb
    rw [read_calls] at h
    cases h1 : stream_read lib fuel ctx buffer with
    | error e => rw [h1] at h; cases h
    | ok x =>
      obtain ⟨r, c1, b1⟩ := x
      rw [h1] at h
      simp only [] at h
      cases h2 : read_calls lib fuel k c1 b1 with
      | error e => rw [h2] at h; cases h
      | ok y =>
        obtain ⟨rs1, c2, b2⟩ := y
        rw [h2] at h
        simp only [] at h
        injection h with h; injection h with e1 e2; injection e2 with e2 e3
        subst e2
        obtain ⟨s1, s2, s3, s4⟩ := read_step_inv lib fuel ctx buffer r c1 b1 hty hfs hdiv hb h1
        obtain ⟨i1, i2, i3⟩ := ih c1 b1 rs1 c2 b2 h2 (by rw [s2]; exact hty)
          (by rw [s1]; exact hfs) s3 s4
        exact ⟨i1.trans s1, i2.trans s2, i3⟩


/-- C9 (amended): on a context produced by a successful `stream_open`, after `n`
consecutive successful `stream_read` calls (none returned -1) with an arbitrary decoder,
`readSize` equals the sum of the `n` returned lengths modulo `2 ^ 64`, and the sum itself
when `n < 2 ^ 48`; and for the Plain and Deflate types, whenever `fileSize > 0`, `readSize`
is at most `fileSize` rounded up to the next multiple of 512. -/
theorem readSize_after_reads (lib : Lib) (fopen : List Nat → Option FileData) (time : Nat)
    (fn : Option (List Nat)) (ctx0 : stream_t) (fuel n : Nat) (buffer : Nat → Nat)
    (rs : List Int) (ctx : stream_t) (bb : Nat → Nat)
    (hopen : stream_open lib fopen time fn = .ok (0, ctx0))
    (hrun : read_calls lib fuel n ctx0 buffer = .ok (rs, ctx, bb))
    (hok : ∀ r ∈ rs, 0 ≤ r) :
    (ctx.readSize : Int) = rs.sum % 2 ^ 64 ∧
    (n < 2 ^ 48 → (ctx.readSize : Int) = rs.sum) ∧
    (0 < ctx.fileSize → (ctx.type = TYPE_PLAIN ∨ ctx.type = TYPE_DEFLATE) →
      ctx.readSize ≤ round512 ctx.fileSize) := by
  obtain ⟨f1, -, f3, -⟩ := stream_open_fresh lib fopen time fn 0 ctx0 hopen
  obtain ⟨s1, -, s3, s4, s5, s6⟩ :=
    read_calls_sum lib fuel n ctx0 buffer rs ctx bb hrun hok (by rw [f1]; decide)
  rw [f1] at s4
  simp only [Nat.cast_zero, Int.zero_add] at s4
  refine ⟨s4, fun hn => ?_, fun hpos hty => ?_⟩
  · have h1 := sum_le_of_forall_le rs s3
    have h2 := sum_nonneg_of_forall rs hok
    rw [s1] at h1
    rw [s4]
    omega
  · have := read_calls_inv lib fuel n ctx0 buffer rs ctx bb hrun (by rw [← s6]; exact hty) f3
      (by rw [f1]; exact Nat.dvd_zero _) (fun _ => by rw [f1]; exact Nat.zero_le _)
    exact this.2.2 hpos

/-- C10 (amended): the invariant "`readSize` is a multiple of 512 and, whenever
`fileSize > 0`, at most `fileSize` rounded up to the next multiple of 512" is preserved by
every `stream_read` call on a Plain or Deflate context whose `fileSize` is a `uint64_t`
value, which also leaves `type` and `fileSize`; and the invariant holds after
`stream_open`. -/
theorem readSize_bound_preserved (lib : Lib) (fuel : Nat) (ctx : stream_t)
    (buffer : Nat → Nat) (r : Int) (c : stream_t) (bb : Nat → Nat)
    (hty : ctx.type = TYPE_PLAIN ∨ ctx.type = TYPE_DEFLATE) (hfs : ctx.fileSize < 2 ^ 64)
    (hdiv : 512 ∣ ctx.readSize)
    (hb : 0 < ctx.fileSize → ctx.readSize ≤ round512 ctx.fileSize)
    (h : stream_read lib fuel ctx buffer = .ok (r, c, bb)) :
    (c.fileSize = ctx.fileSize ∧ c.type = ctx.type ∧ 512 ∣ c.readSize ∧
      (0 < c.fileSize → c.readSize ≤ round512 c.fileSize)) ∧
    ∀ (lib0 : Lib) (fopen : List Nat → Option FileData) (time : Nat)
      (fn : Option (List Nat)) (code : Int) (ctx0 : stream_t),
      stream_open lib0 fopen time fn = .ok (code, ctx0) →
      ctx0.fileSize < 2 ^ 64 ∧ 512 ∣ ctx0.readSize ∧
        (0 < ctx0.fileSize → ctx0.readSize ≤ round512 ctx0.fileSize) := by
  refine ⟨read_step_inv lib fuel ctx buffer r c bb hty hfs hdiv hb h, ?_⟩
  intro lib0 fopen time fn code ctx0 h0
  obtain ⟨f1, -, f3, -⟩ := stream_open_fresh lib0 fopen time fn code ctx0 h0
  exact ⟨f3, by rw [f1]; exact Nat.dvd_zero _, fun _ => by rw [f1]; exact Nat.zero_le _⟩


/-! ### The iteration bound

A result obtained within a bound on the loop iterations stays the same when the bound is
raised: the bound only cuts off the runs that are longer. -/

theorem deflate_loop_mono (lib : Lib) :
    ∀ (n : Nat) (ctx : stream_t) (buffer : Nat → Nat) (ret : Int)
      (x : stream_t × (Nat → Nat) × Int),
      deflate_loop lib n ctx buffer ret = .ok x → deflate_loop lib (n + 1) ctx buffer ret = .ok x := by
  intro n
  induction n with
  | zero => intro ctx buffer ret x h; cases h
  | succ k ih =>
    intro ctx buffer ret x h
    rw [deflate_loop] at h ⊢
    cases hre : refill_deflate ctx ret with
    | error e => rw [hre] at h; cases h
    | ok y =>
      rw [hre] at h
      cases y with
      | brk c1 r1 => exact h
      | go c1 =>
        simp only [] at h ⊢
        split_ifs at h ⊢
        · exact ih _ _ _ _ h
        · exact h

theorem bzip2_loop_mono (lib : Lib) :
    ∀ (n : Nat) (ctx : stream_t) (buffer : Nat → Nat) (ret : Int)
      (x : stream_t × (Nat → Nat) × Int),
      bzip2_loop lib n ctx buffer ret = .ok x → bzip2_loop lib (n + 1) ctx buffer ret = .ok x := by
  intro n
  induction n with
  | zero => intro ctx buffer ret x h; cases h
  | succ k ih =>
    intro ctx buffer ret x h
    rw [bzip2_loop] at h ⊢
    cases hre : refill_bzip2 ctx ret with
    | error e => rw [hre] at h; cases h
    | ok y =>
      rw [hre] at h
      cases y with
      | brk c1 r1 => exact h
      | go c1 =>
        simp only [] at h ⊢
        split_ifs at h ⊢
        · exact ih _ _ _ _ h
        · exact h

theorem xz_loop_mono (lib : Lib) :
    ∀ (n : Nat) (ctx : stream_t) (buffer : Nat → Nat) (ret : Int)
      (x : stream_t × (Nat → Nat) × Int),
      xz_loop lib n ctx buffer ret = .ok x → xz_loop lib (n + 1) ctx buffer ret = .ok x := by
  intro n
  induction n with
  | zero => intro ctx buffer ret x h; cases h
  | succ k ih =>
    intro ctx buffer ret x h
    rw [xz_loop] at h ⊢
    cases hre : refill_xz ctx ret with
    | error e => rw [hre] at h; cases h
    | ok y =>
      rw [hre] at h
      cases y with
      | brk c1 r1 => exact h
      | go c1 =>
        simp only [] at h ⊢
        cases hc : call_xz_dec_run lib c1 buffer with
        | error e => rw [hc] at h; cases h
        | ok z =>
          rw [hc] at h
          simp only [] at h ⊢
          split_ifs at h ⊢
          · exact ih _ _ _ _ h
          · exact h

theorem read_switch_mono (lib : Lib) (fuel : Nat) (ctx : stream_t) (buffer : Nat → Nat)
    (size : Nat) (x : Decoded) (h : read_switch lib fuel ctx buffer size = .ok x) :
    read_switch lib (fuel + 1) ctx buffer size = .ok x := by
  revert h
  unfold read_switch
  cases ctx.type
  · exact id
  all_goals
    simp only []
    intro h
    split at h
    · cases h
    · rename_i c bb r hl
      first
        | rw [deflate_loop_mono lib _ _ _ _ _ hl]
        | rw [bzip2_loop_mono lib _ _ _ _ _ hl]
        | rw [xz_loop_mono lib _ _ _ _ _ hl]
      exact h

/-- A result of `stream_read` does not depend on the iteration bound, once the bound lets
the call return. -/
theorem stream_read_mono (lib : Lib) (ctx : stream_t) (buffer : Nat → Nat)
    (x : Int × stream_t × (Nat → Nat)) :
    ∀ (fuel more : Nat), stream_read lib fuel ctx buffer = .ok x →
      stream_read lib (fuel + more) ctx buffer = .ok x := by
  intro fuel more
  induction more with
  | zero => intro h; exact h
  | succ k ih =>
    intro h
    have h1 := ih h
    by_cases h0 : toInt64 (sub64 ctx.fileSize ctx.readSize) < 1 ∧ ctx.fileSize ≠ 0
    · unfold stream_read at h1 ⊢
      simp only [] at h1 ⊢
      rw [if_pos h0] at h1 ⊢
      exact h1
    · rw [stream_read_eq lib _ ctx buffer h0] at h1
      rw [← Nat.add_assoc, stream_read_eq lib _ ctx buffer h0]
      cases hsw : read_switch lib (fuel + k) ctx buffer (read_size ctx) with
      | error e => rw [hsw] at h1; cases h1
      | ok y =>
        rw [hsw] at h1
        rw [read_switch_mono lib _ ctx buffer _ y hsw]
        exact h1
/-! ### Instances for stream_read -/

theorem round512_block : round512 BUFFER_SIZE = BUFFER_SIZE := by
  unfold round512 BUFFER_SIZE; norm_num

theorem pad_loop_block (buffer : Nat → Nat) :
    pad_loop 512 buffer BUFFER_SIZE = .ok (buffer, BUFFER_SIZE) := by
  have e : (fun i => if BUFFER_SIZE ≤ i ∧ i < BUFFER_SIZE then 0 else buffer i) = buffer := by
    funext i
    have : ¬ (BUFFER_SIZE ≤ i ∧ i < BUFFER_SIZE) := by omega
    rw [if_neg this]
  have h := pad_loop_eq 512 buffer BUFFER_SIZE (by rw [round512_block]; omega)
  rw [round512_block, e] at h
  exact h

theorem bzip2_loop_one (lib : Lib) (ctx : stream_t) (buffer : Nat → Nat) (ret : Int) :
    bzip2_loop lib 1 ctx buffer ret =
      (match refill_bzip2 ctx ret with
        | Except.error e => Except.error e
        | Except.ok (Refill.brk ctx ret) => Except.ok (ctx, buffer, ret)
        | Except.ok (Refill.go ctx) =>
          match call_bzDecompress lib ctx buffer with
          | (ctx, buffer, ret) =>
            if ret = BZ_OK ∧ ctx.bstrm.avail_out > 0 then bzip2_loop lib 0 ctx buffer ret
            else Except.ok (ctx, buffer, ret) : Res (stream_t × (Nat → Nat) × Int)) := rfl

theorem refill_bzip2_pending (ctx : stream_t) (ret : Int) (h : ctx.bstrm.avail_in ≠ 0) :
    refill_bzip2 ctx ret = .ok (.go ctx) := by
  unfold refill_bzip2
  rw [if_neg h]

theorem full_decoder_loop_eq (ctx : stream_t) (buffer : Nat → Nat) (ret : Int)
    (hav : ctx.bstrm.avail_in ≠ 0) :
    bzip2_loop ex_lib_full 1 ctx buffer ret =
      (match call_bzDecompress ex_lib_full ctx buffer with
          | (ctx, buffer, ret) =>
            if ret = BZ_OK ∧ ctx.bstrm.avail_out > 0 then bzip2_loop ex_lib_full 0 ctx buffer ret
            else Except.ok (ctx, buffer, ret) : Res (stream_t × (Nat → Nat) × Int)) := by
  rw [bzip2_loop_one, refill_bzip2_pending _ _ hav]

theorem full_decoder_loop (ctx : stream_t) (buffer : Nat → Nat) (ret : Int)
    (hav : ctx.bstrm.avail_in ≠ 0) :
    ∃ c bb, bzip2_loop ex_lib_full 1 ctx buffer ret = .ok (c, bb, 0) ∧
      c.bstrm.avail_out = 0 ∧ c.bstrm.avail_in ≠ 0 ∧ SameCounters ctx c := by
  rw [full_decoder_loop_eq ctx buffer ret hav]
  simp only [call_bzDecompress, ex_lib_full, Nat.min_self, Nat.sub_self, gt_iff_lt,
    Nat.lt_irrefl, and_false, if_false]
  exact ⟨_, _, rfl, rfl, by simpa using hav, ⟨rfl, rfl, rfl, rfl⟩⟩

theorem full_decoder_switch (ctx : stream_t) (buffer : Nat → Nat) (size : Nat)
    (hP : BzPending ctx) :
    ∃ c bb, read_switch ex_lib_full 1 ctx buffer size = .ok (.fill c bb BUFFER_SIZE) ∧
      BzPending c ∧ c.readSize = ctx.readSize := by
  obtain ⟨hty, hfs, hav⟩ := hP
  obtain ⟨c, bb, hl, h1, h2, h3⟩ := full_decoder_loop
    { ctx with bstrm := { ctx.bstrm with next_out := 0, avail_out := BUFFER_SIZE } } buffer 0 hav
  refine ⟨c, bb, ?_, ⟨h3.2.2.1.trans hty, h3.1.trans hfs, h2⟩, h3.2.1⟩
  unfold read_switch
  rw [hty]
  simp only [] at hl ⊢
  rw [hty] at hl
  rw [hl]
  simp only []
  have hne : ¬ ((0 : Int) ≠ BZ_OK ∧ (0 : Int) ≠ BZ_STREAM_END) := fun h => h.1 rfl
  rw [if_neg hne, h1]
  rfl

/-- With the decoder of `ex_lib_full`, a call on a context with pending bzip2 input returns
a full block. -/
theorem full_decoder_step (ctx : stream_t) (buffer : Nat → Nat) (hP : BzPending ctx) :
    ∃ c bb, stream_read ex_lib_full 1 ctx buffer = .ok ((BUFFER_SIZE : Nat), c, bb) ∧
      BzPending c ∧ c.readSize = add64 ctx.readSize BUFFER_SIZE := by
  have h0 : ¬ (toInt64 (sub64 ctx.fileSize ctx.readSize) < 1 ∧ ctx.fileSize ≠ 0) :=
    fun h => h.2 hP.2.1
  obtain ⟨c, bb, hsw, hc, hr⟩ := full_decoder_switch ctx buffer (read_size ctx) hP
  rw [stream_read_eq ex_lib_full 1 ctx buffer h0, hsw]
  simp only []
  rw [pad_loop_block]
  exact ⟨_, _, rfl, ⟨hc.1, hc.2.1, hc.2.2⟩, by rw [← hr]⟩

theorem full_decoder_run :
    ∀ (n : Nat) (ctx : stream_t) (buffer : Nat → Nat), BzPending ctx →
      ctx.readSize < 2 ^ 64 →
      ∃ c bb, read_calls ex_lib_full 1 n ctx buffer =
          .ok (List.replicate n (BUFFER_SIZE : Nat), c, bb) ∧
        c.readSize = (ctx.readSize + BUFFER_SIZE * n) % 2 ^ 64 := by
  intro n
  induction n with
  | zero =>
    intro ctx buffer _ hlt
    refine ⟨ctx, buffer, rfl, ?_⟩
    simp only [Nat.mul_zero, Nat.add_zero]
    exact (Nat.mod_eq_of_lt hlt).symm
  | succ k ih =>
    intro ctx buffer hP hlt
    obtain ⟨c1, b1, h1, hP1, hr1⟩ := full_decoder_step ctx buffer hP
    have hlt1 : c1.readSize < 2 ^ 64 := by rw [hr1]; exact Nat.mod_lt _ (by decide)
    obtain ⟨c2, b2, h2, hr2⟩ := ih c1 b1 hP1 hlt1
    refine ⟨c2, b2, ?_, ?_⟩
    · rw [read_calls, h1]
      simp only []
      rw [h2]
      rfl
    · rw [hr2, hr1]
      unfold add64 BUFFER_SIZE
      omega


theorem read_calls_succ (lib : Lib) (fuel n : Nat) (ctx : stream_t) (buffer : Nat → Nat) :
    read_calls lib fuel (n + 1) ctx buffer =
      (match stream_read lib fuel ctx buffer with
        | Except.error e => Except.error e
        | Except.ok (r, ctx, buffer) =>
          match read_calls lib fuel n ctx buffer with
          | Except.error e => Except.error e
          | Except.ok (rs, ctx, buffer) => Except.ok (r :: rs, ctx, buffer) :
        Res (List Int × stream_t × (Nat → Nat))) := rfl

/-- C8, instance of the amended claim: on the raw image of 510 bytes `A`, the first
`stream_read` returns 512, with the 510 bytes of the file, two zero bytes, and the rest of
the block untouched. -/
theorem plain_read_chunk_witness :
    ∃ c bb, stream_read ex_lib 0 (ex_raw_ctx 510) (fun _ => 9) = .ok (512, c, bb) ∧
      bb 0 = 0x41 ∧ bb 509 = 0x41 ∧ bb 510 = 0 ∧ bb 511 = 0 ∧ bb 512 = 9 ∧
      c.readSize = 512 := by
  obtain ⟨c, bb, h, hfile, hzero, hrest, -, -, hr⟩ :=
    plain_read_chunk ex_lib 0 (ex_raw_ctx 510) (fun _ => 9) ⟨ex_raw 510, 0, false⟩ 510
      rfl rfl (by decide) (by decide) (by decide) (by decide) (by decide)
  exact ⟨c, bb, h, hfile 0 (by decide), hfile 509 (by decide),
    hzero 510 (by decide) (by decide), hzero 511 (by decide) (by decide),
    hrest 512 (by decide), hr⟩

/-- C8, counterexample: (a) the stored zip64 entry of `ex_zip64_huge` is opened as a Plain
context with `readSize = 0 < fileSize = 2 ^ 63`, and `stream_read` returns 0 and fills
nothing, because `fileSize - readSize` is negative as an `int64_t`; (b) the stored entry of
`ex_zip_truncated` is opened as a Plain context with `fileSize = 510` at offset 31 of a file
of 40 bytes, and `stream_read` returns 512 with the stale byte of the block at position
100, where the file has no byte. -/
theorem plain_read_chunk_fails :
    (∃ ctx0, stream_open ex_lib (fun _ => some ex_zip64_huge) 0 (some ex_name) = .ok (0, ctx0) ∧
      ctx0.type = TYPE_PLAIN ∧ ctx0.readSize = 0 ∧ ctx0.fileSize = 2 ^ 63 ∧
      stream_read ex_lib 0 ctx0 (fun _ => 9) = .ok (0, ctx0, fun _ => 9)) ∧
    (∃ ctx0 ctx bb,
      stream_open ex_lib (fun _ => some ex_zip_truncated) 0 (some ex_name) = .ok (0, ctx0) ∧
      ctx0.type = TYPE_PLAIN ∧ ctx0.readSize = 0 ∧ ctx0.fileSize = 510 ∧
      ctx0.f.map FILE.pos = some 31 ∧ ex_zip_truncated.size = 40 ∧
      stream_read ex_lib 0 ctx0 (fun _ => 9) = .ok (512, ctx, bb) ∧
      bb 100 = 9 ∧ ex_zip_truncated.get (31 + 100) = 0x42) :=
  ⟨⟨_, rfl, rfl, rfl, rfl, rfl⟩, ⟨_, _, _, rfl, rfl, rfl, rfl, rfl, rfl, rfl, rfl, rfl⟩⟩

/-- C9, instance of the amended claim: on the raw image of 510 bytes, two calls return 512
and 0, and `readSize` is 512. -/
theorem readSize_after_reads_witness :
    ∃ ctx bb, read_calls ex_lib 0 2 (ex_raw_ctx 510) (fun _ => 0) = .ok ([512, 0], ctx, bb) ∧
      (ctx.readSize : Int) = 512 ∧ ctx.readSize ≤ round512 ctx.fileSize := by
  have hrun : ∃ ctx bb,
      read_calls ex_lib 0 2 (ex_raw_ctx 510) (fun _ => 0) = .ok ([512, 0], ctx, bb) ∧
      ctx.fileSize = 510 ∧ ctx.type = TYPE_PLAIN := ⟨_, _, rfl, rfl, rfl⟩
  obtain ⟨ctx, bb, hrun, hfs, hty⟩ := hrun
  obtain ⟨-, h2, h3⟩ :=
    readSize_after_reads ex_lib (fun _ => some (ex_raw 510)) 0 (some ex_name) (ex_raw_ctx 510)
      0 2 (fun _ => 0) [512, 0] ctx bb rfl hrun
      (by intro r hr; simp only [List.mem_cons, List.mem_singleton, List.not_mem_nil, or_false] at hr
          rcases hr with hr | hr <;> rw [hr] <;> decide)
  exact ⟨ctx, bb, hrun, h2 (by decide), h3 (by rw [hfs]; decide) (Or.inl hty)⟩

/-- C9, counterexample: (a) the bzip2 entry `ex_zip 0 12` declares 100 bytes; with a
decoder that fills the block, one successful call returns 65536 and `readSize` is 65536,
above 512, the declared size rounded up; (b) on the bzip2 file `ex_bzip2` with the same
decoder, `2 ^ 48` successful calls return lengths whose sum is `2 ^ 64`, and `readSize`
is 0. -/
theorem readSize_overshoot_and_wrap :
    (∃ ctx0 ctx bb,
      stream_open ex_lib_full (fun _ => some (ex_zip 0 12)) 0 (some ex_name) = .ok (0, ctx0) ∧
      read_calls ex_lib_full 1 1 ctx0 (fun _ => 0) = .ok ([65536], ctx, bb) ∧
      ctx.fileSize = 100 ∧ round512 ctx.fileSize = 512 ∧ ctx.readSize = 65536) ∧
    (∃ ctx0 rs ctx bb,
      stream_open ex_lib_full (fun _ => some ex_bzip2) 0 (some ex_name) = .ok (0, ctx0) ∧
      read_calls ex_lib_full 1 (2 ^ 48) ctx0 (fun _ => 0) = .ok (rs, ctx, bb) ∧
      (∀ r ∈ rs, 0 ≤ r) ∧ rs.sum = 2 ^ 64 ∧ ctx.readSize = 0) := by
  refine ⟨⟨_, _, _, rfl, rfl, rfl, rfl, rfl⟩, ?_⟩
  have h1 : ∃ c1 b1, stream_read ex_lib_full 1 ex_bzip2_ctx (fun _ => 0) =
      .ok ((BUFFER_SIZE : Nat), c1, b1) ∧ BzPending c1 ∧ c1.readSize = 65536 :=
    ⟨_, _, rfl, ⟨rfl, rfl, by decide⟩, rfl⟩
  obtain ⟨c1, b1, h1, hP, hr1⟩ := h1
  obtain ⟨N, hN⟩ : ∃ N : Nat, 2 ^ 48 = N + 1 := ⟨2 ^ 48 - 1, by norm_num⟩
  obtain ⟨c2, b2, h2, hr2⟩ := full_decoder_run N c1 b1 hP (by rw [hr1]; decide)
  refine ⟨ex_bzip2_ctx, (BUFFER_SIZE : Nat) :: List.replicate N ((BUFFER_SIZE : Nat) : Int),
    c2, b2, rfl, ?_, ?_, ?_, ?_⟩
  · rw [hN, read_calls_succ, h1]
    simp only []
    rw [h2]
  · intro r hr
    rcases List.mem_cons.1 hr with hr | hr
    · rw [hr]; exact Int.natCast_nonneg _
    · rw [List.eq_of_mem_replicate hr]; exact Int.natCast_nonneg _
  · rw [List.sum_cons, List.sum_replicate, nsmul_eq_mul]
    have e : ((BUFFER_SIZE : Nat) : Int) = 65536 := rfl
    have hN' : (2 : Int) ^ 48 = N + 1 := by exact_mod_cast hN
    rw [e]
    clear hr2 h2 h1 hP hr1
    omega
  · rw [hr2, hr1]
    clear hr2 h2 h1 hP hr1
    unfold BUFFER_SIZE
    omega

/-- C10, instance of the amended claim: on the raw image of 510 bytes the first call leaves
`readSize = 512`, a multiple of 512 that is at most 510 rounded up. -/
theorem readSize_bound_preserved_witness :
    ∃ c bb, stream_read ex_lib 0 (ex_raw_ctx 510) (fun _ => 0) = .ok (512, c, bb) ∧
      512 ∣ c.readSize ∧ c.readSize ≤ round512 c.fileSize := by
  have h : ∃ c bb, stream_read ex_lib 0 (ex_raw_ctx 510) (fun _ => 0) = .ok (512, c, bb) ∧
      c.fileSize = 510 := ⟨_, _, rfl, rfl⟩
  obtain ⟨c, bb, h, hfs⟩ := h
  obtain ⟨⟨-, -, h3, h4⟩, -⟩ :=
    readSize_bound_preserved ex_lib 0 (ex_raw_ctx 510) (fun _ => 0) 512 c bb (Or.inl rfl)
      (by decide) (Nat.dvd_zero _) (fun _ => Nat.zero_le _) h
  exact ⟨c, bb, h, h3, h4 (by rw [hfs]; decide)⟩

set_option maxRecDepth 100000 in
/-- C10, counterexample: (a) on the raw image of 100 bytes opened at time 1000, the first
`stream_read` returns 512 and leaves `readSize = 512 > fileSize = 100`: at time 1060
`stream_status` reports 512 percent, and `fileSize - readSize` wraps to `2 ^ 64 - 412`;
(b) on the bzip2 entry `ex_zip 0 12`, which declares 100 bytes, with a decoder that fills
the block, the first call leaves `readSize = 65536`, above the declared size rounded up. -/
theorem readSize_exceeds_fileSize :
    (∃ ctx0 ctx bb,
      stream_open ex_lib (fun _ => some (ex_raw 100)) 1000 (some ex_name) = .ok (0, ctx0) ∧
      ctx0.readSize = 0 ∧ ctx0.fileSize = 100 ∧
      stream_read ex_lib 0 ctx0 (fun _ => 0) = .ok (512, ctx, bb) ∧
      ctx.fileSize = 100 ∧ ctx.readSize = 512 ∧
      (∃ txt, stream_status ctx 1060 = .ok (512, txt)) ∧
      sub64 ctx.fileSize ctx.readSize = 2 ^ 64 - 412) ∧
    (∃ ctx0 ctx bb,
      stream_open ex_lib_full (fun _ => some (ex_zip 0 12)) 0 (some ex_name) = .ok (0, ctx0) ∧
      ctx0.type = TYPE_BZIP2 ∧ ctx0.fileSize = 100 ∧
      stream_read ex_lib_full 1 ctx0 (fun _ => 0) = .ok (65536, ctx, bb) ∧
      ctx.readSize = 65536 ∧ round512 ctx.fileSize = 512) :=
  ⟨⟨_, _, _, rfl, rfl, rfl, rfl, rfl, rfl, ⟨_, rfl⟩, rfl⟩,
    ⟨_, _, _, rfl, rfl, rfl, rfl, rfl, rfl⟩⟩

/-! ## Theorems on the compressed-input cursor -/

theorem cursorStep_refl (a : stream_t) (h : a.cmrdSize ≤ a.compSize) : CursorStep a a :=
  ⟨rfl, Nat.le_refl _, h⟩

theorem cursorStep_trans {a b c : stream_t} (h1 : CursorStep a b) (h2 : CursorStep b c) :
    CursorStep a c :=
  ⟨h2.1.trans h1.1, Nat.le_trans h1.2.1 h2.2.1, h2.2.2⟩

theorem refillPull_go (a : stream_t) : RefillPull a (.go a) :=
  ⟨rfl, Nat.le_refl _, by show a.pos - a.pos ≤ _; rw [Nat.sub_self]; exact Nat.zero_le _, by
    show a.cmrdSize = a.cmrdSize + (a.pos - a.pos)
    rw [Nat.sub_self, Nat.add_zero]⟩

theorem refillPull_brk (a : stream_t) (r : Int) : RefillPull a (.brk a r) :=
  ⟨rfl, Nat.le_refl _, by show a.pos - a.pos ≤ _; rw [Nat.sub_self]; exact Nat.zero_le _,
    rfl, Or.inl rfl⟩

theorem refillPull_step {a : stream_t} {x : Refill} (h : RefillPull a x)
    (hle : a.cmrdSize ≤ a.compSize) : CursorStep a x.ctx := by
  obtain ⟨h1, h2, h3, h4⟩ := h
  have hm := Nat.min_le_right BUFFER_SIZE (a.compSize - a.cmrdSize)
  cases x with
  | go c =>
    have h4 : c.cmrdSize = a.cmrdSize + (c.pos - a.pos) := h4
    have h1 : c.compSize = a.compSize := h1
    have h3 : c.pos - a.pos ≤ min BUFFER_SIZE (a.compSize - a.cmrdSize) := h3
    show c.compSize = a.compSize ∧ a.cmrdSize ≤ c.cmrdSize ∧ c.cmrdSize ≤ c.compSize
    exact ⟨h1, by omega, by omega⟩
  | brk c r =>
    have h4 : c.cmrdSize = a.cmrdSize := h4.1
    have h1 : c.compSize = a.compSize := h1
    show c.compSize = a.compSize ∧ a.cmrdSize ≤ c.cmrdSize ∧ c.cmrdSize ≤ c.compSize
    exact ⟨h1, by omega, by omega⟩

theorem stream_t_pos_some (c : stream_t) (f : FILE) (h : c.f = some f) : c.pos = f.pos := by
  unfold stream_t.pos
  rw [h]
  rfl

/-- A refill whose `fread` delivers no item. -/
theorem refillPull_read_fail (a b : stream_t) (f : FILE) (r : Int) (n : Nat)
    (hf : a.f = some f) (hn : n = min BUFFER_SIZE (a.compSize - a.cmrdSize))
    (hi : f.fread_items n = 0) (hbf : b.f = some (f.advance n))
    (hbc : b.compSize = a.compSize) (hbm : b.cmrdSize = a.cmrdSize) :
    RefillPull a (.brk b r) := by
  have ha := stream_t_pos_some a f hf
  have hb : b.pos = f.pos + f.avail n := stream_t_pos_some b _ hbf
  have hav : f.avail n ≤ n := Nat.min_le_left _ _
  refine ⟨hbc, ?_, ?_, hbm, Or.inr ⟨f, hf, by rw [← hn]; exact hi⟩⟩
  · show a.pos ≤ b.pos
    omega
  · show b.pos - a.pos ≤ min BUFFER_SIZE (a.compSize - a.cmrdSize)
    omega

/-- A refill whose `fread` delivers its item. -/
theorem refillPull_read_ok (a b : stream_t) (f : FILE) (n : Nat)
    (hf : a.f = some f) (hn : n = min BUFFER_SIZE (a.compSize - a.cmrdSize))
    (hi : f.fread_items n = 1) (hbf : b.f = some (f.advance n))
    (hbc : b.compSize = a.compSize)
    (hbm : b.cmrdSize = a.cmrdSize + min BUFFER_SIZE (a.compSize - a.cmrdSize)) :
    RefillPull a (.go b) := by
  have ha := stream_t_pos_some a f hf
  have hb : b.pos = f.pos + f.avail n := stream_t_pos_some b _ hbf
  have hav : f.avail n = n := by
    unfold FILE.fread_items at hi
    by_contra hne
    rw [if_neg hne] at hi
    exact absurd hi (by decide)
  refine ⟨hbc, ?_, ?_, ?_⟩
  · show a.pos ≤ b.pos
    omega
  · show b.pos - a.pos ≤ min BUFFER_SIZE (a.compSize - a.cmrdSize)
    omega
  · show b.cmrdSize = a.cmrdSize + (b.pos - a.pos)
    omega

/-- The size of a refill: with the cursor within the total, the request `insiz` is
`min(64 KiB, compSize - cmrdSize)`, it is positive, and adding it to the cursor does not
wrap. -/
theorem refill_amount (cs cm : Nat) (hle : cm ≤ cs) (hcs : cs < 2 ^ 64)
    (h1 : ¬ toInt64 (sub64 cs cm) < 1) :
    (clamp (toInt64 (sub64 cs cm))).toNat = min BUFFER_SIZE (cs - cm) ∧
      (clamp (toInt64 (sub64 cs cm))).toNat ≠ 0 ∧
      add64 cm (clamp (toInt64 (sub64 cs cm))).toNat = cm + min BUFFER_SIZE (cs - cm) := by
  rw [sub64_of_le cs cm hcs hle] at h1 ⊢
  have hmod : (cs - cm) % 2 ^ 64 = cs - cm := Nat.mod_eq_of_lt (by omega)
  unfold toInt64 at h1 ⊢
  rw [hmod] at h1 ⊢
  unfold clamp BUFFER_SIZE add64
  split_ifs at h1 ⊢ <;> omega

theorem fread_items_cases (f : FILE) (n : Nat) : f.fread_items n = 0 ∨ f.fread_items n = 1 := by
  unfold FILE.fread_items
  split_ifs
  · exact Or.inr rfl
  · exact Or.inl rfl

theorem refill_deflate_pull (ctx : stream_t) (ret : Int) (x : Refill)
    (hle : ctx.cmrdSize ≤ ctx.compSize) (hcs : ctx.compSize < 2 ^ 64)
    (h : refill_deflate ctx ret = .ok x) : RefillPull ctx x := by
  unfold refill_deflate at h
  by_cases h0 : ctx.zstrm.avail_in = 0
  · rw [if_pos h0] at h
    simp only [] at h
    by_cases h1 : toInt64 (sub64 ctx.compSize ctx.cmrdSize) < 1
    · rw [if_pos h1] at h
      injection h with h; subst h
      exact refillPull_brk ctx _
    · rw [if_neg h1] at h
      obtain ⟨e1, e2, e3⟩ := refill_amount ctx.compSize ctx.cmrdSize hle hcs h1
      cases hf : ctx.f with
      | none => rw [hf] at h; cases h
      | some f =>
        rw [hf] at h
        simp only [] at h
        rcases fread_items_cases f (clamp (toInt64 (sub64 ctx.compSize ctx.cmrdSize))).toNat
          with hi | hi
        · rw [if_pos hi] at h
          injection h with h; subst h
          exact refillPull_read_fail ctx _ f ret _ hf e1 hi rfl rfl rfl
        · rw [if_neg (by rw [hi]; decide)] at h
          injection h with h; subst h
          exact refillPull_read_ok ctx _ f _ hf e1 hi rfl rfl e3
  · rw [if_neg h0] at h
    injection h with h; subst h
    exact refillPull_go ctx

theorem refill_bzip2_pull (ctx : stream_t) (ret : Int) (x : Refill)
    (hle : ctx.cmrdSize ≤ ctx.compSize) (hcs : ctx.compSize < 2 ^ 64)
    (h : refill_bzip2 ctx ret = .ok x) : RefillPull ctx x := by
  unfold refill_bzip2 at h
  by_cases h0 : ctx.bstrm.avail_in = 0
  · rw [if_pos h0] at h
    simp only [] at h
    by_cases h1 : toInt64 (sub64 ctx.compSize ctx.cmrdSize) < 1
    · rw [if_pos h1] at h
      injection h with h; subst h
      exact refillPull_brk ctx _
    · rw [if_neg h1] at h
      obtain ⟨e1, e2, e3⟩ := refill_amount ctx.compSize ctx.cmrdSize hle hcs h1
      cases hf : ctx.f with
      | none => rw [hf] at h; cases h
      | some f =>
        rw [hf] at h
        simp only [] at h
        rcases fread_items_cases f (clamp (toInt64 (sub64 ctx.compSize ctx.cmrdSize))).toNat
          with hi | hi
        · rw [if_pos hi] at h
          injection h with h; subst h
          exact refillPull_read_fail ctx _ f ret _ hf e1 hi rfl rfl rfl
        · rw [if_neg (by rw [hi]; decide)] at h
          injection h with h; subst h
          exact refillPull_read_ok ctx _ f _ hf e1 hi rfl rfl e3
  · rw [if_neg h0] at h
    injection h with h; subst h
    exact refillPull_go ctx

theorem refill_xz_pull (ctx : stream_t) (ret : Int) (x : Refill)
    (hle : ctx.cmrdSize ≤ ctx.compSize) (hcs : ctx.compSize < 2 ^ 64)
    (h : refill_xz ctx ret = .ok x) : RefillPull ctx x := by
  unfold refill_xz at h
  by_cases h0 : ctx.xstrm.in_pos = ctx.xstrm.in_size
  · rw [if_pos h0] at h
    simp only [] at h
    by_cases h1 : toInt64 (sub64 ctx.compSize ctx.cmrdSize) < 1
    · rw [if_pos h1] at h
      injection h with h; subst h
      exact refillPull_brk ctx _
    · rw [if_neg h1] at h
      obtain ⟨e1, e2, e3⟩ := refill_amount ctx.compSize ctx.cmrdSize hle hcs h1
      cases hf : ctx.f with
      | none => rw [hf] at h; cases h
      | some f =>
        rw [hf] at h
        simp only [] at h
        rcases fread_items_cases f (clamp (toInt64 (sub64 ctx.compSize ctx.cmrdSize))).toNat
          with hi | hi
        · rw [if_pos hi] at h
          injection h with h; subst h
          exact refillPull_read_fail ctx _ f ret _ hf e1 hi rfl rfl rfl
        · rw [if_neg (by rw [hi]; decide)] at h
          injection h with h; subst h
          exact refillPull_read_ok ctx _ f _ hf e1 hi (by split_ifs <;> rfl) (by split_ifs <;> rfl) (by show add64 _ _ = _; split_ifs <;> exact e3)
  · rw [if_neg h0] at h
    injection h with h; subst h
    exact refillPull_go ctx

theorem deflate_loop_cursor (lib : Lib) :
    ∀ (n : Nat) (ctx : stream_t) (buffer : Nat → Nat) (ret : Int) (c : stream_t)
      (bb : Nat → Nat) (r : Int), deflate_loop lib n ctx buffer ret = .ok (c, bb, r) →
      ctx.cmrdSize ≤ ctx.compSize → ctx.compSize < 2 ^ 64 → CursorStep ctx c := by
  intro n
  induction n with
  | zero => intro ctx buffer ret c bb r h; cases h
  | succ k ih =>
    intro ctx buffer ret c bb r h hle hcs
    rw [deflate_loop] at h
    cases hre : refill_deflate ctx ret with
    | error e => rw [hre] at h; cases h
    | ok x =>
      have hs := refillPull_step (refill_deflate_pull ctx ret x hle hcs hre) hle
      rw [hre] at h
      cases x with
      | brk c1 r1 =>
        simp only [] at h
        injection h with h; injection h with h1 h2
        subst h1
        exact hs
      | go c1 =>
        simp only [] at h
        have hs : CursorStep ctx c1 := hs
        have hc : CursorStep c1 (call_inflate lib c1 buffer).1 := ⟨rfl, Nat.le_refl _, hs.2.2⟩
        split_ifs at h
        · exact cursorStep_trans (cursorStep_trans hs hc)
            (ih _ _ _ _ _ _ h hc.2.2 (by rw [hc.1, hs.1]; exact hcs))
        · injection h with h; injection h with h1 h2
          subst h1
          exact cursorStep_trans hs hc

theorem bzip2_loop_cursor (lib : Lib) :
    ∀ (n : Nat) (ctx : stream_t) (buffer : Nat → Nat) (ret : Int) (c : stream_t)
      (bb : Nat → Nat) (r : Int), bzip2_loop lib n ctx buffer ret = .ok (c, bb, r) →
      ctx.cmrdSize ≤ ctx.compSize → ctx.compSize < 2 ^ 64 → CursorStep ctx c := by
  intro n
  induction n with
  | zero => intro ctx buffer ret c bb r h; cases h
  | succ k ih =>
    intro ctx buffer ret c bb r h hle hcs
    rw [bzip2_loop] at h
    cases hre : refill_bzip2 ctx ret with
    | error e => rw [hre] at h; cases h
    | ok x =>
      have hs := refillPull_step (refill_bzip2_pull ctx ret x hle hcs hre) hle
      rw [hre] at h
      cases x with
      | brk c1 r1 =>
        simp only [] at h
        injection h with h; injection h with h1 h2
        subst h1
        exact hs
      | go c1 =>
        simp only [] at h
        have hs : CursorStep ctx c1 := hs
        have hc : CursorStep c1 (call_bzDecompress lib c1 buffer).1 :=
          ⟨rfl, Nat.le_refl _, hs.2.2⟩
        split_ifs at h
        · exact cursorStep_trans (cursorStep_trans hs hc)
            (ih _ _ _ _ _ _ h hc.2.2 (by rw [hc.1, hs.1]; exact hcs))
        · injection h with h; injection h with h1 h2
          subst h1
          exact cursorStep_trans hs hc

theorem call_xz_dec_run_cursor (lib : Lib) (c1 c2 : stream_t) (buffer b2 : Nat → Nat) (r2 : Int)
    (h : call_xz_dec_run lib c1 buffer = .ok (c2, b2, r2)) :
    c2.compSize = c1.compSize ∧ c2.cmrdSize = c1.cmrdSize := by
  unfold call_xz_dec_run at h
  cases hx : c1.xz with
  | none => rw [hx] at h; cases h
  | some st =>
    rw [hx] at h
    simp only [] at h
    injection h with h; injection h with e1 e2
    subst e1
    exact ⟨rfl, rfl⟩

theorem xz_loop_cursor (lib : Lib) :
    ∀ (n : Nat) (ctx : stream_t) (buffer : Nat → Nat) (ret : Int) (c : stream_t)
      (bb : Nat → Nat) (r : Int), xz_loop lib n ctx buffer ret = .ok (c, bb, r) →
      ctx.cmrdSize ≤ ctx.compSize → ctx.compSize < 2 ^ 64 → CursorStep ctx c := by
  intro n
  induction n with
  | zero => intro ctx buffer ret c bb r h; cases h
  | succ k ih =>
    intro ctx buffer ret c bb r h hle hcs
    rw [xz_loop] at h
    cases hre : refill_xz ctx ret with
    | error e => rw [hre] at h; cases h
    | ok x =>
      have hs := refillPull_step (refill_xz_pull ctx ret x hle hcs hre) hle
      rw [hre] at h
      cases x with
      | brk c1 r1 =>
        simp only [] at h
        injection h with h; injection h with h1 h2
        subst h1
        exact hs
      | go c1 =>
        simp only [] at h
        have hs : CursorStep ctx c1 := hs
        cases hcall : call_xz_dec_run lib c1 buffer with
        | error e => rw [hcall] at h; cases h
        | ok y =>
          obtain ⟨c2, b2, r2⟩ := y
          rw [hcall] at h
          simp only [] at h
          obtain ⟨e1, e2⟩ := call_xz_dec_run_cursor lib c1 c2 buffer b2 r2 hcall
          have hc : CursorStep c1 c2 := ⟨e1, by rw [e2], by rw [e1, e2]; exact hs.2.2⟩
          split_ifs at h
          · exact cursorStep_trans (cursorStep_trans hs hc) (ih _ _ _ _ _ _ h hc.2.2
              (by rw [hc.1, hs.1]; exact hcs))
          · injection h with h; injection h with h1 h2
            subst h1
            exact cursorStep_trans hs hc

/-- The `switch` of `stream_read` keeps the cursor within the total and does not move it
back. -/
theorem read_switch_cursor (lib : Lib) (fuel : Nat) (ctx : stream_t) (buffer : Nat → Nat)
    (size : Nat) (x : Decoded) (hle : ctx.cmrdSize ≤ ctx.compSize) (hcs : ctx.compSize < 2 ^ 64)
    (h : read_switch lib fuel ctx buffer size = .ok x) :
    match x with
    | .err c _ => CursorStep ctx c
    | .fill c _ _ => CursorStep ctx c := by
  unfold read_switch at h
  cases ht : ctx.type with
  | TYPE_PLAIN =>
    rw [ht] at h
    simp only [] at h
    cases hf : ctx.f with
    | none => rw [hf] at h; cases h
    | some f =>
      rw [hf] at h
      injection h with h; subst h
      exact ⟨rfl, Nat.le_refl _, hle⟩
  | TYPE_DEFLATE =>
    rw [ht] at h
    simp only [] at h
    split at h
    · cases h
    · rename_i c bb r hl
      have hs0 := deflate_loop_cursor lib _ _ _ _ _ _ _ hl hle hcs
      have hs : CursorStep ctx c := hs0
      split_ifs at h <;> (injection h with h; subst h; exact hs)
  | TYPE_BZIP2 =>
    rw [ht] at h
    simp only [] at h
    split at h
    · cases h
    · rename_i c bb r hl
      have hs0 := bzip2_loop_cursor lib _ _ _ _ _ _ _ hl hle hcs
      have hs : CursorStep ctx c := hs0
      split_ifs at h <;> (injection h with h; subst h; exact hs)
  | TYPE_XZ =>
    rw [ht] at h
    simp only [] at h
    split at h
    · cases h
    · rename_i c bb r hl
      have hs0 := xz_loop_cursor lib _ _ _ _ _ _ _ hl hle hcs
      have hs : CursorStep ctx c := hs0
      split_ifs at h <;> (injection h with h; subst h; exact hs)

/-- A call of `stream_read` keeps the cursor within the total and does not move it back. -/
theorem stream_read_cursor (lib : Lib) (fuel : Nat) (ctx : stream_t) (buffer : Nat → Nat)
    (r : Int) (c : stream_t) (bb : Nat → Nat)
    (hle : ctx.cmrdSize ≤ ctx.compSize) (hcs : ctx.compSize < 2 ^ 64)
    (h : stream_read lib fuel ctx buffer = .ok (r, c, bb)) : CursorStep ctx c := by
  rcases stream_read_cases lib fuel ctx buffer r c bb h with
    ⟨-, hc, -⟩ | ⟨-, ⟨-, hsw⟩ | ⟨c1, b1, size, hsw, -, -, hc, -⟩⟩
  · rw [hc]; exact cursorStep_refl ctx hle
  · exact read_switch_cursor lib fuel ctx buffer _ _ hle hcs hsw
  · have hs : CursorStep ctx c1 := read_switch_cursor lib fuel ctx buffer _ _ hle hcs hsw
    rw [hc]
    exact hs

/-- C11 (amended): the invariant `cmrdSize ≤ compSize` on the compressed-input cursor. A call
of `stream_read` that starts with `cmrdSize ≤ compSize` (and `compSize` a `uint64_t` value)
returns with the same `compSize`, with `cmrdSize` not smaller than before and again at most
`compSize`, for every variant and whatever the decoders do. Each refill of the Deflate, Bzip2
and Xz loops takes at most `min(64 KiB, compSize - cmrdSize)` compressed bytes from the file
(the file position moves by the bytes taken); when the loop goes on to the decoder, it has
added exactly the bytes taken to `cmrdSize`; when the loop is left, `cmrdSize` is unchanged,
and either no byte was taken or the `fread` delivered no item. After `stream_open`, whatever
it returns, `cmrdSize = 0 ≤ compSize`. -/
theorem cmrdSize_le_compSize (lib : Lib) (fuel : Nat) (ctx : stream_t) (buffer : Nat → Nat)
    (r : Int) (c : stream_t) (bb : Nat → Nat)
    (hle : ctx.cmrdSize ≤ ctx.compSize) (hcs : ctx.compSize < 2 ^ 64)
    (h : stream_read lib fuel ctx buffer = .ok (r, c, bb)) :
    (c.compSize = ctx.compSize ∧ ctx.cmrdSize ≤ c.cmrdSize ∧ c.cmrdSize ≤ c.compSize) ∧
    (∀ (a : stream_t) (ret : Int) (x : Refill), a.cmrdSize ≤ a.compSize → a.compSize < 2 ^ 64 →
      (refill_deflate a ret = .ok x ∨ refill_bzip2 a ret = .ok x ∨ refill_xz a ret = .ok x) →
      RefillPull a x) ∧
    (∀ (lib0 : Lib) (fopen : List Nat → Option FileData) (time : Nat) (fn : Option (List Nat))
      (code : Int) (c0 : stream_t), stream_open lib0 fopen time fn = .ok (code, c0) →
      c0.cmrdSize = 0 ∧ c0.cmrdSize ≤ c0.compSize ∧ c0.compSize < 2 ^ 64) := by
  refine ⟨stream_read_cursor lib fuel ctx buffer r c bb hle hcs h, ?_, ?_⟩
  · intro a ret x ha1 ha2 hx
    rcases hx with hx | hx | hx
    · exact refill_deflate_pull a ret x ha1 ha2 hx
    · exact refill_bzip2_pull a ret x ha1 ha2 hx
    · exact refill_xz_pull a ret x ha1 ha2 hx
  · intro lib0 fopen time fn code c0 h0
    obtain ⟨-, h2, -, h4⟩ := stream_open_fresh lib0 fopen time fn code c0 h0
    exact ⟨h2, by rw [h2]; exact Nat.zero_le _, h4⟩
/-! ## Theorems on the round trip through stream_write and stream_read -/

theorem getD_lt_of_bytes (c : List Nat) (hb : ∀ b ∈ c, b < 256) (j : Nat) : c.getD j 0 < 256 := by
  by_cases hj : j < c.length
  · rw [List.getD_eq_getElem c 0 hj]
    exact hb _ (List.getElem_mem _)
  · rw [List.getD_eq_default c 0 (by omega)]
    decide

/-- A successful `stream_create` without compression gives a Plain context on an empty,
open file; the name is not empty. -/
theorem stream_create_plain (o : Out) (time : Nat) (fn : List Nat) (size : Nat)
    (c : stream_t) (h : stream_create o time (some fn) 0 size = (0, c)) :
    fn ≠ [] ∧ c.type = TYPE_PLAIN ∧ c.f = some ⟨FileData.empty, 0, false⟩ := by
  unfold stream_create at h
  cases fn with
  | nil => simp only [] at h; injection h with h1 h2; exact absurd h1 (by decide)
  | cons a as =>
    simp only [ne_eq, not_true_eq_false, if_false] at h
    by_cases hs : size % 2 ^ 64 = 0
    · rw [if_pos hs] at h; injection h with h1 h2; exact absurd h1 (by decide)
    · rw [if_neg hs] at h
      cases ho : o.fopen_wb (a :: as) with
      | false =>
        rw [ho] at h
        simp only [Bool.false_eq_true, if_false] at h
        injection h with h1 h2; exact absurd h1 (by decide)
      | true =>
        rw [ho] at h
        simp only [if_true] at h
        injection h with h1 h2
        subst h2
        exact ⟨List.cons_ne_nil _ _, rfl, rfl⟩

/-- A `stream_write` of a chunk that returns a non-zero value appends the chunk to the
file. -/
theorem stream_write_plain (o : Out) (ctx : stream_t) (f : FILE) (A c : List Nat) (r : Int)
    (ctx1 : stream_t) (ht : ctx.type = TYPE_PLAIN) (hf : ctx.f = some f) (hA : Holds f A)
    (hlen : c.length < 2 ^ 31) (hb : ∀ b ∈ c, b < 256)
    (h : stream_write o ctx (fun i => c.getD i 0) c.length = .ok (r, ctx1)) (hr : r ≠ 0) :
    ctx1.type = TYPE_PLAIN ∧ ∃ f1, ctx1.f = some f1 ∧ Holds f1 (A ++ c) := by
  obtain ⟨hpos, hsize, hcl, hget⟩ := hA
  have hn : ((c.length : Int) % 2 ^ 64).toNat = c.length := by omega
  unfold stream_write at h
  simp only [ht, hf, hn] at h
  injection h with h; injection h with h1 h2
  have hitems : (f.fwrite (fun i => c.getD i 0) c.length
      (o.fwrite_taken f.pos c.length)).2 ≠ 0 := by
    intro h0
    rw [if_pos h0] at h1
    exact hr h1.symm
  unfold FILE.fwrite at hitems h2
  simp only [] at hitems h2
  have hw : min c.length (o.fwrite_taken f.pos c.length) = c.length ∧ c.length ≠ 0 ∧
      f.pos + c.length < 2 ^ 63 := by
    by_contra hc
    exact hitems (if_neg hc)
  obtain ⟨hw1, hw2, hw3⟩ := hw
  subst h2
  refine ⟨rfl, _, rfl, ?_, ?_, hcl, ?_⟩
  · show f.pos + min c.length (o.fwrite_taken f.pos c.length) = (A ++ c).length
    rw [hw1, List.length_append]; omega
  · show min (max f.data.size (f.pos + min c.length (o.fwrite_taken f.pos c.length)))
      (2 ^ 63 - 1) = (A ++ c).length
    rw [hw1, List.length_append]; omega
  · intro i hi
    rw [List.length_append] at hi
    show (if f.pos ≤ i ∧ i < f.pos + min c.length (o.fwrite_taken f.pos c.length)
      then c.getD (i - f.pos) 0 % 256 else f.data.byte i) % 256 = (A ++ c).getD i 0
    rw [hw1]
    by_cases hiA : i < A.length
    · rw [if_neg (by omega), List.getD_append A c 0 i hiA]
      exact hget i hiA
    · rw [if_pos (by omega), List.getD_append_right A c 0 i (by omega), hpos,
        Nat.mod_mod, Nat.mod_eq_of_lt (getD_lt_of_bytes c hb _)]

/-- Writing the chunks of a byte sequence, each call returning a non-zero value, appends
the sequence to the file. -/
theorem write_calls_plain (o : Out) :
    ∀ (chunks : List (List Nat)) (ctx : stream_t) (f : FILE) (A : List Nat) (rs : List Int)
      (ctx1 : stream_t), ctx.type = TYPE_PLAIN → ctx.f = some f → Holds f A →
      (∀ c ∈ chunks, c.length < 2 ^ 31 ∧ ∀ b ∈ c, b < 256) →
      write_calls o ctx chunks = .ok (rs, ctx1) → (∀ r ∈ rs, r ≠ 0) →
      ctx1.type = TYPE_PLAIN ∧ ∃ f1, ctx1.f = some f1 ∧ Holds f1 (A ++ chunks.flatten) := by
  intro chunks
  induction chunks with
  | nil =>
    intro ctx f A rs ctx1 ht hf hA _ h _
    simp only [write_calls] at h
    injection h with h; injection h with h1 h2
    subst h2
    exact ⟨ht, f, hf, by simpa using hA⟩
  | cons c cs ih =>
    intro ctx f A rs ctx1 ht hf hA hch h hrs
    simp only [write_calls] at h
    cases hw : stream_write o ctx (fun i => c.getD i 0) c.length with
    | error e => rw [hw] at h; cases h
    | ok x =>
      obtain ⟨r, c2⟩ := x
      rw [hw] at h
      simp only [] at h
      cases hrest : write_calls o c2 cs with
      | error e => rw [hrest] at h; cases h
      | ok y =>
        obtain ⟨rs2, c3⟩ := y
        rw [hrest] at h
        simp only [] at h
        injection h with h; injection h with h1 h2
        subst h1; subst h2
        have hc := hch c (List.mem_cons_self _ _)
        obtain ⟨ht2, f2, hf2, hA2⟩ := stream_write_plain o ctx f A c r c2 ht hf hA hc.1 hc.2 hw
          (hrs r (List.mem_cons_self _ _))
        obtain ⟨ht3, f3, hf3, hA3⟩ := ih c2 f2 (A ++ c) rs2 c3 ht2 hf2 hA2
          (fun c' hc' => hch c' (List.mem_cons_of_mem _ hc')) hrest
          (fun r' hr' => hrs r' (List.mem_cons_of_mem _ hr'))
        refine ⟨ht3, f3, hf3, ?_⟩
        rw [List.flatten_cons, ← List.append_assoc]
        exact hA3

/-- The result of `stream_read` on a Plain context with bytes left to read. -/
theorem stream_read_plain (lib : Lib) (fuel : Nat) (ctx : stream_t) (buffer : Nat → Nat)
    (fl : FILE) (N : Nat)
    (hty : ctx.type = TYPE_PLAIN) (hf : ctx.f = some fl) (hfs : ctx.fileSize < 2 ^ 64)
    (hlt : ctx.readSize < ctx.fileSize) (hd : ctx.fileSize - ctx.readSize < 2 ^ 63)
    (hN : N = min BUFFER_SIZE (ctx.fileSize - ctx.readSize)) :
    stream_read lib fuel ctx buffer =
      .ok (((round512 N : Nat) : Int),
        { ctx with f := some (fl.advance N), readSize := add64 ctx.readSize (round512 N) },
        fun i => if N ≤ i ∧ i < round512 N then 0 else fl.fread_into buffer 0 N i) := by
  obtain ⟨h0, hrs⟩ := read_size_of_lt ctx hfs hlt hd
  have hp := round512_props N
  have hNle : N ≤ BUFFER_SIZE := by rw [hN]; exact Nat.min_le_left _ _
  rw [stream_read_eq lib fuel ctx buffer h0, hrs, ← hN,
    read_switch_plain lib fuel ctx buffer N fl hty hf]
  simp only []
  rw [pad_loop_eq 512 _ N (by omega)]

/-- The early `return 0` of `stream_read`. -/
theorem stream_read_done (lib : Lib) (fuel : Nat) (ctx : stream_t) (buffer : Nat → Nat)
    (hfs : ctx.fileSize ≠ 0) (h : toInt64 (sub64 ctx.fileSize ctx.readSize) < 1) :
    stream_read lib fuel ctx buffer = .ok (0, ctx, buffer) := by
  unfold stream_read
  simp only [h, hfs, ne_eq, not_false_eq_true, and_self, if_true]

/-- With the whole file read and at most the sector padding counted on top, the difference
`fileSize - readSize` is not positive as an `int64_t`. -/
theorem toInt64_sub64_done (L rs : Nat) (hL : L < 2 ^ 63) (h1 : L ≤ rs) (h2 : rs < L + 512) :
    toInt64 (sub64 L rs) < 1 := by
  unfold toInt64 sub64
  split_ifs <;> omega

theorem read_all_zero (lib : Lib) (fuel n : Nat) (ctx c : stream_t) (buffer bb : Nat → Nat)
    (h : stream_read lib fuel ctx buffer = .ok (0, c, bb)) :
    read_all lib fuel (n + 1) ctx buffer = .ok (0, fun _ => 0, 0) := by
  rw [read_all, h]
  simp only [le_refl, if_true]

theorem read_all_pos (lib : Lib) (fuel n k : Nat) (ctx c : stream_t) (buffer bb : Nat → Nat)
    (h : stream_read lib fuel ctx buffer = .ok ((k : Int), c, bb)) (hk : 0 < k) :
    read_all lib fuel (n + 1) ctx buffer =
      match read_all lib fuel n c bb with
      | .error e => .error e
      | .ok (len, out, last) =>
        .ok (k + len, fun i => if i < k then bb i else out (i - k), last) := by
  rw [read_all, h]
  have : ¬ ((k : Int) ≤ 0) := by omega
  simp only [this, if_false, Int.toNat_ofNat]
  try rfl

theorem round512_add_block (x : Nat) : round512 (x + 65536) = 65536 + round512 x := by
  unfold round512
  omega

/-- Reading a Plain context to the end: the chunks make up the rest of the file followed by
the zero padding up to the next multiple of 512. -/
theorem read_all_plain (lib : Lib) (fuel : Nat) (d : FileData) :
    ∀ (n p : Nat) (ctx : stream_t) (buffer : Nat → Nat) (fl : FILE),
      ctx.type = TYPE_PLAIN → ctx.f = some fl → fl.data = d → fl.pos = p →
      ctx.fileSize = d.size → ctx.readSize = p → p < d.size →
      (d.size - p - 1) / 65536 + 2 ≤ n →
      ∃ out, read_all lib fuel n ctx buffer = .ok (round512 (d.size - p), out, 0) ∧
        (∀ i, i < d.size - p → out i = d.get (p + i)) ∧
        (∀ i, d.size - p ≤ i → i < round512 (d.size - p) → out i = 0) := by
  have hL := d.size_lt
  intro n
  induction n with
  | zero => intro p ctx buffer fl _ _ _ _ _ _ _ hn; omega
  | succ m ih =>
    intro p ctx buffer fl hty hf hdata hpos hfs hrs hlt hn
    have hread := stream_read_plain lib fuel ctx buffer fl (min BUFFER_SIZE (d.size - p))
      hty hf (by rw [hfs]; omega) (by rw [hrs, hfs]; exact hlt) (by rw [hrs, hfs]; omega)
      (by rw [hrs, hfs])
    have hav : ∀ N, N ≤ d.size - p → fl.avail N = N := by
      intro N hN
      unfold FILE.avail
      rw [hdata, hpos]
      omega
    by_cases hbig : 65536 < d.size - p
    · -- a full block, and more to read
      have hN : min BUFFER_SIZE (d.size - p) = 65536 := by unfold BUFFER_SIZE; omega
      rw [hN] at hread
      have hr : round512 65536 = 65536 := round512_of_dvd 65536 (by norm_num)
      rw [hr] at hread
      have hpos1 : (fl.advance 65536).pos = p + 65536 := by
        show fl.pos + fl.avail 65536 = p + 65536
        rw [hav 65536 (by omega), hpos]
      have hrs1 : add64 ctx.readSize 65536 = p + 65536 := by
        rw [hrs]; unfold add64; omega
      obtain ⟨out, hrec, hbytes, hzero⟩ := ih (p + 65536)
        { ctx with f := some (fl.advance 65536), readSize := add64 ctx.readSize 65536 }
        (fun i => if 65536 ≤ i ∧ i < 65536 then 0 else fl.fread_into buffer 0 65536 i)
        (fl.advance 65536) hty rfl hdata hpos1 hfs hrs1 (by omega) (by omega)
      rw [read_all_pos lib fuel m 65536 ctx _ buffer _ hread (by decide), hrec]
      have hlen : 65536 + round512 (d.size - (p + 65536)) = round512 (d.size - p) := by
        have e : d.size - (p + 65536) + 65536 = d.size - p := by omega
        rw [← round512_add_block, e]
      simp only []
      refine ⟨_, by rw [hlen], ?_, ?_⟩
      · intro i hi
        show (if i < 65536 then
            (if 65536 ≤ i ∧ i < 65536 then 0 else fl.fread_into buffer 0 65536 i)
          else out (i - 65536)) = d.get (p + i)
        by_cases hi1 : i < 65536
        · have h1 : ¬ (65536 ≤ i ∧ i < 65536) := by omega
          have h2 : 0 ≤ i ∧ i < 0 + fl.avail 65536 := by rw [hav 65536 (by omega)]; omega
          rw [if_pos hi1, if_neg h1]
          unfold FILE.fread_into
          rw [if_pos h2, hdata, hpos, Nat.sub_zero]
        · have e : p + 65536 + (i - 65536) = p + i := by omega
          rw [if_neg hi1, hbytes (i - 65536) (by omega), e]
      · intro i hi1 hi2
        have h1 : ¬ i < 65536 := by omega
        show (if i < 65536 then
            (if 65536 ≤ i ∧ i < 65536 then 0 else fl.fread_into buffer 0 65536 i)
          else out (i - 65536)) = 0
        rw [if_neg h1]
        exact hzero (i - 65536) (by omega) (by omega)
    · -- the last chunk
      have hN : min BUFFER_SIZE (d.size - p) = d.size - p := by unfold BUFFER_SIZE; omega
      rw [hN] at hread
      have hp := round512_props (d.size - p)
      obtain ⟨m1, rfl⟩ : ∃ m1, m = m1 + 1 := ⟨m - 1, by omega⟩
      have hdone := stream_read_done lib fuel
        { ctx with f := some (fl.advance (d.size - p)),
                   readSize := add64 ctx.readSize (round512 (d.size - p)) }
        (fun i => if d.size - p ≤ i ∧ i < round512 (d.size - p) then 0
          else fl.fread_into buffer 0 (d.size - p) i)
        (by show ctx.fileSize ≠ 0; omega)
        (by
          show toInt64 (sub64 ctx.fileSize (add64 ctx.readSize (round512 (d.size - p)))) < 1
          have e : add64 ctx.readSize (round512 (d.size - p)) = p + round512 (d.size - p) := by
            rw [hrs]; unfold add64; omega
          rw [e, hfs]
          exact toInt64_sub64_done _ _ hL (by omega) (by omega))
      rw [read_all_pos lib fuel (m1 + 1) (round512 (d.size - p)) ctx _ buffer _ hread
        (by omega), read_all_zero lib fuel m1 _ _ _ _ hdone]
      simp only [Nat.add_zero]
      refine ⟨_, rfl, ?_, ?_⟩
      · intro i hi
        have h0 : i < round512 (d.size - p) := by omega
        have h1 : ¬ (d.size - p ≤ i ∧ i < round512 (d.size - p)) := by omega
        have h2 : 0 ≤ i ∧ i < 0 + fl.avail (d.size - p) := by
          rw [hav _ (Nat.le_refl _)]; omega
        show (if i < round512 (d.size - p) then
            (if d.size - p ≤ i ∧ i < round512 (d.size - p) then 0
              else fl.fread_into buffer 0 (d.size - p) i)
          else 0) = d.get (p + i)
        rw [if_pos h0, if_neg h1]
        unfold FILE.fread_into
        rw [if_pos h2, hdata, hpos, Nat.sub_zero]
      · intro i hi1 hi2
        show (if i < round512 (d.size - p) then
            (if d.size - p ≤ i ∧ i < round512 (d.size - p) then 0
              else fl.fread_into buffer 0 (d.size - p) i)
          else 0) = 0
        rw [if_pos hi2, if_pos ⟨hi1, hi2⟩]

/-- The header window of a file that holds a byte sequence. -/
theorem hdr_of_holds (f : FILE) (B : List Nat) (h : Holds f B) (i : Nat) (hi : i < 65536) :
    hdr_of f.data i = B.getD i 0 := by
  obtain ⟨-, hsize, -, hget⟩ := h
  unfold hdr_of
  by_cases hlt : i < B.length
  · rw [if_pos ⟨by omega, hi⟩]
    exact hget i hlt
  · rw [if_neg (by omega), List.getD_eq_default B 0 (by omega)]

/-- The function `stream_close` on a Plain context with an open file calls `fclose`. -/
theorem stream_close_plain (ctx : stream_t) (f : FILE) (ht : ctx.type = TYPE_PLAIN)
    (hf : ctx.f = some f) (hcl : f.closed = false) :
    stream_close ctx = .ok ([CloseOp.fclose], { ctx with f := some f.fclose }) := by
  unfold stream_close
  simp only [hf, hcl, ht, Bool.false_eq_true, if_false]

/-- C13 (amended): Plain round trip. Let `B` be a non-empty byte sequence that does not
start with the gzip, bzip2, xz or pkzip magic, submitted in chunks of fewer than `2 ^ 31`
bytes. If `stream_create(comp = 0, size = |B|)` returns 0 and every `stream_write` of a chunk
returns a non-zero value, then `stream_close` closes the file, the file holds `|B|` bytes,
`stream_open` on it returns 0 with type Plain, and the chunks that `stream_read` returns
until it returns 0 make up `|B|` rounded up to a multiple of 512 bytes: the first `|B|` are
the bytes of `B`, the others are zero. -/
theorem plain_round_trip (lib : Lib) (o : Out) (t1 t2 fuel n : Nat) (fn : List Nat)
    (chunks : List (List Nat)) (B : List Nat) (buffer : Nat → Nat) (ctx1 ctx2 : stream_t)
    (rs : List Int) (hB : B = chunks.flatten) (hne : B ≠ [])
    (hch : ∀ c ∈ chunks, c.length < 2 ^ 31 ∧ ∀ b ∈ c, b < 256)
    (hmagic : ¬ HasMagic B)
    (hcreate : stream_create o t1 (some fn) 0 B.length = (0, ctx1))
    (hwrite : write_calls o ctx1 chunks = .ok (rs, ctx2)) (hok : ∀ r ∈ rs, r ≠ 0)
    (hn : B.length / 65536 + 2 ≤ n) :
    ∃ ctx3 d ctx4 out, stream_close ctx2 = .ok ([CloseOp.fclose], ctx3) ∧
      ctx3.f.map FILE.data = some d ∧ d.size = B.length ∧
      stream_open lib (fun _ => some d) t2 (some fn) = .ok (0, ctx4) ∧
      ctx4.type = TYPE_PLAIN ∧
      read_all lib fuel n ctx4 buffer = .ok (round512 B.length, out, 0) ∧
      (∀ i, i < B.length → out i = B.getD i 0) ∧
      (∀ i, B.length ≤ i → i < round512 B.length → out i = 0) := by
  obtain ⟨hfn, ht1, hf1⟩ := stream_create_plain o t1 fn B.length ctx1 hcreate
  have h0 : Holds ⟨FileData.empty, 0, false⟩ [] :=
    ⟨rfl, rfl, rfl, fun i hi => absurd hi (Nat.not_lt_zero i)⟩
  obtain ⟨ht2, f2, hf2, hA⟩ := write_calls_plain o chunks ctx1 _ [] rs ctx2 ht1 hf1 h0 hch
    hwrite hok
  rw [List.nil_append, ← hB] at hA
  have hlen : 0 < B.length := List.length_pos.2 hne
  have hsize : f2.data.size = B.length := hA.2.1
  have hhdr : ∀ i, i < 65536 → hdr_of f2.data i = B.getD i 0 := hdr_of_holds f2 B hA
  obtain ⟨c, hd, hty, hfs, -, hf⟩ := detect_plain f2.data
    (by rw [hhdr 0 (by decide), hhdr 1 (by decide)]; exact fun h => hmagic (Or.inl h))
    (by rw [hhdr 0 (by decide), hhdr 1 (by decide), hhdr 2 (by decide)]
        exact fun h => hmagic (Or.inr (Or.inl h)))
    (by rw [hhdr 0 (by decide), hhdr 1 (by decide), hhdr 2 (by decide), hhdr 3 (by decide),
          hhdr 4 (by decide)]
        exact fun h => hmagic (Or.inr (Or.inr (Or.inl h))))
    (by rw [hhdr 0 (by decide), hhdr 1 (by decide), hhdr 2 (by decide), hhdr 3 (by decide)]
        exact fun h => hmagic (Or.inr (Or.inr (Or.inr h))))
  have hso := stream_open_cont lib (fun _ => some f2.data) t2 fn f2.data c hfn rfl hd
  rw [open_codec_plain lib t2 c hty,
    if_neg (fun h => by rw [hfs, hsize] at h; omega)] at hso
  have hfresh := stream_open_fresh lib _ t2 _ _ _ hso
  obtain ⟨out, hread, hbytes, hzero⟩ := read_all_plain lib fuel f2.data n 0
    { c with start := t2 } buffer ⟨f2.data, 0, false⟩ hty hf rfl rfl hfs hfresh.1
    (by rw [hsize]; exact hlen) (by rw [hsize]; omega)
  rw [hsize, Nat.sub_zero] at hread hbytes hzero
  refine ⟨_, f2.data, _, out, stream_close_plain ctx2 f2 ht2 hf2 hA.2.2.1, rfl, hsize, hso,
    hty, hread, ?_, hzero⟩
  intro i hi
  rw [hbytes i hi, Nat.zero_add]
  exact hA.2.2.2 i hi
/-! ## Theorems on stream_status -/

theorem toInt32_of_lt (a : Nat) (h : a < 2 ^ 31) : toInt32 a = (a : Int) := by
  unfold toInt32
  have h1 : a % 2 ^ 32 = a := Nat.mod_eq_of_lt (by omega)
  rw [h1, if_pos h]

/-- Over counters with `readSize ≤ fileSize`, the estimate of the specification is the
quotient of natural numbers. -/
theorem eta_spec_eq (ctx : stream_t) (t : Nat) (hle : ctx.readSize ≤ ctx.fileSize)
    (hst : ctx.start < t) :
    eta_spec ctx t =
      (((t - ctx.start) * (ctx.fileSize - ctx.readSize) / ctx.readSize : Nat) : Int) := by
  unfold eta_spec
  rw [Int.natCast_div, Nat.cast_mul, Nat.cast_sub hle, Nat.cast_sub (Nat.le_of_lt hst)]

/-- The value `stream_status` computes when the estimate branch is taken with a known
total. -/
theorem stream_status_eq (ctx : stream_t) (t : Nat) (hfs : ctx.fileSize ≠ 0)
    (hrs : ctx.start < t ∧ ctx.readSize ≠ 0) :
    stream_status ctx t =
      .ok (toInt32 (ctx.readSize * 100 % 2 ^ 64 / ctx.fileSize),
        some { readMiB := ctx.readSize >>> 20, totalMiB := some (ctx.fileSize >>> 20),
               rem := status_rem
                 (toInt32 ((t - ctx.start) * sub64 ctx.fileSize ctx.readSize % 2 ^ 64 /
                   ctx.readSize / 3600))
                 (toInt32 ((t - ctx.start) * sub64 ctx.fileSize ctx.readSize % 2 ^ 64 /
                   ctx.readSize % 3600 / 60)),
               h := toInt32 ((t - ctx.start) * sub64 ctx.fileSize ctx.readSize % 2 ^ 64 /
                   ctx.readSize / 3600),
               m := toInt32 ((t - ctx.start) * sub64 ctx.fileSize ctx.readSize % 2 ^ 64 /
                   ctx.readSize % 3600 / 60) }) := by
  unfold stream_status
  simp only [hfs, hrs, ne_eq, not_false_eq_true, if_true, and_self]

/-- Without bytes read and with a known total, `stream_status` writes no text and returns
0 percent. -/
theorem stream_status_unread (ctx : stream_t) (t : Nat) (hrs : ctx.readSize = 0)
    (h : ctx.fileSize ≠ 0) : stream_status ctx t = .ok (0, none) := by
  unfold stream_status
  have h0 : ¬ (ctx.start < t ∧ ctx.readSize ≠ 0) := fun h => h.2 hrs
  rw [if_neg h0]
  simp only [h, hrs, ne_eq, not_false_eq_true, if_true, Nat.zero_mul, Nat.zero_mod,
    Nat.zero_div]
  rfl

/-- Without bytes read and with an unknown total, `stream_status` writes no text and returns
the percentage of the compressed bytes consumed, when `compSize + 1` is not zero as a
`uint64_t`. -/
theorem stream_status_unread_comp (ctx : stream_t) (t : Nat) (hrs : ctx.readSize = 0)
    (hf : ctx.fileSize = 0) (hm : (ctx.compSize + 1) % 2 ^ 64 ≠ 0) :
    stream_status ctx t =
      .ok (toInt32 (ctx.cmrdSize * 100 % 2 ^ 64 / ((ctx.compSize + 1) % 2 ^ 64)), none) := by
  unfold stream_status
  have h0 : ¬ (ctx.start < t ∧ ctx.readSize ≠ 0) := fun h => h.2 hrs
  rw [if_neg h0]
  simp only [hf, hm, ne_eq, not_true_eq_false, if_false]

/-- C14 (amended): for a context with `0 < readSize ≤ fileSize`, `start < now`, a product
`elapsed * (fileSize - readSize)` below `2 ^ 64` and an estimate below `3600 * 2 ^ 31`
seconds, `stream_status` computes the linear extrapolation
`d = elapsed * (fileSize - readSize) / readSize` of the specification and prints
`h = d / 3600` and `m = (d mod 3600) / 60` with the phrasing chosen from `h` and `m`. For
`fileSize` = 200 MiB, `readSize` = 100 MiB and 60 seconds elapsed the estimate is 60 seconds,
`h = 0`, `m = 1`, the one-minute phrasing, and the percentage is 50. For `readSize = 0`: with
`fileSize > 0` the text is empty and the percentage is 0; with `fileSize = 0` and
`compSize + 1` not zero as a `uint64_t` the text is empty and the percentage is
`cmrdSize * 100 / (compSize + 1)`, which is 0 when `cmrdSize = 0`. -/
theorem status_estimate (ctx : stream_t) (t : Nat)
    (hfs : 0 < ctx.fileSize) (h64 : ctx.fileSize < 2 ^ 64) (hrs : 0 < ctx.readSize)
    (hle : ctx.readSize ≤ ctx.fileSize) (hst : ctx.start < t)
    (hov : (t - ctx.start) * (ctx.fileSize - ctx.readSize) < 2 ^ 64)
    (hh : eta_spec ctx t < 3600 * 2 ^ 31) :
    (∃ p text, stream_status ctx t = .ok (p, some text) ∧
      text.h = eta_spec ctx t / 3600 ∧ text.m = eta_spec ctx t % 3600 / 60 ∧
      text.rem = status_rem text.h text.m ∧
      (ctx.readSize * 100 < 2 ^ 64 → p = ((ctx.readSize * 100 / ctx.fileSize : Nat) : Int))) ∧
    (stream_status ex_status_half 1060 =
        .ok (50, some { readMiB := 100, totalMiB := some 200, rem := L_STATM, h := 0, m := 1 }) ∧
      eta_spec ex_status_half 1060 = 60) ∧
    (∀ (c : stream_t) (now : Nat), c.readSize = 0 →
      (c.fileSize ≠ 0 → stream_status c now = .ok (0, none)) ∧
      (c.fileSize = 0 → (c.compSize + 1) % 2 ^ 64 ≠ 0 →
        stream_status c now =
          .ok (toInt32 (c.cmrdSize * 100 % 2 ^ 64 / ((c.compSize + 1) % 2 ^ 64)), none) ∧
        (c.cmrdSize = 0 → stream_status c now = .ok (0, none)))) := by
  have hzero : ∀ (c : stream_t) (now : Nat), c.readSize = 0 → c.fileSize = 0 →
      (c.compSize + 1) % 2 ^ 64 ≠ 0 → c.cmrdSize = 0 →
      stream_status c now = .ok (0, none) := by
    intro c now h1 h2 h3 h4
    rw [stream_status_unread_comp c now h1 h2 h3, h4, Nat.zero_mul, Nat.zero_mod,
      Nat.zero_div]
    rfl
  refine ⟨?_, ⟨rfl, by decide⟩, fun c now h1 =>
    ⟨fun h2 => stream_status_unread c now h1 h2, fun h2 h3 =>
      ⟨stream_status_unread_comp c now h1 h2 h3, fun h4 => hzero c now h1 h2 h3 h4⟩⟩⟩
  have he := eta_spec_eq ctx t hle hst
  rw [he] at hh ⊢
  have hsub : sub64 ctx.fileSize ctx.readSize = ctx.fileSize - ctx.readSize :=
    sub64_of_le _ _ h64 hle
  have hmod : (t - ctx.start) * (ctx.fileSize - ctx.readSize) % 2 ^ 64 =
      (t - ctx.start) * (ctx.fileSize - ctx.readSize) := Nat.mod_eq_of_lt hov
  generalize hD : (t - ctx.start) * (ctx.fileSize - ctx.readSize) / ctx.readSize = D at hh ⊢
  have hD' : D < 3600 * 2 ^ 31 := by exact_mod_cast hh
  have hst' : ctx.start < t ∧ ctx.readSize ≠ 0 := ⟨hst, by omega⟩
  refine ⟨_, _, stream_status_eq ctx t (by omega) hst', ?_, ?_, rfl, ?_⟩
  · have h1 : D / 3600 < 2 ^ 31 := by omega
    show toInt32 ((t - ctx.start) * sub64 ctx.fileSize ctx.readSize % 2 ^ 64 /
      ctx.readSize / 3600) = (D : Int) / 3600
    rw [hsub, hmod, hD, toInt32_of_lt _ h1]
    exact Int.natCast_div D 3600
  · have h1 : D % 3600 / 60 < 2 ^ 31 := by omega
    show toInt32 ((t - ctx.start) * sub64 ctx.fileSize ctx.readSize % 2 ^ 64 /
      ctx.readSize % 3600 / 60) = (D : Int) % 3600 / 60
    rw [hsub, hmod, hD, toInt32_of_lt _ h1, Int.natCast_div, Int.natCast_mod]
    rfl
  · intro hp
    rw [Nat.mod_eq_of_lt hp]
    have : ctx.readSize * 100 / ctx.fileSize ≤ 100 :=
      Nat.div_le_of_le_mul (by nlinarith)
    exact toInt32_of_lt _ (by omega)
/-! ## Theorems on disks_open and disks_close -/

/-- For a valid target `disks_open` goes on to open the volume. -/
theorem disks_open_valid (DISKS_MAX : Nat) (s : DiskState) (targetId : Int)
    (hv : valid_target DISKS_MAX s targetId) :
    ¬ (targetId < 0 ∨ targetId ≥ DISKS_MAX ∨ s.disks_targets targetId.toNat = -1 ∨
      s.disks_targets targetId.toNat = 67) := by
  obtain ⟨h1, h2, h3, h4⟩ := hv
  rintro (h | h | h | h)
  · omega
  · omega
  · exact h3 h
  · exact h4 h

/-- The result of `disks_open` when the lock request on the opened volume fails. -/
theorem disks_open_lock_fails (w : Win) (DISKS_MAX : Nat) (s : DiskState) (targetId : Int)
    (vol : HANDLE) (hv : valid_target DISKS_MAX s targetId)
    (hvol : w.CreateFileA (Path.volume (volume_letter s targetId)) = vol)
    (hne : vol ≠ INVALID_HANDLE_VALUE) (hlock : w.FSCTL_LOCK_VOLUME vol = false) :
    disks_open w DISKS_MAX s targetId =
      (NULL, { s with hTargetVolume := NULL, log := s.log ++
        [OsCall.CreateFileA (Path.volume (volume_letter s targetId)) vol,
         OsCall.FSCTL_LOCK_VOLUME vol false, OsCall.CloseHandle vol] }) := by
  unfold disks_open
  rw [if_neg (disks_open_valid DISKS_MAX s targetId hv)]
  simp only [DISKS_TEST, Bool.false_eq_true, false_and, if_false, hvol, hne, hlock,
    List.append_assoc, List.singleton_append]

/-- The result of `disks_open` when the volume is locked and the physical device cannot be
opened. -/
theorem disks_open_device_fails (w : Win) (DISKS_MAX : Nat) (s : DiskState) (targetId : Int)
    (vol : HANDLE) (hv : valid_target DISKS_MAX s targetId)
    (hvol : w.CreateFileA (Path.volume (volume_letter s targetId)) = vol)
    (hne : vol ≠ INVALID_HANDLE_VALUE) (hlock : w.FSCTL_LOCK_VOLUME vol = true)
    (hdev : w.CreateFileA (Path.PhysicalDrive (disk_number w vol)) = INVALID_HANDLE_VALUE) :
    disks_open w DISKS_MAX s targetId =
      (NULL, { s with hTargetVolume := NULL, log := s.log ++
        [OsCall.CreateFileA (Path.volume (volume_letter s targetId)) vol,
         OsCall.FSCTL_LOCK_VOLUME vol true,
         OsCall.IOCTL_VOLUME_GET_VOLUME_DISK_EXTENTS vol
           (w.IOCTL_VOLUME_GET_VOLUME_DISK_EXTENTS vol),
         OsCall.FSCTL_DISMOUNT_VOLUME vol (w.FSCTL_DISMOUNT_VOLUME vol),
         OsCall.CreateFileA (Path.PhysicalDrive (disk_number w vol)) INVALID_HANDLE_VALUE,
         OsCall.FSCTL_UNLOCK_VOLUME vol (w.FSCTL_UNLOCK_VOLUME vol),
         OsCall.CloseHandle vol] }) := by
  unfold disks_open
  rw [if_neg (disks_open_valid DISKS_MAX s targetId hv)]
  simp only [DISKS_TEST, Bool.false_eq_true, false_and, if_false, hvol, hne, hlock, hdev,
    if_true, List.append_assoc, List.singleton_append, List.cons_append, List.nil_append]

/-- C15: for a valid target whose volume was opened as `vol`, if the lock request fails,
or the lock is taken and the physical device cannot be opened, `disks_open` returns NULL,
the retained slot `hTargetVolume` is NULL, and the calls it made leave no handle open and no
volume locked: after a failed lock request the volume handle is closed; after a failed
device open the unlock request is issued and then the volume handle is closed. -/
theorem disks_open_rollback (w : Win) (DISKS_MAX : Nat) (s : DiskState) (targetId : Int)
    (vol : HANDLE) (hv : valid_target DISKS_MAX s targetId)
    (hvol : w.CreateFileA (Path.volume (volume_letter s targetId)) = vol)
    (hne : vol ≠ INVALID_HANDLE_VALUE)
    (hfail : w.FSCTL_LOCK_VOLUME vol = false ∨
      w.CreateFileA (Path.PhysicalDrive (disk_number w vol)) = INVALID_HANDLE_VALUE) :
    (disks_open w DISKS_MAX s targetId).1 = NULL ∧
    (disks_open w DISKS_MAX s targetId).2.hTargetVolume = NULL ∧
    ∃ seg, (disks_open w DISKS_MAX s targetId).2.log = s.log ++ seg ∧
      handles_open seg = [] ∧ volumes_locked seg = [] ∧
      (w.FSCTL_LOCK_VOLUME vol = false →
        seg = [OsCall.CreateFileA (Path.volume (volume_letter s targetId)) vol,
               OsCall.FSCTL_LOCK_VOLUME vol false, OsCall.CloseHandle vol]) ∧
      (w.FSCTL_LOCK_VOLUME vol = true →
        ∃ pre, seg = pre ++ [OsCall.FSCTL_UNLOCK_VOLUME vol (w.FSCTL_UNLOCK_VOLUME vol),
                             OsCall.CloseHandle vol]) := by
  cases hlock : w.FSCTL_LOCK_VOLUME vol with
  | false =>
    rw [disks_open_lock_fails w DISKS_MAX s targetId vol hv hvol hne hlock]
    refine ⟨rfl, rfl, _, rfl, ?_, ?_, fun _ => rfl, fun h => absurd h (by decide)⟩
    · simp [handles_open, os_open, hne]
    · simp [volumes_locked, os_locked]
  | true =>
    have hdev : w.CreateFileA (Path.PhysicalDrive (disk_number w vol)) =
        INVALID_HANDLE_VALUE := by
      rcases hfail with h | h
      · rw [hlock] at h; exact absurd h (by decide)
      · exact h
    rw [disks_open_device_fails w DISKS_MAX s targetId vol hv hvol hne hlock hdev]
    refine ⟨rfl, rfl, _, rfl, ?_, ?_, fun h => absurd h (by decide), fun _ =>
      ⟨[OsCall.CreateFileA (Path.volume (volume_letter s targetId)) vol,
        OsCall.FSCTL_LOCK_VOLUME vol true,
        OsCall.IOCTL_VOLUME_GET_VOLUME_DISK_EXTENTS vol
          (w.IOCTL_VOLUME_GET_VOLUME_DISK_EXTENTS vol),
        OsCall.FSCTL_DISMOUNT_VOLUME vol (w.FSCTL_DISMOUNT_VOLUME vol),
        OsCall.CreateFileA (Path.PhysicalDrive (disk_number w vol)) INVALID_HANDLE_VALUE],
       rfl⟩⟩
    · simp [handles_open, os_open, hne]
    · cases w.FSCTL_UNLOCK_VOLUME vol <;> simp [volumes_locked, os_locked]

/-- C17: for a `targetId` that is negative, at least `DISKS_MAX`, marked unavailable or
mapped to the volume `C`, `disks_open` returns `(HANDLE)-1`, which is not NULL, and the state
is the one before the call: no Win32 call is logged and `hTargetVolume` is unchanged. -/
theorem disks_open_rejects (w : Win) (DISKS_MAX : Nat) (s : DiskState) (targetId : Int)
    (h : targetId < 0 ∨ targetId ≥ DISKS_MAX ∨ s.disks_targets targetId.toNat = -1 ∨
      s.disks_targets targetId.toNat = 67) :
    (disks_open w DISKS_MAX s targetId).1 = -1 ∧ (-1 : HANDLE) ≠ NULL ∧
    (disks_open w DISKS_MAX s targetId).2 = s ∧
    (disks_open w DISKS_MAX s targetId).2.log = s.log ∧
    (disks_open w DISKS_MAX s targetId).2.hTargetVolume = s.hTargetVolume := by
  unfold disks_open
  rw [if_pos h]
  exact ⟨rfl, by decide, rfl, rfl, rfl⟩

/-- The state after `disks_close` with a volume retained. -/
theorem disks_close_retained (w : Win) (s : DiskState) (data : HANDLE)
    (h : s.hTargetVolume ≠ NULL) :
    disks_close w s data =
      { s with hTargetVolume := NULL, log := s.log ++
        [OsCall.CloseHandle data,
         OsCall.FSCTL_UNLOCK_VOLUME s.hTargetVolume (w.FSCTL_UNLOCK_VOLUME s.hTargetVolume),
         OsCall.CloseHandle s.hTargetVolume] } := by
  unfold disks_close
  simp only [h, ne_eq, not_false_eq_true, if_true, List.append_assoc, List.singleton_append]

/-- The state after `disks_close` with no volume retained. -/
theorem disks_close_empty (w : Win) (s : DiskState) (data : HANDLE)
    (h : s.hTargetVolume = NULL) :
    disks_close w s data = { s with log := s.log ++ [OsCall.CloseHandle data] } := by
  unfold disks_close
  simp only [h, ne_eq, not_true_eq_false, if_false]

/-- After `disks_close` no volume is retained. -/
theorem disks_close_slot (w : Win) (s : DiskState) (data : HANDLE) :
    (disks_close w s data).hTargetVolume = NULL := by
  by_cases h : s.hTargetVolume = NULL
  · rw [disks_close_empty w s data h]; exact h
  · rw [disks_close_retained w s data h]

/-- A context without a file and of type Plain: `stream_close` makes no call. -/
theorem stream_close_none (ctx : stream_t) (hf : ctx.f = none) (ht : ctx.type = TYPE_PLAIN) :
    stream_close ctx = .ok ([], ctx) := by
  unfold stream_close
  simp only [hf, ht]

/-- C19 (amended): a second call of `disks_close` on the same handle issues no unlock request
and closes no volume handle: its only Win32 call is `CloseHandle` on the handle passed, again,
and the retained slot `hTargetVolume` is NULL after the first call and after the second
(the first call, with a volume retained, closes the handle passed, requests the unlock and
closes the volume handle). For a stream context that holds no file and is of type Plain,
`stream_close` makes no call and leaves the context, so that a second call does the same. -/
theorem close_twice (w : Win) (s : DiskState) (data : HANDLE) (ctx : stream_t)
    (hf : ctx.f = none) (ht : ctx.type = TYPE_PLAIN) :
    ((disks_close w (disks_close w s data) data).log =
        (disks_close w s data).log ++ [OsCall.CloseHandle data] ∧
      (disks_close w s data).hTargetVolume = NULL ∧
      (disks_close w (disks_close w s data) data).hTargetVolume = NULL ∧
      (s.hTargetVolume ≠ NULL → (disks_close w s data).log = s.log ++
        [OsCall.CloseHandle data,
         OsCall.FSCTL_UNLOCK_VOLUME s.hTargetVolume (w.FSCTL_UNLOCK_VOLUME s.hTargetVolume),
         OsCall.CloseHandle s.hTargetVolume])) ∧
    (stream_close ctx = .ok ([], ctx)) := by
  have h1 := disks_close_slot w s data
  refine ⟨⟨?_, h1, disks_close_slot w _ data, fun h => ?_⟩, stream_close_none ctx hf ht⟩
  · rw [disks_close_empty w (disks_close w s data) data h1]
  · rw [disks_close_retained w s data h]
/-! ## Theorems on the divisions of stream_status -/

/-- The contexts on which `stream_status` divides by zero: the total is unknown
(`fileSize = 0`), and either the estimate is computed (`start < now`, `readSize` non-zero)
with `cmrdSize = 0`, or `compSize + 1` is zero as a `uint64_t`. -/
theorem stream_status_div0_iff (ctx : stream_t) (t : Nat) :
    stream_status ctx t = .error .div0 ↔
      (ctx.fileSize = 0 ∧
        ((ctx.start < t ∧ ctx.readSize ≠ 0 ∧ ctx.cmrdSize = 0) ∨
          (ctx.compSize + 1) % 2 ^ 64 = 0)) := by
  unfold stream_status
  by_cases hfs : ctx.fileSize = 0
  · by_cases hg : ctx.start < t ∧ ctx.readSize ≠ 0
    · by_cases hc : ctx.cmrdSize = 0
      · simp [hfs, hg, hc, -Nat.reducePow]
      · by_cases hw : (ctx.compSize + 1) % 2 ^ 64 = 0
        · simp [hfs, hg, hc, hw, -Nat.reducePow]
        · simp [hfs, hg, hc, hw, -Nat.reducePow]
    · by_cases hw : (ctx.compSize + 1) % 2 ^ 64 = 0
      · simp [hfs, hg, hw, -Nat.reducePow]
      · have hg2 : ¬ (ctx.start < t ∧ ctx.readSize ≠ 0 ∧ ctx.cmrdSize = 0) :=
          fun h => hg ⟨h.1, h.2.1⟩
        simp [hfs, hg, hw, hg2, -Nat.reducePow]
  · by_cases hg : ctx.start < t ∧ ctx.readSize ≠ 0
    · simp [hfs, hg]
    · simp [hfs, hg]

/-- With a known total, `stream_status` returns. -/
theorem stream_status_known (ctx : stream_t) (t : Nat) (hfs : ctx.fileSize ≠ 0) :
    ∃ p text, stream_status ctx t = .ok (p, text) := by
  unfold stream_status
  by_cases hg : ctx.start < t ∧ ctx.readSize ≠ 0
  · simp [hfs, hg]
  · simp [hfs, hg]
/-! ### Instances: the cursor, the estimate, the round trip, the devices -/

theorem ex_zip_oob_record : Zip64Record (hdr_of ex_zip_oob) 65530 := by
  have hs : zip_extra_start (hdr_of ex_zip_oob) = 65530 := rfl
  have he : zip_extra_end (hdr_of ex_zip_oob) = 65550 := rfl
  have h0 : hdr_of ex_zip_oob 65530 = 1 := rfl
  have h1 : hdr_of ex_zip_oob (65530 + 1) = 0 := rfl
  refine ⟨?_, by rw [he]; decide, by decide, h0, h1⟩
  rw [hs, he]
  exact ScanReaches.here 65530

/-- C2, failing input: the zip file `ex_zip_oob` is accepted as a zip local header (flag
bits clear, method 0) with both 32-bit size fields `FFFFFFFF`; the scan finds a record with
tag `0x0001` at offset 65530, whose two size fields are zero in the file. `stream_open` does
not return 4: it reads the size fields past the header window, at `hdr[65542]` and
following. -/
theorem zip64_zero_sizes_past_window :
    (hdr_of ex_zip_oob 0 = 0x50 ∧ hdr_of ex_zip_oob 1 = 0x4b ∧ hdr_of ex_zip_oob 2 = 3 ∧
      hdr_of ex_zip_oob 3 = 4) ∧
    ((hdr_of ex_zip_oob 6).testBit 0 = false ∧ (hdr_of ex_zip_oob 6).testBit 6 = false) ∧
    hdr_of ex_zip_oob 8 = 0 ∧
    (le_bytes (hdr_of ex_zip_oob) 18 4 = 0xFFFFFFFF ∧
      le_bytes (hdr_of ex_zip_oob) 22 4 = 0xFFFFFFFF) ∧
    Zip64Record (hdr_of ex_zip_oob) 65530 ∧
    (le_bytes ex_zip_oob.get (65530 + 12) 8 = 0 ∧ le_bytes ex_zip_oob.get (65530 + 4) 8 = 0) ∧
    stream_open ex_lib (fun _ => some ex_zip_oob) 0 (some ex_name) = .error (.oob 65542) ∧
    ∀ ctx, stream_open ex_lib (fun _ => some ex_zip_oob) 0 (some ex_name) ≠ .ok (4, ctx) :=
  ⟨⟨rfl, rfl, rfl, rfl⟩, ⟨rfl, rfl⟩, rfl, ⟨rfl, rfl⟩, ex_zip_oob_record, ⟨rfl, rfl⟩, rfl,
    fun _ h => Except.noConfusion h⟩

/-- C11, instance of the amended claim: on the bzip2 file of 4 bytes with a decoder that
reports the end of the stream at once, a call of `stream_read` refills 4 bytes, returns 0,
and leaves `cmrdSize = 4 = compSize`; the refill moves the file position from 0 to 4 and
adds 4 to `cmrdSize`. -/
theorem cmrdSize_le_compSize_witness :
    ∃ c bb, stream_read ex_lib 1 ex_bzip2_ctx (fun _ => 0) = .ok (0, c, bb) ∧
      c.cmrdSize = 4 ∧
      (c.compSize = ex_bzip2_ctx.compSize ∧ ex_bzip2_ctx.cmrdSize ≤ c.cmrdSize ∧
        c.cmrdSize ≤ c.compSize) ∧
      ∃ c1, refill_bzip2 ex_bzip2_ctx 0 = .ok (.go c1) ∧ RefillPull ex_bzip2_ctx (.go c1) ∧
        ex_bzip2_ctx.pos = 0 ∧ c1.pos = 4 ∧ c1.cmrdSize = 4 :=
  have h : ∃ c bb, stream_read ex_lib 1 ex_bzip2_ctx (fun _ => 0) = .ok (0, c, bb) ∧
      c.cmrdSize = 4 := ⟨_, _, rfl, rfl⟩
  have g : ∃ c1, refill_bzip2 ex_bzip2_ctx 0 = .ok (.go c1) ∧ c1.pos = 4 ∧ c1.cmrdSize = 4 :=
    ⟨_, rfl, rfl, rfl⟩
  let ⟨c, bb, h1, h2⟩ := h
  let ⟨c1, g1, g2, g3⟩ := g
  have t := cmrdSize_le_compSize ex_lib 1 ex_bzip2_ctx _ 0 c bb (by decide) (by decide) h1
  ⟨c, bb, h1, h2, t.1, c1, g1,
    t.2.1 ex_bzip2_ctx 0 (.go c1) (by decide) (by decide) (Or.inr (Or.inl g1)), rfl, g2, g3⟩

/-- C11, counterexample: on the truncated deflated zip entry `ex_zip_deflate_truncated`
(16 compressed bytes declared, 4 in the file) the refill of the first `stream_read` requests
16 bytes; the `fread` delivers no item, but it takes the 4 bytes there are: the file position
moves from 31 to 35 and `compBuf` receives them, `avail_in` is 16, and nothing is added to
`cmrdSize`. -/
theorem refill_short_read :
    ∃ ctx0 c r,
      stream_open ex_lib (fun _ => some ex_zip_deflate_truncated) 0 (some ex_name) =
        .ok (0, ctx0) ∧
      ctx0.compSize = 16 ∧ ctx0.cmrdSize = 0 ∧ ctx0.pos = 31 ∧
      refill_deflate ctx0 0 = .ok (.brk c r) ∧
      c.pos = 35 ∧ c.compBuf 0 = 1 ∧ c.compBuf 3 = 4 ∧ c.zstrm.avail_in = 16 ∧
      c.cmrdSize = 0 :=
  ⟨_, _, _, rfl, rfl, rfl, rfl, rfl, rfl, rfl, rfl, rfl, rfl⟩

set_option maxRecDepth 100000 in
/-- C12, failing inputs: (a) the stored zip entry of `ex_zip_truncated` declares 510 bytes
and the file holds 9 after the header: the `fread` of `stream_read` delivers no item, and
`stream_read` returns 512 and advances `readSize` to 512; (b) the deflated entry of
`ex_zip_deflate_truncated` declares 16 compressed bytes and the file holds 4: the refill
`fread` delivers no item, the loop is left with `ret` still `Z_OK`, and `stream_read` returns
512 and advances `readSize` to 512, with no byte decoded. -/
theorem read_failure_reported_as_chunk :
    (∃ ctx0 fl c bb,
      stream_open ex_lib (fun _ => some ex_zip_truncated) 0 (some ex_name) = .ok (0, ctx0) ∧
      ctx0.type = TYPE_PLAIN ∧ ctx0.f = some fl ∧ fl.fread_items (read_size ctx0) = 0 ∧
      stream_read ex_lib 1 ctx0 (fun _ => 9) = .ok (512, c, bb) ∧
      ctx0.readSize = 0 ∧ c.readSize = 512) ∧
    (∃ ctx0 fl c bb,
      stream_open ex_lib (fun _ => some ex_zip_deflate_truncated) 0 (some ex_name) =
        .ok (0, ctx0) ∧
      ctx0.type = TYPE_DEFLATE ∧ ctx0.f = some fl ∧ ctx0.compSize = 16 ∧ ctx0.cmrdSize = 0 ∧
      fl.fread_items 16 = 0 ∧
      stream_read ex_lib 1 ctx0 (fun _ => 9) = .ok (512, c, bb) ∧
      ctx0.readSize = 0 ∧ c.readSize = 512 ∧ c.cmrdSize = 0 ∧ bb 0 = 9) :=
  ⟨⟨_, _, _, _, rfl, rfl, rfl, rfl, rfl, rfl, rfl⟩,
   ⟨_, _, _, _, rfl, rfl, rfl, rfl, rfl, rfl, rfl, rfl, rfl, rfl, rfl⟩⟩

/-- C14, instance of the amended claim: half way through 200 MiB after 60 seconds. -/
theorem status_estimate_witness :
    ∃ p text, stream_status ex_status_half 1060 = .ok (p, some text) ∧
      text.h = eta_spec ex_status_half 1060 / 3600 ∧
      text.m = eta_spec ex_status_half 1060 % 3600 / 60 ∧
      text.rem = status_rem text.h text.m ∧
      (ex_status_half.readSize * 100 < 2 ^ 64 →
        p = ((ex_status_half.readSize * 100 / ex_status_half.fileSize : Nat) : Int)) :=
  (status_estimate ex_status_half 1060 (by decide) (by decide) (by decide) (by decide)
    (by decide) (by decide) (by decide)).1

/-- C14, counterexample: (a) the context that has read the padded last chunk of a file of
510 bytes has `fileSize = 510 > 0`, `readSize = 512 > 0` and `start = 0 < 1`; the
extrapolation of the specification is not positive, and `stream_status` prints 725372254
hours and 26 minutes, because `fileSize - readSize` wraps to `2 ^ 64 - 2`; (b) after a call
of `stream_read` on the bzip2 file of 4 bytes that consumed the 4 compressed bytes and
produced nothing, `readSize = 0` and `stream_status` returns 80 percent. -/
theorem status_estimate_wraps :
    (0 < ex_status_ctx.fileSize ∧ 0 < ex_status_ctx.readSize ∧ ex_status_ctx.start < 1 ∧
      eta_spec ex_status_ctx 1 ≤ 0 ∧
      stream_status ex_status_ctx 1 =
        .ok (100, some { readMiB := 0, totalMiB := some 0, rem := L_STATHSMS,
                         h := 725372254, m := 26 })) ∧
    (∃ c bb, stream_read ex_lib 1 ex_bzip2_ctx (fun _ => 0) = .ok (0, c, bb) ∧
      c.readSize = 0 ∧ stream_status c 1 = .ok (80, none)) :=
  ⟨⟨by decide, by decide, by decide, by decide, rfl⟩, ⟨_, _, rfl, rfl, rfl⟩⟩

/-- C15, instances: target 0 (volume `E`, opened as handle 100), first with a failing lock
request, then with the lock taken and a failing open of the physical drive. -/
theorem disks_open_rollback_witness :
    (valid_target 4 ex_disks 0 ∧ ex_win_nolock.FSCTL_LOCK_VOLUME 100 = false ∧
      (disks_open ex_win_nolock 4 ex_disks 0).1 = NULL ∧
      (disks_open ex_win_nolock 4 ex_disks 0).2.hTargetVolume = NULL ∧
      ∃ seg, (disks_open ex_win_nolock 4 ex_disks 0).2.log = ex_disks.log ++ seg ∧
        handles_open seg = [] ∧ volumes_locked seg = []) ∧
    (ex_win_nophys.CreateFileA (Path.PhysicalDrive (disk_number ex_win_nophys 100)) =
        INVALID_HANDLE_VALUE ∧
      (disks_open ex_win_nophys 4 ex_disks 0).1 = NULL ∧
      (disks_open ex_win_nophys 4 ex_disks 0).2.hTargetVolume = NULL ∧
      ∃ seg, (disks_open ex_win_nophys 4 ex_disks 0).2.log = ex_disks.log ++ seg ∧
        handles_open seg = [] ∧ volumes_locked seg = [] ∧
        ∃ pre, seg = pre ++ [OsCall.FSCTL_UNLOCK_VOLUME 100 true, OsCall.CloseHandle 100]) :=
  have hv : valid_target 4 ex_disks 0 := ⟨by decide, by decide, by decide, by decide⟩
  have h := disks_open_rollback ex_win_nolock 4 ex_disks 0 100 hv rfl (by decide) (Or.inl rfl)
  have g := disks_open_rollback ex_win_nophys 4 ex_disks 0 100 hv rfl (by decide) (Or.inr rfl)
  ⟨⟨hv, rfl, h.1, h.2.1, h.2.2.elim fun seg hs => ⟨seg, hs.1, hs.2.1, hs.2.2.1⟩⟩,
   ⟨rfl, g.1, g.2.1, g.2.2.elim fun seg hs =>
      ⟨seg, hs.1, hs.2.1, hs.2.2.1, hs.2.2.2.2 rfl⟩⟩⟩

/-- C16, failing input: target 0 (volume `E`) with Win32 calls that all succeed except the
extents query. `disks_open` goes on after the failed query, opens the physical drive whose
number is the content of the uninitialised local (7 here) and returns its handle 200; the
volume handle 100 stays open and locked. -/
theorem disks_open_ignores_extents_failure :
    valid_target 4 ex_disks 0 ∧
    ex_win_noextents.IOCTL_VOLUME_GET_VOLUME_DISK_EXTENTS 100 = none ∧
    (disks_open ex_win_noextents 4 ex_disks 0).1 = 200 ∧
    (disks_open ex_win_noextents 4 ex_disks 0).2.hTargetVolume = 100 ∧
    (disks_open ex_win_noextents 4 ex_disks 0).2.log =
      [OsCall.CreateFileA (Path.volume 69) 100, OsCall.FSCTL_LOCK_VOLUME 100 true,
       OsCall.IOCTL_VOLUME_GET_VOLUME_DISK_EXTENTS 100 none,
       OsCall.FSCTL_DISMOUNT_VOLUME 100 true,
       OsCall.CreateFileA (Path.PhysicalDrive 7) 200] ∧
    handles_open (disks_open ex_win_noextents 4 ex_disks 0).2.log = [200, 100] ∧
    volumes_locked (disks_open ex_win_noextents 4 ex_disks 0).2.log = [100] :=
  ⟨⟨by decide, by decide, by decide, by decide⟩, rfl, rfl, rfl, rfl, rfl, rfl⟩

/-- C17, instance: target 1 is marked unavailable. -/
theorem disks_open_rejects_witness :
    ex_disks.disks_targets 1 = -1 ∧
    (disks_open ex_win 4 ex_disks 1).1 = -1 ∧ (-1 : HANDLE) ≠ NULL ∧
    (disks_open ex_win 4 ex_disks 1).2.log = [] ∧
    (disks_open ex_win 4 ex_disks 1).2.hTargetVolume = NULL :=
  have h := disks_open_rejects ex_win 4 ex_disks 1 (Or.inr (Or.inr (Or.inl rfl)))
  ⟨rfl, h.1, h.2.1, h.2.2.2.1, h.2.2.2.2⟩

/-- C18, failing inputs: `stream_open` returns 1 on an empty file, 2 on a zip entry with
the encryption flag, and 4 on a deflated zip entry when `inflateInit2` fails; each time it
has closed the file and left the pointer in the context, and `stream_close` on that context
calls `fclose` on the closed file. -/
theorem close_after_failed_open :
    (∃ c fl, stream_open ex_lib (fun _ => some (ex_raw 0)) 0 (some ex_name) = .ok (1, c) ∧
      c.f = some fl ∧ fl.closed = true ∧ stream_close c = .error .closed) ∧
    (∃ c fl, stream_open ex_lib (fun _ => some (ex_zip 1 0)) 0 (some ex_name) = .ok (2, c) ∧
      c.f = some fl ∧ fl.closed = true ∧ stream_close c = .error .closed) ∧
    (∃ c fl, stream_open ex_lib_nomem (fun _ => some (ex_zip 0 8)) 0 (some ex_name) =
        .ok (4, c) ∧
      c.f = some fl ∧ fl.closed = true ∧ stream_close c = .error .closed) :=
  ⟨⟨_, _, rfl, rfl, rfl, rfl⟩, ⟨_, _, rfl, rfl, rfl, rfl⟩, ⟨_, _, rfl, rfl, rfl, rfl⟩⟩

/-- C19, instance of the amended claim: two calls of `disks_close` after a successful
`disks_open` of target 0, and `stream_close` on the zeroed context. -/
theorem close_twice_witness :
    ((disks_close ex_win (disks_close ex_win (disks_open ex_win 4 ex_disks 0).2 200) 200).log =
        (disks_close ex_win (disks_open ex_win 4 ex_disks 0).2 200).log ++
          [OsCall.CloseHandle 200] ∧
      (disks_close ex_win (disks_close ex_win (disks_open ex_win 4 ex_disks 0).2 200)
        200).hTargetVolume = NULL) ∧
    stream_close stream_t.zero = .ok ([], stream_t.zero) :=
  have h := close_twice ex_win (disks_open ex_win 4 ex_disks 0).2 200 stream_t.zero rfl rfl
  ⟨⟨h.1.1, h.1.2.2.1⟩, h.2⟩

/-- C19, counterexample: (a) `disks_open` of target 0 succeeds with the handle 200; the
first `disks_close` closes 200, requests the unlock of the volume handle 100 and closes it;
the second `disks_close` calls `CloseHandle` on 200 again; (b) on the context of an opened
raw image the first `stream_close` calls `fclose`, and the second calls `fclose` on the
closed file. -/
theorem close_twice_repeats :
    ((disks_open ex_win 4 ex_disks 0).1 = 200 ∧
      (disks_close ex_win (disks_open ex_win 4 ex_disks 0).2 200).log =
        [OsCall.CreateFileA (Path.volume 69) 100, OsCall.FSCTL_LOCK_VOLUME 100 true,
         OsCall.IOCTL_VOLUME_GET_VOLUME_DISK_EXTENTS 100 (some 1),
         OsCall.FSCTL_DISMOUNT_VOLUME 100 true,
         OsCall.CreateFileA (Path.PhysicalDrive 1) 200,
         OsCall.CloseHandle 200, OsCall.FSCTL_UNLOCK_VOLUME 100 true, OsCall.CloseHandle 100] ∧
      (disks_close ex_win (disks_close ex_win (disks_open ex_win 4 ex_disks 0).2 200) 200).log =
        [OsCall.CreateFileA (Path.volume 69) 100, OsCall.FSCTL_LOCK_VOLUME 100 true,
         OsCall.IOCTL_VOLUME_GET_VOLUME_DISK_EXTENTS 100 (some 1),
         OsCall.FSCTL_DISMOUNT_VOLUME 100 true,
         OsCall.CreateFileA (Path.PhysicalDrive 1) 200,
         OsCall.CloseHandle 200, OsCall.FSCTL_UNLOCK_VOLUME 100 true, OsCall.CloseHandle 100,
         OsCall.CloseHandle 200]) ∧
    (∃ c, stream_close (ex_raw_ctx 510) = .ok ([CloseOp.fclose], c) ∧
      stream_close c = .error .closed) :=
  ⟨⟨rfl, rfl, rfl⟩, ⟨_, rfl, rfl⟩⟩

/-- C20, failing input: target 0 (volume `E`) when the volume cannot be opened.
`disks_open` returns NULL and leaves `INVALID_HANDLE_VALUE` in `hTargetVolume`; `disks_close`
on the returned NULL then requests an unlock on `INVALID_HANDLE_VALUE` and calls `CloseHandle`
on it. -/
theorem disks_close_after_failed_volume_open :
    valid_target 4 ex_disks 0 ∧
    (disks_open ex_win_novolume 4 ex_disks 0).1 = NULL ∧
    (disks_open ex_win_novolume 4 ex_disks 0).2.hTargetVolume = INVALID_HANDLE_VALUE ∧
    (disks_open ex_win_novolume 4 ex_disks 0).2.hTargetVolume ≠ NULL ∧
    (disks_open ex_win_novolume 4 ex_disks 0).2.log =
      [OsCall.CreateFileA (Path.volume 69) INVALID_HANDLE_VALUE] ∧
    (disks_close ex_win_novolume (disks_open ex_win_novolume 4 ex_disks 0).2 NULL).log =
      [OsCall.CreateFileA (Path.volume 69) INVALID_HANDLE_VALUE, OsCall.CloseHandle NULL,
       OsCall.FSCTL_UNLOCK_VOLUME INVALID_HANDLE_VALUE true,
       OsCall.CloseHandle INVALID_HANDLE_VALUE] :=
  ⟨⟨by decide, by decide, by decide, by decide⟩, rfl, rfl, by decide, rfl, rfl⟩

/-- C13, instance of the amended claim: the 5 bytes "hello", written in two chunks, come
back as a chunk of 512 bytes: the 5 bytes and 507 zero bytes. -/
theorem plain_round_trip_witness :
    ∃ ctx1 rs ctx2, stream_create ex_out 0 (some ex_name) 0 5 = (0, ctx1) ∧
      write_calls ex_out ctx1 [[0x68, 0x65], [0x6c, 0x6c, 0x6f]] = .ok (rs, ctx2) ∧
      ∃ ctx3 d ctx4 out, stream_close ctx2 = .ok ([CloseOp.fclose], ctx3) ∧
        ctx3.f.map FILE.data = some d ∧
        stream_open ex_lib (fun _ => some d) 0 (some ex_name) = .ok (0, ctx4) ∧
        read_all ex_lib 0 2 ctx4 (fun _ => 0) = .ok (512, out, 0) ∧
        out 0 = 0x68 ∧ out 4 = 0x6f ∧ out 5 = 0 ∧ out 511 = 0 := by
  have h1 : ∃ ctx1 rs ctx2, stream_create ex_out 0 (some ex_name) 0 ex_bytes.length = (0, ctx1) ∧
      write_calls ex_out ctx1 [[0x68, 0x65], [0x6c, 0x6c, 0x6f]] = .ok (rs, ctx2) ∧
      ∀ r ∈ rs, r ≠ 0 := ⟨_, _, _, rfl, rfl, by decide⟩
  obtain ⟨ctx1, rs, ctx2, hc, hw, hok⟩ := h1
  obtain ⟨ctx3, d, ctx4, out, h3, h4, -, h5, -, h6, h7, h8⟩ :=
    plain_round_trip ex_lib ex_out 0 0 0 2 ex_name [[0x68, 0x65], [0x6c, 0x6c, 0x6f]] ex_bytes
      (fun _ => 0) ctx1 ctx2 rs rfl (by decide) (by decide)
      (by unfold HasMagic; decide) hc hw hok (by decide)
  exact ⟨ctx1, rs, ctx2, hc, hw, ctx3, d, ctx4, out, h3, h4, h5, h6,
    h7 0 (by decide), h7 4 (by decide), h8 5 (by decide) (by decide),
    h8 511 (by decide) (by decide)⟩

/-- C13, counterexample: the 7 bytes `50 4B 03 04 14 00 01` are written through
`stream_create(comp = 0, size = 7)` and one `stream_write`, which returns 7; the file holds
these 7 bytes, and `stream_open` on it returns 2: the bytes start like a zip local header
with the encryption flag, and no chunk can be read back. -/
theorem plain_round_trip_magic :
    ∃ ctx1 ctx2 ctx3 d ctx4, stream_create ex_out 0 (some ex_name) 0 7 = (0, ctx1) ∧
      write_calls ex_out ctx1 [ex_bytes_zip] = .ok ([7], ctx2) ∧
      stream_close ctx2 = .ok ([CloseOp.fclose], ctx3) ∧
      ctx3.f.map FILE.data = some d ∧ d.size = 7 ∧
      (List.range 7).map d.get = ex_bytes_zip ∧
      stream_open ex_lib (fun _ => some d) 0 (some ex_name) = .ok (2, ctx4) :=
  ⟨_, _, _, _, _, rfl, rfl, rfl, rfl, rfl, rfl, rfl⟩

set_option maxRecDepth 100000 in
/-- C21, failing inputs: (a) on the gzip file of 17 bytes `stream_open` returns 0 with
`fileSize = 0` (the trailer) and `compSize = 2 ^ 64 - 1` (17 - 8 - 10 as a `uint64_t`); the
percentage divisor `compSize + 1` is then 0, and `stream_status` divides by zero at any time;
(b) on the truncated bzip2 zip entry with the declared size 0, the first `stream_read` fails
to refill and returns 0 with `cmrdSize = 0`, the second runs the decoder on the pending
input and returns 512; `stream_status` then passes the test on `readSize` and divides by
`cmrdSize = 0`. -/
theorem status_divides_by_zero :
    (∃ ctx0, stream_open ex_lib (fun _ => some ex_gzip_wrap) 1000 (some ex_name) =
        .ok (0, ctx0) ∧
      ctx0.type = TYPE_DEFLATE ∧ ctx0.fileSize = 0 ∧ ctx0.compSize = 2 ^ 64 - 1 ∧
      ctx0.readSize = 0 ∧ (ctx0.compSize + 1) % 2 ^ 64 = 0 ∧
      stream_status ctx0 1000 = .error .div0 ∧ stream_status ctx0 1060 = .error .div0) ∧
    (∃ ctx0 ctx1 b1 ctx2 b2,
      stream_open ex_lib_one (fun _ => some ex_zip_bzip2_truncated) 0 (some ex_name) =
        .ok (0, ctx0) ∧
      stream_read ex_lib_one 1 ctx0 (fun _ => 0) = .ok (0, ctx1, b1) ∧
      stream_read ex_lib_one 1 ctx1 b1 = .ok (512, ctx2, b2) ∧
      ctx2.type = TYPE_BZIP2 ∧ ctx2.fileSize = 0 ∧ ctx2.compSize = 16 ∧ ctx2.readSize = 512 ∧
      ctx2.cmrdSize = 0 ∧ ctx2.start = 0 ∧
      stream_status ctx2 60 = .error .div0) :=
  ⟨⟨_, rfl, rfl, rfl, rfl, rfl, rfl, rfl, rfl⟩,
   ⟨_, _, _, _, _, rfl, rfl, rfl, rfl, rfl, rfl, rfl, rfl, rfl, rfl⟩⟩
end UsbImager
